import Mathlib

/-!
# Gofermart: ledger, order register, reconciliation worker and Luhn validator

A shallow embedding of `internal/service`, `internal/storage` and
`internal/handlers` of the gofermart loyalty backend, followed by the
properties proved about it.

Conventions of the embedding

* Go `float64` amounts and the SQL arithmetic on them are taken over `ℚ`
  (exact arithmetic, no rounding, no NaN).
* The database is a record of tables, each a list of rows in insertion order.
  Timestamps (`uploaded_at`, `processed_at`) are not modelled.
* A storage method is a function from the database to the new database and
  the returned error.  A driver failure is an explicit argument of the
  method (`fail`, `Fault`).
* The clock is an argument: `now` is `time.Now().Unix()`, in seconds.  The
  keyed hash of the tokens (HMAC-SHA256, library code) is the parameter
  `hmacSHA256` of the token functions; bytes are `Fin 256`.  The password
  hash (bcrypt, library code) is the parameter `bcrypt` of registration and
  login.
* A handler returns the response it writes: status code, `Authorization`
  header and body.
* The oracle is a function from the order number to its answer, per tick.
-/

namespace Gofermart

/-! ## `internal/service/luhn.go` -/

/-- The `for i, c := range number` loop of `CheckNumberByLuhn`.  `i` is the
byte offset of the rune `c` (Go ranges over a string by byte offset), `d` is
the parity selected from `len(number)`, `sum` the accumulator.  `none` is the
early `return false` on a rune outside `'0'..'9'`.  Bytes that are not valid
UTF-8 reach the loop as the rune U+FFFD, which is such a rune.  `sum` stays
far below the range of Go's `int` (at most 9 per byte of input). -/
def luhnLoop (d : Nat) : List Char → Nat → Nat → Option Nat
  | [], _, sum => some sum
  | c :: cs, i, sum =>
    if c < '0' ∨ c > '9' then none
    else
      let n := c.toNat - '0'.toNat
      if i % 2 = d then
        if n * 2 > 9 then luhnLoop d cs (i + c.utf8Size) (sum + n * 2 - 9)
        else luhnLoop d cs (i + c.utf8Size) (sum + n * 2)
      else luhnLoop d cs (i + c.utf8Size) (sum + n)

/-- Embedding of `CheckNumberByLuhn(number string) bool`. -/
def CheckNumberByLuhn (number : String) : Bool :=
  let d := if number.utf8ByteSize % 2 = 1 then 1 else 0
  match luhnLoop d number.data 0 0 with
  | none => false
  | some sum => sum % 10 == 0

/-- Value of a decimal digit character. -/
def digitValue (c : Char) : Nat := c.toNat - '0'.toNat

/-- Reference Luhn sum, following the specification text: the digits are
listed starting from the rightmost one; every second digit is doubled and 9 is
subtracted from a doubled value above 9; everything is added up. -/
def luhnReferenceSum : List Nat → Nat
  | [] => 0
  | [a] => a
  | a :: b :: rest =>
    a + (if 2 * b > 9 then 2 * b - 9 else 2 * b) + luhnReferenceSum rest

/-- Reference Luhn check of the specification: the reference sum of the
digits, counted from the right, is divisible by 10. -/
def luhnReference (number : String) : Bool :=
  luhnReferenceSum (number.data.reverse.map digitValue) % 10 == 0

/-! ## `internal/entity.go` -/

abbrev UserID := Int

abbrev OrderNumber := String

/-- The four values of `internal.OrderStatus`. -/
inductive OrderStatus where
  | New
  | Processing
  | Invalid
  | Processed
  deriving DecidableEq, Repr

structure ProcessingOrder where
  Number : OrderNumber
  Status : OrderStatus
  Accrual : Option ℚ
  UserID : UserID

structure Balance where
  Current : ℚ
  Withdrawn : ℚ

structure WithdrawReq where
  Number : OrderNumber
  Sum : ℚ
  UserID : UserID

/-! ## `internal/storage`: errors and tables -/

/-- The sentinel errors of `storage` and `service`; `Wrapped` stands for any
other error (a driver error wrapped by `fmt.Errorf`). -/
inductive Err where
  | ErrNotFound
  | ErrAlreadyExists
  | ErrExistingOrderForUser
  | ErrExistingOrderForOtherUser
  | ErrIncorrectOrderNumber
  | ErrInsufficientFunds
  | ErrIncorrectPassword
  | ErrUnauthorized
  | Wrapped (msg : String)
  deriving DecidableEq, Repr

/-- Row of `users`. -/
structure UserRow where
  id : UserID
  login : String
  password : String

/-- Row of `orders` (without `uploaded_at`). -/
structure OrderRow where
  number : OrderNumber
  user_id : UserID
  status : OrderStatus
  accrual : Option ℚ

/-- Row of `transactions`, the ledger (without `processed_at`).  `number` is
the order-number column: the credit, debit and withdrawals statements call it
`number`, the first-row insert of `AddUser` calls it `order_number`. -/
structure TransactionRow where
  id : Int
  number : Option OrderNumber
  user_id : UserID
  sum : ℚ
  balance : ℚ
  withdrawals : ℚ

/-- Modelled from the spec: the table declarations (the migrations) are not
among the sources.  Following the persisted layout of the specification the
database holds `users(id, login, password_hash)` with a generated `id` and a
unique `login`, `orders(number PK, ...)` and the ledger; `userSeq` is the last
value handed out by the generator of `users.id`. -/
structure DB where
  users : List UserRow
  userSeq : Int
  orders : List OrderRow
  transactions : List TransactionRow

/-- The database before any registration. -/
def DB.empty : DB :=
  { users := [], userSeq := 0, orders := [], transactions := [] }

/-- Where a driver error strikes inside a two-statement transaction
(`AddUser`, `UpdateOrderAccrual`). -/
inductive Fault where
  | none
  | begin
  | first
  | second
  | commit
  deriving DecidableEq, Repr

/-! ## `internal/storage/db_order_storage.go` -/

/-- `ORDER BY id DESC LIMIT 1` over the selected ledger rows. -/
def maxByID : List TransactionRow → Option TransactionRow
  | [] => none
  | t :: ts =>
    match maxByID ts with
    | none => some t
    | some m => if m.id ≤ t.id then some t else some m

/-- `SELECT ... FROM transactions WHERE user_id = $1 ORDER BY id DESC LIMIT 1`. -/
def latestTransaction (db : DB) (userID : UserID) : Option TransactionRow :=
  maxByID (db.transactions.filter (fun t => t.user_id = userID))

/-- The statement `insertCreditTrSQL`: one row is appended after the latest
row of the user; no row when the user has none. -/
def insertCreditTransaction (db : DB) (number : OrderNumber) (userID : UserID)
    (sum : ℚ) : DB :=
  match latestTransaction db userID with
  | none => db
  | some a =>
    { db with transactions := db.transactions ++
        [{ id := a.id + 1, number := some number, user_id := userID, sum := sum,
           balance := a.balance + sum, withdrawals := a.withdrawals }] }

/-- The statement `insertDebitTrSQL` with its `RETURNING id`: the row is
appended only `WHERE balance >= $3`. -/
def insertDebitTransaction (db : DB) (number : OrderNumber) (userID : UserID)
    (sum : ℚ) : DB × Option Int :=
  match latestTransaction db userID with
  | none => (db, none)
  | some a =>
    if a.balance ≥ sum then
      ({ db with transactions := db.transactions ++
          [{ id := a.id + 1, number := some number, user_id := userID,
             sum := -1 * sum, balance := a.balance - sum,
             withdrawals := a.withdrawals + sum }] }, some (a.id + 1))
    else (db, none)

/-- `UPDATE orders SET status = $1 WHERE number = $2`. -/
def updateOrderStatus (db : DB) (status : OrderStatus) (number : OrderNumber) : DB :=
  let rows : List OrderRow := db.orders.map
    (fun o => if o.number = number then { o with status := status } else o)
  { db with orders := rows }

/-- `UPDATE orders SET status = $1, accrual = $2 WHERE number = $3`. -/
def updateOrder (db : DB) (status : OrderStatus) (accrual : Option ℚ)
    (number : OrderNumber) : DB :=
  let rows : List OrderRow := db.orders.map
    (fun o => if o.number = number
      then { o with status := status, accrual := accrual } else o)
  { db with orders := rows }

/-- The value of a string of decimal digits. -/
def decimalValue (ds : List Char) : Nat :=
  ds.foldl (fun acc c => acc * 10 + (c.toNat - '0'.toNat)) 0

/-- Whether `row.Scan` can store the returned string into an `int`:
`database/sql` converts it with `strconv.ParseInt(s, 10, 64)`, which wants an
optional sign, at least one digit, only decimal digits, and a value within
the 64-bit range. -/
def scansAsInt (s : String) : Bool :=
  match s.data with
  | '-' :: ds =>
    decide (ds ≠ [] ∧ (∀ c ∈ ds, '0' ≤ c ∧ c ≤ '9') ∧ decimalValue ds ≤ 2 ^ 63)
  | '+' :: ds =>
    decide (ds ≠ [] ∧ (∀ c ∈ ds, '0' ≤ c ∧ c ≤ '9') ∧ decimalValue ds < 2 ^ 63)
  | ds =>
    decide (ds ≠ [] ∧ (∀ c ∈ ds, '0' ≤ c ∧ c ≤ '9') ∧ decimalValue ds < 2 ^ 63)

/-- What can go wrong in `AddOrder` on the driver's side: the statement is
not executed, or it is executed and reading the returned row fails. -/
inductive AddOrderFault where
  | none
  | exec
  | scan
  deriving DecidableEq, Repr

/-- Embedding of `DBOrderStorage.AddOrder`
(`INSERT ... ON CONFLICT DO NOTHING RETURNING number`).  The statement runs
on its own; the returned `number` is then scanned into `var id int`, and a
number that does not convert makes `Scan` fail after the row is written
(the column holds the number as the string it was given, as `GetOrders`
reads it back into a string). -/
def DBOrderStorage.AddOrder (db : DB) (fault : AddOrderFault) (userID : UserID)
    (number : OrderNumber) : DB × Option Err :=
  if fault = AddOrderFault.exec then (db, some (Err.Wrapped "insert order error"))
  else if db.orders.any (fun o => o.number = number) then (db, some Err.ErrAlreadyExists)
  else
    let db1 : DB := { db with orders := db.orders ++
      [{ number := number, user_id := userID, status := OrderStatus.New, accrual := none }] }
    if fault = AddOrderFault.scan ∨ scansAsInt number = false then
      (db1, some (Err.Wrapped "insert order error"))
    else (db1, none)

/-- Embedding of `DBOrderStorage.GetOrderUser`. -/
def DBOrderStorage.GetOrderUser (db : DB) (fail : Bool) (number : OrderNumber) :
    Except Err UserID :=
  if fail then Except.error (Err.Wrapped "get order user error")
  else
    match db.orders.find? (fun o => o.number = number) with
    | none => Except.error Err.ErrNotFound
    | some o => Except.ok o.user_id

/-- Embedding of `DBOrderStorage.GetNotProcessedOrders`
(`WHERE status not in (Processed, Invalid)`). -/
def DBOrderStorage.GetNotProcessedOrders (db : DB) (fail : Bool) :
    Except Err (List ProcessingOrder) :=
  if fail then Except.error (Err.Wrapped "query error")
  else
    Except.ok ((db.orders.filter
      (fun o => o.status ≠ OrderStatus.Processed ∧ o.status ≠ OrderStatus.Invalid)).map
      (fun o => { Number := o.number, Status := o.status, Accrual := o.accrual,
                  UserID := o.user_id }))

/-- Embedding of `DBOrderStorage.UpdateOrderStatus`. -/
def DBOrderStorage.UpdateOrderStatus (db : DB) (fail : Bool) (order : ProcessingOrder) :
    DB × Option Err :=
  if fail then (db, some (Err.Wrapped "update order status error"))
  else (updateOrderStatus db order.Status order.Number, none)

/-- Embedding of `DBOrderStorage.UpdateOrderAccrual`: both statements run in
one transaction, and every error path leaves through the deferred
`tx.Rollback()`.  The amount columns of the ledger are not nullable (persisted
layout of the specification), so a nil `order.Accrual` makes the insert fail;
the worker only calls this method with a non-nil accrual. -/
def DBOrderStorage.UpdateOrderAccrual (db : DB) (fault : Fault) (order : ProcessingOrder) :
    DB × Option Err :=
  if fault = Fault.begin then (db, some (Err.Wrapped "begin transaction error"))
  else
    let tx1 := updateOrder db order.Status order.Accrual order.Number
    if fault = Fault.first then (db, some (Err.Wrapped "update order error"))
    else
      match order.Accrual with
      | none => (db, some (Err.Wrapped "insert credit transaction error"))
      | some accrual =>
        let tx2 := insertCreditTransaction tx1 order.Number order.UserID accrual
        if fault = Fault.second then
          (db, some (Err.Wrapped "insert credit transaction error"))
        else if fault = Fault.commit then (db, some (Err.Wrapped "commit error"))
        else (tx2, none)

/-- Embedding of `DBOrderStorage.GetBalance`. -/
def DBOrderStorage.GetBalance (db : DB) (fail : Bool) (userID : UserID) :
    Except Err Balance :=
  if fail then Except.error (Err.Wrapped "get balance error")
  else
    match latestTransaction db userID with
    | none => Except.error (Err.Wrapped "get balance error")
    | some t => Except.ok { Current := t.balance, Withdrawn := t.withdrawals }

/-- Embedding of `DBOrderStorage.Withdraw`: `sql.ErrNoRows` from the
`RETURNING id` becomes `ErrNotFound`. -/
def DBOrderStorage.Withdraw (db : DB) (fail : Bool) (withdraw : WithdrawReq) :
    DB × Option Err :=
  if fail then (db, some (Err.Wrapped "insert debit transaction error"))
  else
    match insertDebitTransaction db withdraw.Number withdraw.UserID withdraw.Sum with
    | (db1, none) => (db1, some Err.ErrNotFound)
    | (db1, some _) => (db1, none)

/-! ## `internal/storage/db_user_storage.go` -/

/-- Embedding of `DBUserStorage.AddUser`: the user row and the sequence-0
ledger row are written in one transaction.  The generator of `users.id`
advances whenever the insert statement runs, also when the row conflicts or
the transaction is rolled back. -/
def DBUserStorage.AddUser (db : DB) (fault : Fault) (login hashedPass : String) :
    DB × Except Err UserID :=
  if fault = Fault.begin then (db, Except.error (Err.Wrapped "begin transaction error"))
  else if fault = Fault.first then (db, Except.error (Err.Wrapped "insert user error"))
  else
    let db0 : DB := { db with userSeq := db.userSeq + 1 }
    if db.users.any (fun r => r.login = login) then (db0, Except.error Err.ErrAlreadyExists)
    else
      let id := db.userSeq + 1
      let tx1 : DB := { db0 with users := db0.users ++
        [{ id := id, login := login, password := hashedPass }] }
      let tx2 : DB := { tx1 with transactions := tx1.transactions ++
        [{ id := 0, number := none, user_id := id, sum := 0, balance := 0,
           withdrawals := 0 }] }
      if fault = Fault.second then
        (db0, Except.error (Err.Wrapped "insert first user transaction error"))
      else if fault = Fault.commit then (db0, Except.error (Err.Wrapped "commit error"))
      else (tx2, Except.ok id)

/-! ## `internal/service/order_service.go` -/

/-- Embedding of `OrderServiceImpl.UploadOrder`. -/
def OrderServiceImpl.UploadOrder (db : DB) (fault : AddOrderFault) (getFails : Bool)
    (userID : UserID) (number : OrderNumber) : DB × Option Err :=
  if !CheckNumberByLuhn number then (db, some Err.ErrIncorrectOrderNumber)
  else
    match DBOrderStorage.AddOrder db fault userID number with
    | (db1, some Err.ErrAlreadyExists) =>
      match DBOrderStorage.GetOrderUser db1 getFails number with
      | Except.error err => (db1, some err)
      | Except.ok orderUser =>
        if orderUser = userID then (db1, some Err.ErrExistingOrderForUser)
        else (db1, some Err.ErrExistingOrderForOtherUser)
    | (db1, some err) => (db1, some err)
    | (db1, none) => (db1, none)

/-- Embedding of `OrderServiceImpl.GetBalance`. -/
def OrderServiceImpl.GetBalance (db : DB) (fail : Bool) (userID : UserID) :
    Except Err Balance :=
  DBOrderStorage.GetBalance db fail userID

/-- Embedding of `OrderServiceImpl.Withdraw`. -/
def OrderServiceImpl.Withdraw (db : DB) (fail : Bool) (withdraw : WithdrawReq) :
    DB × Option Err :=
  if !CheckNumberByLuhn withdraw.Number then (db, some Err.ErrIncorrectOrderNumber)
  else
    match DBOrderStorage.Withdraw db fail withdraw with
    | (db1, some Err.ErrNotFound) => (db1, some Err.ErrInsufficientFunds)
    | (db1, err) => (db1, err)

/-! ## `internal/handlers/order_handler.go` -/

/-- Embedding of `OrderHandler.ValidateWithdrawReq` (the boolean result). -/
def ValidateWithdrawReq (data : WithdrawReq) : Bool :=
  if data.Number = "" then false
  else if data.Sum = 0 then false
  else true

/-! ## `internal/service/client.go`, `internal/service/order_worker.go` -/

def StatusInvalid : String := "INVALID"

def StatusProcessing : String := "PROCESSING"

def StatusProcessed : String := "PROCESSED"

/-- The decoded body of an oracle response. -/
structure AccrualOrder where
  Number : String
  Status : String
  Accrual : Option ℚ

/-- The interface `AccrualClient`: the answer to `GetAccrual(orderNumber)`,
an error for a transport failure, an unreadable body or a status other
than 200. -/
abbrev AccrualClient := String → Except Err AccrualOrder

/-- Embedding of `OrderWorker.processOrder`. -/
def OrderWorker.processOrder (client : AccrualClient) (order : ProcessingOrder) :
    Except Err ProcessingOrder :=
  match client order.Number with
  | Except.error err => Except.error err
  | Except.ok accrual =>
    if accrual.Status = StatusInvalid then
      let result : ProcessingOrder := { order with Status := OrderStatus.Invalid }
      Except.ok result
    else if accrual.Status = StatusProcessing then
      let result : ProcessingOrder := { order with Status := OrderStatus.Processing }
      Except.ok result
    else if accrual.Status = StatusProcessed then
      let result : ProcessingOrder :=
        { order with Status := OrderStatus.Processed, Accrual := accrual.Accrual }
      Except.ok result
    else Except.ok order

/-- Driver failures during one tick: of the pending-orders query, and of the
store update issued for each order. -/
structure TickFaults where
  getNotProcessed : Bool
  update : OrderNumber → Fault

/-- The body of the `for _, order := range orders` loop of
`OrderWorker.process`: the oracle is asked, and on an answer one store update
is issued (its error is only logged). -/
def OrderWorker.processOne (client : AccrualClient) (faults : TickFaults) (db : DB)
    (order : ProcessingOrder) : DB :=
  match OrderWorker.processOrder client order with
  | Except.error _ => db
  | Except.ok processedOrder =>
    if processedOrder.Accrual ≠ none then
      (DBOrderStorage.UpdateOrderAccrual db (faults.update order.Number) processedOrder).1
    else
      (DBOrderStorage.UpdateOrderStatus db
        (decide (faults.update order.Number ≠ Fault.none)) processedOrder).1

/-- The `for _, order := range orders` loop of `OrderWorker.process`. -/
def OrderWorker.processOrders (client : AccrualClient) (faults : TickFaults) :
    List ProcessingOrder → DB → DB
  | [], db => db
  | order :: rest, db =>
    OrderWorker.processOrders client faults rest
      (OrderWorker.processOne client faults db order)

/-- Embedding of `OrderWorker.process`, one tick of the worker. -/
def OrderWorker.process (client : AccrualClient) (faults : TickFaults) (db : DB) : DB :=
  match DBOrderStorage.GetNotProcessedOrders db faults.getNotProcessed with
  | Except.error _ => db
  | Except.ok orders => OrderWorker.processOrders client faults orders db

/-! ## Executions -/

/-- One request or one worker tick, with the driver failures it meets. -/
inductive Action where
  | AddUser (fault : Fault) (login hashedPass : String)
  | UploadOrder (fault : AddOrderFault) (getFails : Bool) (userID : UserID)
      (number : OrderNumber)
  | Withdraw (fail : Bool) (req : WithdrawReq)
  | process (client : AccrualClient) (faults : TickFaults)

/-- The database after an action. -/
def step (db : DB) : Action → DB
  | Action.AddUser fault login hashedPass =>
    (DBUserStorage.AddUser db fault login hashedPass).1
  | Action.UploadOrder fault getFails userID number =>
    (OrderServiceImpl.UploadOrder db fault getFails userID number).1
  | Action.Withdraw fail req => (OrderServiceImpl.Withdraw db fail req).1
  | Action.process client faults => OrderWorker.process client faults db

/-- The user id belongs to a row of `users`. -/
def registered (db : DB) (userID : UserID) : Prop :=
  ∃ r ∈ db.users, r.id = userID

/-- States reachable from the empty database by actions that satisfy `ok` in
the state where they are issued. -/
inductive Reachable (ok : DB → Action → Prop) : DB → Prop where
  | init : Reachable ok DB.empty
  | step (db : DB) (a : Action) : Reachable ok db → ok db a → Reachable ok (step db a)

/-! ## Auxiliary definitions of the Luhn proof -/

/-- Contribution of one digit to the Luhn sum. -/
def luhnDigit (doubled : Bool) (n : Nat) : Nat :=
  if doubled then (if n * 2 > 9 then n * 2 - 9 else n * 2) else n

/-- The sum accumulated by the loop, as a function of the digit values. -/
def luhnLeftSum (d : Nat) : Nat → List Nat → Nat
  | _, [] => 0
  | i, n :: ns => luhnDigit (decide (i % 2 = d)) n + luhnLeftSum d (i + 1) ns

/-! ## The scenario of the specification, as concrete databases -/

/-- The ledger of the scenario of the specification after the credit of 500. -/
def ledger500 : DB :=
  { users := [{ id := 1, login := "alice", password := "hash" }], userSeq := 1,
    orders := [{ number := "12345678903", user_id := 1, status := OrderStatus.Processed,
                 accrual := some 500 }],
    transactions := [{ id := 0, number := none, user_id := 1, sum := 0, balance := 0,
                       withdrawals := 0 },
                     { id := 1, number := some "12345678903", user_id := 1, sum := 500,
                       balance := 500, withdrawals := 0 }] }

/-- The latest ledger row of the user in `ledger500`. -/
def row500 : TransactionRow :=
  { id := 1, number := some "12345678903", user_id := 1, sum := 500, balance := 500,
    withdrawals := 0 }

/-- The scenario of the specification before the worker's tick: a fresh user
and the uploaded order. -/
def ledgerFresh : DB :=
  { users := [{ id := 1, login := "alice", password := "hash" }], userSeq := 1,
    orders := [{ number := "12345678903", user_id := 1, status := OrderStatus.New,
                 accrual := none }],
    transactions := [{ id := 0, number := none, user_id := 1, sum := 0, balance := 0,
                       withdrawals := 0 }] }

/-- The first ledger row of the user in `ledgerFresh`. -/
def row0 : TransactionRow :=
  { id := 0, number := none, user_id := 1, sum := 0, balance := 0, withdrawals := 0 }

/-- The update the worker issues for an oracle answer `PROCESSED`, accrual 500. -/
def order500 : ProcessingOrder :=
  { Number := "12345678903", Status := OrderStatus.Processed, Accrual := some 500, UserID := 1 }

/-! ## Executions and invariants of the ledger properties -/

/-- The actions of C3: any registration, upload and `Withdraw` request (any
sum), and worker ticks in which every accrual carried by an oracle answer is
non-negative. -/
def nonNegativeAccruals (_db : DB) : Action → Prop
  | Action.process client _ =>
    ∀ n acc a, client n = Except.ok acc → acc.Accrual = some a → 0 ≤ a
  | _ => True

/-- The invariant behind C3: no ledger row has a negative balance and no
order row a negative accrual. -/
def BalanceInv (db : DB) : Prop :=
  (∀ t ∈ db.transactions, 0 ≤ t.balance) ∧
  (∀ o ∈ db.orders, ∀ b, o.accrual = some b → 0 ≤ b)

/-- Order numbers are unique, and only a Processed order carries an accrual. -/
def OrdersInv (db : DB) : Prop :=
  (db.orders.map (fun o => o.number)).Nodup ∧
  (∀ o ∈ db.orders, o.status ≠ OrderStatus.Processed → o.accrual = none)

/-- The order `po`, read by `GetNotProcessedOrders` at the start of a tick, is
still as it was read: its row exists with the same owner, is not Processed, and
no accrual was read. -/
def PendingIn (db : DB) (po : ProcessingOrder) : Prop :=
  po.Accrual = none ∧ po.Status ≠ OrderStatus.Processed ∧
  (∃ o ∈ db.orders, o.number = po.Number ∧ o.user_id = po.UserID) ∧
  (∀ o ∈ db.orders, o.number = po.Number → o.status ≠ OrderStatus.Processed)

/-- The ledger rows that carry the order number `O`. -/
def entriesOf (db : DB) (O : OrderNumber) : List TransactionRow :=
  db.transactions.filter (fun t => t.number = some O)

/-- Executions in which no `Withdraw` request names the order number `O`;
everything else is free (sums, oracle answers, driver failures). -/
def withdrawalsAvoid (O : OrderNumber) (_db : DB) : Action → Prop
  | Action.Withdraw _ req => req.Number ≠ O
  | _ => True

/-- The invariant behind C7, for the order number `O`. -/
def CreditInv (O : OrderNumber) (db : DB) : Prop :=
  OrdersInv db ∧
  (∀ t ∈ db.transactions, t.number = some O →
    ∃ o ∈ db.orders, o.number = O ∧ o.status = OrderStatus.Processed ∧ o.user_id = t.user_id) ∧
  (entriesOf db O).length ≤ 1

/-- The ledger holds a credit entry for the order number `n`: a row with
that number and a non-negative amount (`GetWithdrawals` reads the rows with
`sum < 0` as the debits). -/
def creditEntryFor (db : DB) (n : OrderNumber) : Prop :=
  ∃ t ∈ db.transactions, t.number = some n ∧ 0 ≤ t.sum

/-- Requests as the Auth middleware lets them reach the service: an upload or
a withdrawal carries the id of a registered user. -/
def authenticated (db : DB) : Action → Prop
  | Action.UploadOrder _ _ userID _ => registered db userID
  | Action.Withdraw _ req => registered db req.UserID
  | _ => True

/-- The executions of the amended C6: uploads by registered users,
withdrawals of a positive sum, and oracle answers whose status `PROCESSED`
comes with a non-negative accrual. -/
def reconcilable (db : DB) : Action → Prop
  | Action.UploadOrder _ _ userID _ => registered db userID
  | Action.Withdraw _ req => 0 < req.Sum
  | Action.process client _ =>
    ∀ n acc, client n = Except.ok acc → acc.Status = StatusProcessed →
      ∃ a, acc.Accrual = some a ∧ 0 ≤ a
  | _ => True

/-- The invariant behind the amended C6. -/
def ReconciledInv (db : DB) : Prop :=
  OrdersInv db ∧
  (∀ r ∈ db.users, ∃ t ∈ db.transactions, t.user_id = r.id) ∧
  (∀ o ∈ db.orders, registered db o.user_id) ∧
  (∀ t ∈ db.transactions, ∀ n, t.number = some n → 0 ≤ t.sum →
    ∃ o ∈ db.orders, o.number = n ∧ o.status = OrderStatus.Processed) ∧
  (∀ o ∈ db.orders, o.status = OrderStatus.Processed → creditEntryFor db o.number)

/-! ## More states and actions of the scenario -/

/-- After `register "alice"`: the user and the sequence-0 ledger row. -/
def ledgerRegistered : DB :=
  { users := [{ id := 1, login := "alice", password := "hash" }], userSeq := 1,
    orders := [],
    transactions := [{ id := 0, number := none, user_id := 1, sum := 0, balance := 0,
                       withdrawals := 0 }] }

/-- After the withdrawal of 300 from `ledger500`. -/
def ledger200 : DB :=
  { users := [{ id := 1, login := "alice", password := "hash" }], userSeq := 1,
    orders := [{ number := "12345678903", user_id := 1, status := OrderStatus.Processed,
                 accrual := some 500 }],
    transactions := [{ id := 0, number := none, user_id := 1, sum := 0, balance := 0,
                       withdrawals := 0 },
                     { id := 1, number := some "12345678903", user_id := 1, sum := 500,
                       balance := 500, withdrawals := 0 },
                     { id := 2, number := some "2377225624", user_id := 1, sum := -300,
                       balance := 200, withdrawals := 300 }] }

/-- After a withdrawal of 300 from `ledger500` that names the credited order. -/
def ledgerTwoEntries : DB :=
  { users := [{ id := 1, login := "alice", password := "hash" }], userSeq := 1,
    orders := [{ number := "12345678903", user_id := 1, status := OrderStatus.Processed,
                 accrual := some 500 }],
    transactions := [{ id := 0, number := none, user_id := 1, sum := 0, balance := 0,
                       withdrawals := 0 },
                     { id := 1, number := some "12345678903", user_id := 1, sum := 500,
                       balance := 500, withdrawals := 0 },
                     { id := 2, number := some "12345678903", user_id := 1, sum := -300,
                       balance := 200, withdrawals := 300 }] }

/-- After a tick on `ledgerFresh` whose oracle answer is `PROCESSED` without
an accrual. -/
def ledgerNoCredit : DB :=
  { users := [{ id := 1, login := "alice", password := "hash" }], userSeq := 1,
    orders := [{ number := "12345678903", user_id := 1, status := OrderStatus.Processed,
                 accrual := none }],
    transactions := [{ id := 0, number := none, user_id := 1, sum := 0, balance := 0,
                       withdrawals := 0 }] }

/-- After a `Withdraw` of the sum -5 on `ledgerFresh`. -/
def ledgerNegative : DB :=
  { users := [{ id := 1, login := "alice", password := "hash" }], userSeq := 1,
    orders := [{ number := "12345678903", user_id := 1, status := OrderStatus.New,
                 accrual := none }],
    transactions := [{ id := 0, number := none, user_id := 1, sum := 0, balance := 0,
                       withdrawals := 0 },
                     { id := 1, number := some "2377225624", user_id := 1, sum := 5,
                       balance := 5, withdrawals := -5 }] }

/-- An oracle that answers `PROCESSED` with accrual 500 for every order. -/
def clientProcessed500 : AccrualClient :=
  fun n => Except.ok { Number := n, Status := StatusProcessed, Accrual := some 500 }

/-- An oracle that answers `PROCESSED` without an accrual. -/
def clientProcessedNoAccrual : AccrualClient :=
  fun n => Except.ok { Number := n, Status := StatusProcessed, Accrual := none }

/-- No driver failure during the tick. -/
def noFaults : TickFaults :=
  { getNotProcessed := false, update := fun _ => Fault.none }

/-- Registration of "alice", no driver failure. -/
def actRegister : Action := Action.AddUser Fault.none "alice" "hash"

/-- Upload of the order `12345678903` by user 1. -/
def actUpload : Action := Action.UploadOrder AddOrderFault.none false 1 "12345678903"

/-- A tick whose oracle answers `PROCESSED`, accrual 500. -/
def actCredit500 : Action := Action.process clientProcessed500 noFaults

/-- A tick whose oracle answers `PROCESSED` without an accrual. -/
def actProcessedNoAccrual : Action := Action.process clientProcessedNoAccrual noFaults

/-- Withdrawal of 300 against the order number `2377225624`. -/
def actWithdraw300 : Action :=
  Action.Withdraw false { Number := "2377225624", Sum := 300, UserID := 1 }

/-- Withdrawal of 300 that names the uploaded order `12345678903`. -/
def actWithdrawSameNumber : Action :=
  Action.Withdraw false { Number := "12345678903", Sum := 300, UserID := 1 }

/-- Withdrawal of the sum -5. -/
def actWithdrawNegative : Action :=
  Action.Withdraw false { Number := "2377225624", Sum := -5, UserID := 1 }

/-- The order row of `ledgerNoCredit`. -/
def orderNoCredit : OrderRow :=
  { number := "12345678903", user_id := 1, status := OrderStatus.Processed, accrual := none }

/-- The row appended by the `Withdraw` of the sum -5. -/
def rowNegative : TransactionRow :=
  { id := 1, number := some "2377225624", user_id := 1, sum := 5, balance := 5,
    withdrawals := -5 }

/-- The sum of the absolute values of the negative amounts of a list of
ledger rows: what the specification says `withdrawn` accumulates. -/
def absNegativeAmounts (rows : List TransactionRow) : ℚ :=
  ((rows.filter (fun t => t.sum < 0)).map (fun t => -t.sum)).sum

/-! ## `internal/service/auth_service.go`: tokens -/

/-- A byte. -/
abbrev Byte := Fin 256

/-- The low byte of a number, Go's `byte(v)`. -/
def toByte (v : Nat) : Byte := ⟨v % 256, Nat.mod_lt v (by decide)⟩

/-- Go's conversion `uint32(id)` of an `int`: the value modulo 2^32. -/
def uint32 (n : Int) : Nat := (n % 2 ^ 32).toNat

/-- Go's conversion `uint64(t)` of an `int64`: the value modulo 2^64. -/
def uint64 (n : Int) : Nat := (n % 2 ^ 64).toNat

/-- Go's conversion `int64(u)` of a `uint64`: two's complement. -/
def int64 (u : Nat) : Int :=
  if u % 2 ^ 64 < 2 ^ 63 then ((u % 2 ^ 64 : Nat) : Int) else ((u % 2 ^ 64 : Nat) : Int) - 2 ^ 64

/-- `binary.BigEndian.AppendUint32`. -/
def AppendUint32 (b : List Byte) (v : Nat) : List Byte :=
  b ++ [toByte (v / 2 ^ 24), toByte (v / 2 ^ 16), toByte (v / 2 ^ 8), toByte v]

/-- `binary.BigEndian.AppendUint64`. -/
def AppendUint64 (b : List Byte) (v : Nat) : List Byte :=
  b ++ [toByte (v / 2 ^ 56), toByte (v / 2 ^ 48), toByte (v / 2 ^ 40), toByte (v / 2 ^ 32),
        toByte (v / 2 ^ 24), toByte (v / 2 ^ 16), toByte (v / 2 ^ 8), toByte v]

/-- `binary.BigEndian.Uint32` of a slice of at least 4 bytes (Go panics on a
shorter one; `CheckToken` calls it on `data[:4]` after the length check). -/
def Uint32 : List Byte → Nat
  | b0 :: b1 :: b2 :: b3 :: _ =>
    b0.val * 2 ^ 24 + b1.val * 2 ^ 16 + b2.val * 2 ^ 8 + b3.val
  | _ => 0

/-- `binary.BigEndian.Uint64` of a slice of at least 8 bytes. -/
def Uint64 : List Byte → Nat
  | b0 :: b1 :: b2 :: b3 :: b4 :: b5 :: b6 :: b7 :: _ =>
    b0.val * 2 ^ 56 + b1.val * 2 ^ 48 + b2.val * 2 ^ 40 + b3.val * 2 ^ 32 +
      b4.val * 2 ^ 24 + b5.val * 2 ^ 16 + b6.val * 2 ^ 8 + b7.val
  | _ => 0

/-- The lower-case hexadecimal digit of a value below 16 (`hextable`). -/
def hexDigit : Nat → Char
  | 0 => '0' | 1 => '1' | 2 => '2' | 3 => '3' | 4 => '4' | 5 => '5' | 6 => '6' | 7 => '7'
  | 8 => '8' | 9 => '9' | 10 => 'a' | 11 => 'b' | 12 => 'c' | 13 => 'd' | 14 => 'e'
  | _ => 'f'

/-- The encoding loop of `hex.Encode`: two lower-case digits per byte. -/
def encodeHex : List Byte → List Char
  | [] => []
  | b :: bs => hexDigit (b.val / 16) :: hexDigit (b.val % 16) :: encodeHex bs

/-- `hex.EncodeToString`. -/
def EncodeToString (src : List Byte) : String := String.mk (encodeHex src)

/-- `fromHexChar` of `encoding/hex`: digits and letters of either case. -/
def fromHexChar (c : Char) : Option Nat :=
  if '0' ≤ c ∧ c ≤ '9' then some (c.toNat - '0'.toNat)
  else if 'a' ≤ c ∧ c ≤ 'f' then some (c.toNat - 'a'.toNat + 10)
  else if 'A' ≤ c ∧ c ≤ 'F' then some (c.toNat - 'A'.toNat + 10)
  else none

/-- The decoding loop of `hex.DecodeString`; `none` stands for its errors
(an invalid character, or an odd number of characters). -/
def decodeHex : List Char → Option (List Byte)
  | [] => some []
  | [_] => none
  | a :: b :: rest =>
    match fromHexChar a, fromHexChar b, decodeHex rest with
    | some x, some y, some bytes => some (toByte (x * 16 + y) :: bytes)
    | _, _, _ => none

/-- `hex.DecodeString`. -/
def DecodeString (s : String) : Option (List Byte) := decodeHex s.data

/-- The keyed MAC `hmac.New(sha256.New, key)` applied to a message: a function
of the key and the message (the hash itself is library code and is a
parameter of the token functions). -/
abbrev MAC := List Byte → List Byte → List Byte

/-- `tokenExpiry = 72 * time.Hour`, in seconds. -/
def tokenExpiry : Int := 72 * 3600

/-- `AuthServiceImpl` without its store: the secret key. -/
structure AuthServiceImpl where
  SecretKey : List Byte

/-- Embedding of `AuthServiceImpl.CreateToken`; `now` is `time.Now().Unix()`,
so that `time.Now().Add(tokenExpiry).Unix()` is `now + tokenExpiry`. -/
def AuthServiceImpl.CreateToken (a : AuthServiceImpl) (hmacSHA256 : MAC) (now : Int)
    (id : UserID) : String × Option Err :=
  let data := AppendUint32 [] (uint32 id)
  let expTime := now + tokenExpiry
  let data := AppendUint64 data (uint64 expTime)
  let sign := hmacSHA256 a.SecretKey data
  let data := data ++ sign
  (EncodeToString data, none)

/-- Embedding of `AuthServiceImpl.CheckToken`; `now` is `time.Now().Unix()`. -/
def AuthServiceImpl.CheckToken (a : AuthServiceImpl) (hmacSHA256 : MAC) (now : Int)
    (token : String) : UserID × Option Err :=
  match DecodeString token with
  | none => (0, some (Err.Wrapped "decode token error"))
  | some data =>
    if data.length < 12 then (0, some Err.ErrUnauthorized)
    else
      let userID := Uint32 (data.take 4)
      let expTime := Uint64 ((data.drop 4).take 8)
      if now > int64 expTime then (0, some Err.ErrUnauthorized)
      else
        let sign := hmacSHA256 a.SecretKey (data.take 12)
        if sign ≠ data.drop 12 then (0, some Err.ErrUnauthorized)
        else ((userID : Int), none)

/-- A toy MAC for concrete evaluations: the key followed by the message. -/
def concatMAC : MAC := fun key msg => key ++ msg

/-- The service of the concrete evaluations, with a two-byte key. -/
def authAB : AuthServiceImpl := { SecretKey := [toByte 10, toByte 11] }

/-- The bytes of the token issued at time 0 for user 1 by `authAB` with the
toy MAC: payload `00000001 000000000003f480`, then the MAC. -/
def tokenBytesAB : List Byte :=
  AppendUint64 (AppendUint32 [] 1) 259200 ++
    concatMAC authAB.SecretKey (AppendUint64 (AppendUint32 [] 1) 259200)

/-- The token of `tokenBytesAB`. -/
def tokenAB : String := "00000001000000000003f4800a0b00000001000000000003f480"

/-! ## `internal/handlers/order_handler.go`: status codes of upload and withdraw -/

/-- Embedding of `OrderHandler.UploadOrder` behind the Auth middleware, which
supplies `userID`: the database after the request and the HTTP status code.
`body` is the result of `io.ReadAll(req.Body)`, `none` when it fails. -/
def OrderHandler.UploadOrder (db : DB) (fault : AddOrderFault) (getFails : Bool)
    (userID : UserID) (body : Option String) : DB × Nat :=
  match body with
  | none => (db, 400)
  | some orderNum =>
    if orderNum = "" then (db, 400)
    else
      match OrderServiceImpl.UploadOrder db fault getFails userID orderNum with
      | (db1, some Err.ErrExistingOrderForUser) => (db1, 200)
      | (db1, some Err.ErrExistingOrderForOtherUser) => (db1, 409)
      | (db1, some Err.ErrIncorrectOrderNumber) => (db1, 422)
      | (db1, some _) => (db1, 500)
      | (db1, none) => (db1, 202)

/-- Embedding of `OrderHandler.Withdraw` behind the Auth middleware.  `body`
is the request decoded by `unmarshalRequest`, `none` when the body cannot be
read, is empty or is not valid JSON. -/
def OrderHandler.Withdraw (db : DB) (fail : Bool) (userID : UserID)
    (body : Option WithdrawReq) : DB × Nat :=
  match body with
  | none => (db, 400)
  | some withdrawReq =>
    if !ValidateWithdrawReq withdrawReq then (db, 400)
    else
      match OrderServiceImpl.Withdraw db fail { withdrawReq with UserID := userID } with
      | (db1, some Err.ErrIncorrectOrderNumber) => (db1, 422)
      | (db1, some Err.ErrInsufficientFunds) => (db1, 402)
      | (db1, some _) => (db1, 500)
      | (db1, none) => (db1, 200)

/-- A Luhn-valid order number of 20 digits, above the largest `int64`. -/
def longNumber : OrderNumber := "12345678901234567894"

/-- `ledgerRegistered` with the order `longNumber` of user 1 written. -/
def ledgerLongOrder : DB :=
  { users := [{ id := 1, login := "alice", password := "hash" }], userSeq := 1,
    orders := [{ number := "12345678901234567894", user_id := 1, status := OrderStatus.New,
                 accrual := none }],
    transactions := [{ id := 0, number := none, user_id := 1, sum := 0, balance := 0,
                       withdrawals := 0 }] }

/-! ## `internal/service/client.go`: the HTTP client of the oracle -/

/-- What the round trip of `GetAccrual` yields: whether `client.Get` or
`io.ReadAll` failed, the status code, and the body as `json.Unmarshal` decodes
it (`none` when it does not parse). -/
structure AccrualResponse where
  getErr : Bool
  readErr : Bool
  StatusCode : Nat
  body : Option AccrualOrder

/-- Embedding of `AccrualClientImpl.GetAccrual`; `http` is the oracle seen
through `client.Get(accrualAddress + getAccrualPath + orderNumber)`. -/
def AccrualClientImpl.GetAccrual (http : String → AccrualResponse) : AccrualClient :=
  fun orderNumber =>
    let response := http orderNumber
    if response.getErr then Except.error (Err.Wrapped "get accrual for order error")
    else if response.readErr then Except.error (Err.Wrapped "read body from accrual API error")
    else if response.StatusCode ≠ 200 then Except.error (Err.Wrapped "got status from accrual API")
    else
      match response.body with
      | none => Except.error (Err.Wrapped "parse body from accrual API error")
      | some result => Except.ok result

/-- The oracle query fails: transport error, unreadable body, a status code
other than 200, or a body that does not parse. -/
def queryFails (r : AccrualResponse) : Bool :=
  r.getErr || r.readErr || decide (r.StatusCode ≠ 200) || r.body.isNone

/-- The client returned an answer for the order. -/
def answered (client : AccrualClient) (po : ProcessingOrder) : Bool :=
  match client po.Number with
  | Except.ok _ => true
  | Except.error _ => false

/-- An oracle behind HTTP that answers 500 for the order `12345678903` and
`INVALID` for every other order. -/
def httpFailsFor903 : String → AccrualResponse :=
  fun n =>
    if n = "12345678903" then { getErr := false, readErr := false, StatusCode := 500, body := none }
    else { getErr := false, readErr := false, StatusCode := 200,
           body := some { Number := n, Status := StatusInvalid, Accrual := none } }

/-- The pending order of `ledgerFresh` as `GetNotProcessedOrders` reads it. -/
def pending903 : ProcessingOrder :=
  { Number := "12345678903", Status := OrderStatus.New, Accrual := none, UserID := 1 }

/-! ## Status transitions -/

/-- The order `po` was read by `GetNotProcessedOrders` at the start of the
tick and its row has not been written since: on top of `PendingIn`, the status
read is not Invalid and the rows of the number still carry it. -/
def SnapshotOf (db : DB) (po : ProcessingOrder) : Prop :=
  PendingIn db po ∧ po.Status ≠ OrderStatus.Invalid ∧
  ∀ o ∈ db.orders, o.number = po.Number → o.status = po.Status

/-- The status changes the code makes: New may stay or move to any other
status, Processing may stay or move to Invalid or Processed, Invalid and
Processed stay. -/
def allowedTransition : OrderStatus → OrderStatus → Prop
  | OrderStatus.New, _ => True
  | OrderStatus.Processing, s => s ≠ OrderStatus.New
  | OrderStatus.Invalid, s => s = OrderStatus.Invalid
  | OrderStatus.Processed, s => s = OrderStatus.Processed

/-- The status changes of C19 as the specification words them:
New → Processing → {Invalid | Processed}, or no change. -/
def claimedTransition : OrderStatus → OrderStatus → Prop
  | OrderStatus.New, s => s = OrderStatus.New ∨ s = OrderStatus.Processing
  | OrderStatus.Processing, s =>
    s = OrderStatus.Processing ∨ s = OrderStatus.Invalid ∨ s = OrderStatus.Processed
  | OrderStatus.Invalid, s => s = OrderStatus.Invalid
  | OrderStatus.Processed, s => s = OrderStatus.Processed

/-- Every order row of `db0` is still in `db`, with the same number and owner
and a status reached by an allowed transition. -/
def StatusesFollow (db0 db : DB) : Prop :=
  ∀ o ∈ db0.orders, ∃ o1 ∈ db.orders, o1.number = o.number ∧ o1.user_id = o.user_id ∧
    allowedTransition o.status o1.status

/-! ## The oracle's answer with another order number in its body -/

/-- The client `client` with the `order` field of every response body replaced
by `number n`, where `n` is the order number that was asked for. -/
def relabel (client : AccrualClient) (number : OrderNumber → String) : AccrualClient :=
  fun n =>
    match client n with
    | Except.error err => Except.error err
    | Except.ok acc => Except.ok { acc with Number := number n }

/-- An oracle that answers every query with a body naming the order "2377225624". -/
def clientNamesOtherOrder : AccrualClient :=
  fun _ => Except.ok { Number := "2377225624", Status := StatusProcessed, Accrual := some 500 }

/-! ## The first ledger entry of a user -/

/-- The row written by `insertFirstTransaction`: `VALUES (0, null, $1, 0, 0, 0)`. -/
def zeroEntry (userID : UserID) : TransactionRow :=
  { id := 0, number := none, user_id := userID, sum := 0, balance := 0, withdrawals := 0 }

/-- The ledger rows of a user that carry the sequence id 0. -/
def firstEntries (db : DB) (userID : UserID) : List TransactionRow :=
  db.transactions.filter (fun t => decide (t.user_id = userID) && decide (t.id = 0))

/-- Ids of users come from the generator, ledger rows belong to registered
users and carry a sequence id from 0 on, and every registered user has the
row of `insertFirstTransaction` as the only row with sequence id 0. -/
def FirstEntryInv (db : DB) : Prop :=
  (∀ r ∈ db.users, r.id ≤ db.userSeq) ∧
  (∀ t ∈ db.transactions, registered db t.user_id ∧ 0 ≤ t.id) ∧
  (∀ r ∈ db.users, firstEntries db r.id = [zeroEntry r.id])

/-! ## Registration and login: `auth_service.go`, `auth_handler.go` -/

/-- The text of an error, `err.Error()`: the strings given to `errors.New`
for the sentinel errors, the message itself for any other error. -/
def Err.Error : Err → String
  | Err.ErrNotFound => "not found"
  | Err.ErrAlreadyExists => "already exists"
  | Err.ErrExistingOrderForUser => "order has already been loaded by this user"
  | Err.ErrExistingOrderForOtherUser => "order has already been loaded by other user"
  | Err.ErrIncorrectOrderNumber => "incorrect order number"
  | Err.ErrInsufficientFunds => "there are not enough funds on the account"
  | Err.ErrIncorrectPassword => "incorrect password"
  | Err.ErrUnauthorized => "unauthorized"
  | Err.Wrapped msg => msg

/-- The password hash `golang.org/x/crypto/bcrypt`, library code and a
parameter of the service: `GenerateFromPassword` returns the hash or `none`
for its error, `CompareHashAndPassword` is `true` when it returns `nil`. -/
structure Bcrypt where
  GenerateFromPassword : String → Option (List Byte)
  CompareHashAndPassword : List Byte → String → Bool

/-- Embedding of `DBUserStorage.GetUser`
(`SELECT id, password from users WHERE login = $1`). -/
def DBUserStorage.GetUser (db : DB) (fail : Bool) (login : String) :
    Except Err (UserID × String) :=
  if fail then Except.error (Err.Wrapped "get user error")
  else
    match db.users.find? (fun r => r.login = login) with
    | none => Except.error Err.ErrNotFound
    | some r => Except.ok (r.id, r.password)

/-- Embedding of `AuthServiceImpl.RegisterUser`: the database after the call,
the token and the error. -/
def AuthServiceImpl.RegisterUser (a : AuthServiceImpl) (bcrypt : Bcrypt) (hmacSHA256 : MAC)
    (now : Int) (db : DB) (fault : Fault) (login pass : String) : DB × String × Option Err :=
  match bcrypt.GenerateFromPassword pass with
  | none => (db, "", some (Err.Wrapped "create password hash error"))
  | some hashedPass =>
    match DBUserStorage.AddUser db fault login (EncodeToString hashedPass) with
    | (db1, Except.error err) => (db1, "", some err)
    | (db1, Except.ok userID) =>
      match a.CreateToken hmacSHA256 now userID with
      | (_, some _) => (db1, "", some (Err.Wrapped "create token error"))
      | (token, none) => (db1, token, none)

/-- Embedding of `AuthServiceImpl.AuthUser`: the token and the error; the
database is only read. -/
def AuthServiceImpl.AuthUser (a : AuthServiceImpl) (bcrypt : Bcrypt) (hmacSHA256 : MAC)
    (now : Int) (db : DB) (fail : Bool) (login pass : String) : String × Option Err :=
  match DBUserStorage.GetUser db fail login with
  | Except.error err => ("", some err)
  | Except.ok (userID, hashedPass) =>
    match DecodeString hashedPass with
    | none => ("", some (Err.Wrapped "decode hashed password error"))
    | some hash =>
      if !bcrypt.CompareHashAndPassword hash pass then ("", some Err.ErrIncorrectPassword)
      else
        match a.CreateToken hmacSHA256 now userID with
        | (_, some _) => ("", some (Err.Wrapped "create token error"))
        | (token, none) => (token, none)

/-- What a handler writes to the `http.ResponseWriter`: the status code, the
`Authorization` header when it is set, and the body. -/
structure Response where
  StatusCode : Nat
  Authorization : Option String
  Body : String
  deriving DecidableEq, Repr

/-- The library function `http.Error(writer, msg, code)`: the status code and
the message followed by a line feed. -/
def httpError (msg : String) (code : Nat) : Response :=
  { StatusCode := code, Authorization := none, Body := msg ++ "\n" }

/-- The request body of registration and login. -/
structure AuthData where
  Login : String
  Password : String

/-- Embedding of `AuthHandler.ValidateAuthData`: the response written when
the data is refused, `none` when the function returns `true`. -/
def AuthHandler.ValidateAuthData (data : AuthData) : Option Response :=
  if data.Login = "" then some (httpError "Login is required" 400)
  else if data.Password = "" then some (httpError "Password is required" 400)
  else none

/-- Embedding of `AuthHandler.RegisterUser`.  `body` is the outcome of
`unmarshalRequest`: the decoded request, or the message it answers with 400. -/
def AuthHandler.RegisterUser (a : AuthServiceImpl) (bcrypt : Bcrypt) (hmacSHA256 : MAC)
    (now : Int) (db : DB) (fault : Fault) (body : Except String AuthData) : DB × Response :=
  match body with
  | Except.error msg => (db, httpError msg 400)
  | Except.ok registerReq =>
    match AuthHandler.ValidateAuthData registerReq with
    | some response => (db, response)
    | none =>
      match a.RegisterUser bcrypt hmacSHA256 now db fault registerReq.Login
        registerReq.Password with
      | (db1, _, some err) =>
        if err = Err.ErrAlreadyExists then (db1, httpError err.Error 409)
        else (db1, httpError "Internal server error" 500)
      | (db1, token, none) =>
        (db1, { StatusCode := 200, Authorization := some token, Body := "" })

/-- Embedding of `AuthHandler.AuthUser`, with `body` as in `RegisterUser`. -/
def AuthHandler.AuthUser (a : AuthServiceImpl) (bcrypt : Bcrypt) (hmacSHA256 : MAC)
    (now : Int) (db : DB) (fail : Bool) (body : Except String AuthData) : Response :=
  match body with
  | Except.error msg => httpError msg 400
  | Except.ok authReq =>
    match AuthHandler.ValidateAuthData authReq with
    | some response => response
    | none =>
      match a.AuthUser bcrypt hmacSHA256 now db fail authReq.Login authReq.Password with
      | (_, some err) =>
        if err = Err.ErrNotFound ∨ err = Err.ErrIncorrectPassword then
          httpError err.Error 401
        else httpError "Internal server error" 500
      | (token, none) => { StatusCode := 200, Authorization := some token, Body := "" }

/-- Embedding of the middleware `AuthHandler.Auth`.  `authorization` is
`req.Header.Get("Authorization")`, empty when the header is missing; `next`
is the wrapped handler, which receives the user id through the context. -/
def AuthHandler.Auth (a : AuthServiceImpl) (hmacSHA256 : MAC) (now : Int)
    (next : UserID → DB → DB × Response) (authorization : String) (db : DB) : DB × Response :=
  match a.CheckToken hmacSHA256 now authorization with
  | (_, some err) =>
    if err = Err.ErrUnauthorized then (db, httpError err.Error 401)
    else (db, httpError "Internal server error" 500)
  | (userID, none) => next userID db

/-! ## Concrete data of the registration and login scenarios -/

/-- A toy password hash for concrete evaluations: the bytes of the password. -/
def plainBcrypt : Bcrypt :=
  { GenerateFromPassword := fun pass => some (pass.data.map (fun c => toByte c.toNat)),
    CompareHashAndPassword := fun hash pass =>
      decide (hash = pass.data.map (fun c => toByte c.toNat)) }

/-- The database after `RegisterUser("alice", "secret")` with `plainBcrypt`. -/
def ledgerAlice : DB :=
  { users := [{ id := 1, login := "alice", password := "736563726574" }], userSeq := 1,
    orders := [],
    transactions := [{ id := 0, number := none, user_id := 1, sum := 0, balance := 0,
                       withdrawals := 0 }] }

/-- A wrapped handler that withdraws 300 for the authenticated user. -/
def nextWithdraw300 : UserID → DB → DB × Response :=
  fun userID db =>
    let r := OrderHandler.Withdraw db false userID
      (some { UserID := 0, Number := "2377225624", Sum := 300 })
    (r.1, { StatusCode := r.2, Authorization := none, Body := "" })

/-! ## A tick over two pending orders -/

/-- User 1 with two uploaded orders, both New. -/
def ledgerTwoOrders : DB :=
  { users := [{ id := 1, login := "alice", password := "hash" }], userSeq := 1,
    orders := [{ number := "12345678903", user_id := 1, status := OrderStatus.New,
                 accrual := none },
               { number := "2377225624", user_id := 1, status := OrderStatus.New,
                 accrual := none }],
    transactions := [{ id := 0, number := none, user_id := 1, sum := 0, balance := 0,
                       withdrawals := 0 }] }

/-- The second pending order of `ledgerTwoOrders` as `GetNotProcessedOrders`
reads it. -/
def pending624 : ProcessingOrder :=
  { Number := "2377225624", Status := OrderStatus.New, Accrual := none, UserID := 1 }

/-- After the tick on `ledgerTwoOrders` with the oracle `httpFailsFor903`:
the first order is untouched, the second is Invalid. -/
def ledgerSecondInvalid : DB :=
  { users := [{ id := 1, login := "alice", password := "hash" }], userSeq := 1,
    orders := [{ number := "12345678903", user_id := 1, status := OrderStatus.New,
                 accrual := none },
               { number := "2377225624", user_id := 1, status := OrderStatus.Invalid,
                 accrual := none }],
    transactions := [{ id := 0, number := none, user_id := 1, sum := 0, balance := 0,
                       withdrawals := 0 }] }

/-! ## A password that bcrypt refuses -/

/-- A password hash for concrete evaluations that, like
`bcrypt.GenerateFromPassword`, refuses a password of more than 72 bytes
(`ErrPasswordTooLong`); the hash of a shorter password is the toy one of
`plainBcrypt`. -/
def limitBcrypt : Bcrypt :=
  { GenerateFromPassword := fun pass =>
      if pass.utf8ByteSize > 72 then none else plainBcrypt.GenerateFromPassword pass,
    CompareHashAndPassword := plainBcrypt.CompareHashAndPassword }

/-- A password of 73 bytes. -/
def longPassword : String :=
  "aaaaaaaaaaaaaaaaaaaaaaaaaaaaaaaaaaaaaaaaaaaaaaaaaaaaaaaaaaaaaaaaaaaaaaaaa"

/-! # Theorems -/

/-! ## The Luhn validator: the tests of `luhn_test.go` -/

example : CheckNumberByLuhn "4561261212345467" = true := by decide
example : CheckNumberByLuhn "454665453253412" = true := by decide
example : CheckNumberByLuhn "4561261212345464" = false := by decide
example : CheckNumberByLuhn "454665453253415" = false := by decide
example : CheckNumberByLuhn "454665453253412a" = false := by decide
example : CheckNumberByLuhn "12345678903" = true := by decide
example : CheckNumberByLuhn "" = true := by decide
example : luhnReference "4561261212345467" = true := by decide
example : luhnReference "454665453253415" = false := by decide

/-! ## The Luhn validator against the reference -/

theorem utf8Size_of_digit (c : Char) (h : ¬(c < '0' ∨ c > '9')) : c.utf8Size = 1 := by
  have h9 : c.val ≤ '9'.val := by
    have : ¬ ('9' < c) := fun hc => h (Or.inr hc)
    exact UInt32.not_lt.mp this
  have h9n : c.val.toNat ≤ 57 := h9
  unfold Char.utf8Size
  have : c.val ≤ UInt32.ofNatCore 127 (by decide) := by
    show c.val.toNat ≤ 127
    omega
  have h127 : ¬ (127 < c.val.toNat) := by omega
  simp only [this, if_true]

theorem luhnLoop_digits (d : Nat) (cs : List Char) :
    ∀ (i sum : Nat), (∀ c ∈ cs, ¬(c < '0' ∨ c > '9')) →
      luhnLoop d cs i sum = some (sum + luhnLeftSum d i (cs.map digitValue)) := by
  induction cs with
  | nil => intro i sum _; simp [luhnLoop, luhnLeftSum]
  | cons c cs ih =>
    intro i sum h
    have hc : ¬(c < '0' ∨ c > '9') := h c (List.mem_cons_self _ _)
    have hcs : ∀ x ∈ cs, ¬(x < '0' ∨ x > '9') := fun x hx => h x (List.mem_cons_of_mem _ hx)
    have hsz := utf8Size_of_digit c hc
    simp only [luhnLoop, hc, if_false, hsz, List.map_cons, luhnLeftSum, luhnDigit, digitValue]
    by_cases hi : i % 2 = d
    · by_cases h2 : (c.toNat - '0'.toNat) * 2 > 9
      · simp only [hi, h2, if_true, decide_True, ih (i + 1) _ hcs, digitValue]
        congr 1; omega
      · simp only [hi, h2, if_true, if_false, decide_True, ih (i + 1) _ hcs, digitValue]
        congr 1; omega
    · simp only [hi, if_false, decide_False, ih (i + 1) _ hcs, digitValue]
      congr 1; simp; omega

theorem luhnLoop_nondigit (d : Nat) (cs : List Char) :
    ∀ (i sum : Nat), (∃ c ∈ cs, c < '0' ∨ c > '9') → luhnLoop d cs i sum = none := by
  induction cs with
  | nil => intro i sum h; obtain ⟨c, hc, _⟩ := h; cases hc
  | cons c cs ih =>
    intro i sum h
    by_cases hc : c < '0' ∨ c > '9'
    · simp [luhnLoop, hc]
    · have hrest : ∃ x ∈ cs, x < '0' ∨ x > '9' := by
        obtain ⟨x, hx, hbad⟩ := h
        rcases List.mem_cons.mp hx with rfl | hx
        · exact absurd hbad hc
        · exact ⟨x, hx, hbad⟩
      simp only [luhnLoop, hc, if_false]
      split
      · split <;> exact ih _ _ hrest
      · exact ih _ _ hrest

theorem luhnReferenceSum_append (ns : List Nat) (n : Nat) :
    luhnReferenceSum (ns ++ [n]) =
      luhnReferenceSum ns + luhnDigit (decide (ns.length % 2 = 1)) n := by
  induction ns using luhnReferenceSum.induct with
  | case1 => simp [luhnReferenceSum, luhnDigit]
  | case2 a =>
    by_cases h : n * 2 > 9
    · have h2 : 2 * n > 9 := by omega
      simp [luhnReferenceSum, luhnDigit, h, h2]; omega
    · have h2 : ¬ 2 * n > 9 := by omega
      simp [luhnReferenceSum, luhnDigit, h, h2]; omega
  | case3 a b rest ih =>
    have hlen : decide ((a :: b :: rest).length % 2 = 1) = decide (rest.length % 2 = 1) := by
      apply decide_eq_decide.mpr
      simp only [List.length_cons]; omega
    have hunfold : luhnReferenceSum (a :: b :: (rest ++ [n])) =
        a + (if 2 * b > 9 then 2 * b - 9 else 2 * b) + luhnReferenceSum (rest ++ [n]) := by
      simp only [luhnReferenceSum]
    rw [List.cons_append, List.cons_append, hunfold, ih, hlen]
    simp only [luhnReferenceSum]
    omega

theorem luhnLeftSum_eq_reference (d : Nat) (ns : List Nat) :
    ∀ i : Nat, (i + ns.length) % 2 = d → luhnLeftSum d i ns = luhnReferenceSum ns.reverse := by
  induction ns with
  | nil => intro i _; simp [luhnLeftSum, luhnReferenceSum]
  | cons n ns ih =>
    intro i h
    simp only [List.length_cons] at h
    have hpar : decide (i % 2 = d) = decide (ns.reverse.length % 2 = 1) := by
      rw [List.length_reverse]
      apply decide_eq_decide.mpr
      omega
    rw [List.reverse_cons, luhnReferenceSum_append, luhnLeftSum, ih (i + 1) (by omega), hpar]
    omega

theorem utf8ByteSize_go_digits (cs : List Char) (h : ∀ c ∈ cs, ¬(c < '0' ∨ c > '9')) :
    String.utf8ByteSize.go cs = cs.length := by
  induction cs with
  | nil => rfl
  | cons c cs ih =>
    have hc := utf8Size_of_digit c (h c (List.mem_cons_self _ _))
    have := ih (fun x hx => h x (List.mem_cons_of_mem _ hx))
    show String.utf8ByteSize.go cs + c.utf8Size = cs.length + 1
    rw [hc, this]

/-- C9. On every string of ASCII digits (the empty one included, even or odd
length) `CheckNumberByLuhn` agrees with the reference Luhn check: counted from
the rightmost digit, every second digit is doubled, 9 is subtracted from a
doubled value above 9, and the total is divisible by 10. -/
theorem CheckNumberByLuhn_eq_reference (number : String)
    (hdigits : ∀ c ∈ number.data, '0' ≤ c ∧ c ≤ '9') :
    CheckNumberByLuhn number = luhnReference number := by
  have hd : ∀ c ∈ number.data, ¬(c < '0' ∨ c > '9') := by
    intro c hc hbad
    obtain ⟨h0, h9⟩ := hdigits c hc
    rcases hbad with hlt | hgt
    · exact absurd h0 (UInt32.not_le.mpr hlt)
    · exact absurd h9 (UInt32.not_le.mpr hgt)
  have hsize : number.utf8ByteSize = number.data.length := by
    cases number with
    | mk cs => exact utf8ByteSize_go_digits cs hd
  have hparity : (0 + (number.data.map digitValue).length) % 2
      = (if number.utf8ByteSize % 2 = 1 then 1 else 0) := by
    rw [hsize, List.length_map]
    split <;> omega
  unfold CheckNumberByLuhn luhnReference
  simp only [luhnLoop_digits _ _ 0 0 hd, Nat.zero_add,
    luhnLeftSum_eq_reference _ _ 0 hparity, List.map_reverse]

/-- The theorem of C9 at the order number "12345678903" of the specification. -/
theorem CheckNumberByLuhn_eq_reference_witness :
    (∀ c ∈ "12345678903".data, '0' ≤ c ∧ c ≤ '9') ∧
      CheckNumberByLuhn "12345678903" = luhnReference "12345678903" :=
  ⟨by decide, CheckNumberByLuhn_eq_reference "12345678903" (by decide)⟩

/-- C10. A string with at least one character outside '0'..'9', at any
position and whatever the other characters are, is rejected by
`CheckNumberByLuhn`. -/
theorem CheckNumberByLuhn_nondigit (number : String)
    (hbad : ∃ c ∈ number.data, c < '0' ∨ c > '9') :
    CheckNumberByLuhn number = false := by
  unfold CheckNumberByLuhn
  simp only [luhnLoop_nondigit _ _ 0 0 hbad]

/-- The theorem of C10 at the non-integer input of `TestCheckNumberByLuhn`. -/
theorem CheckNumberByLuhn_nondigit_witness :
    (∃ c ∈ "454665453253412a".data, c < '0' ∨ c > '9') ∧
      CheckNumberByLuhn "454665453253412a" = false :=
  ⟨⟨'a', by decide, by decide⟩,
    CheckNumberByLuhn_nondigit "454665453253412a" ⟨'a', by decide, by decide⟩⟩

/-! ## The ledger: the latest row of a user -/

theorem maxByID_mem (l : List TransactionRow) :
    ∀ m, maxByID l = some m → m ∈ l := by
  induction l with
  | nil => intro m h; simp [maxByID] at h
  | cons t ts ih =>
    intro m h
    unfold maxByID at h
    cases hts : maxByID ts with
    | none =>
      rw [hts] at h
      simp only [Option.some.injEq] at h
      rw [← h]; exact List.mem_cons_self _ _
    | some m1 =>
      rw [hts] at h
      by_cases hle : m1.id ≤ t.id
      · simp only [hle, if_true, Option.some.injEq] at h
        rw [← h]; exact List.mem_cons_self _ _
      · simp only [hle, if_false, Option.some.injEq] at h
        rw [← h]; exact List.mem_cons_of_mem _ (ih m1 hts)

theorem maxByID_ge (l : List TransactionRow) :
    ∀ m, maxByID l = some m → ∀ t ∈ l, t.id ≤ m.id := by
  induction l with
  | nil => intro m _ t ht; cases ht
  | cons a ts ih =>
    intro m h t ht
    unfold maxByID at h
    cases hts : maxByID ts with
    | none =>
      rw [hts] at h
      simp only [Option.some.injEq] at h
      have hnil : ts = [] := by
        cases ts with
        | nil => rfl
        | cons b bs =>
          exfalso
          unfold maxByID at hts
          cases hbs : maxByID bs with
          | none => rw [hbs] at hts; simp at hts
          | some x => rw [hbs] at hts; by_cases hx : x.id ≤ b.id <;> simp [hx] at hts
      subst hnil
      rcases List.mem_cons.mp ht with rfl | ht
      · rw [← h]
      · cases ht
    | some m1 =>
      rw [hts] at h
      have ih1 := ih m1 hts
      by_cases hle : m1.id ≤ a.id
      · simp only [hle, if_true, Option.some.injEq] at h
        rcases List.mem_cons.mp ht with rfl | ht
        · rw [← h]
        · rw [← h]; exact le_trans (ih1 t ht) hle
      · simp only [hle, if_false, Option.some.injEq] at h
        rcases List.mem_cons.mp ht with rfl | ht
        · rw [← h]; omega
        · rw [← h]; exact ih1 t ht

theorem maxByID_isSome (l : List TransactionRow) (h : l ≠ []) : ∃ m, maxByID l = some m := by
  cases l with
  | nil => exact absurd rfl h
  | cons t ts =>
    unfold maxByID
    cases hts : maxByID ts with
    | none => exact ⟨t, rfl⟩
    | some m1 =>
      by_cases hle : m1.id ≤ t.id
      · exact ⟨t, by simp [hle]⟩
      · exact ⟨m1, by simp [hle]⟩

theorem maxByID_append_gt (l : List TransactionRow) (x : TransactionRow)
    (h : ∀ t ∈ l, t.id < x.id) : maxByID (l ++ [x]) = some x := by
  induction l with
  | nil => simp [maxByID]
  | cons a ts ih =>
    have hts := ih (fun t ht => h t (List.mem_cons_of_mem _ ht))
    have ha : ¬ x.id ≤ a.id := by
      have := h a (List.mem_cons_self _ _)
      omega
    rw [List.cons_append]
    unfold maxByID
    rw [hts]
    simp [ha]

/-- A row appended for another user does not change the latest row. -/
theorem latestTransaction_append_other (db : DB) (x : TransactionRow) (u : UserID)
    (hx : x.user_id ≠ u) :
    latestTransaction { db with transactions := db.transactions ++ [x] } u
      = latestTransaction db u := by
  simp [latestTransaction, List.filter_append, hx]

/-- A row appended for the user with an id above the latest one is the new
latest row. -/
theorem latestTransaction_append_same (db : DB) (x t : TransactionRow) (u : UserID)
    (hlatest : latestTransaction db u = some t) (hu : x.user_id = u) (hid : t.id < x.id) :
    latestTransaction { db with transactions := db.transactions ++ [x] } u = some x := by
  unfold latestTransaction at hlatest ⊢
  have hge := maxByID_ge _ _ hlatest
  simp only [List.filter_append, List.filter_cons, hu, decide_True, if_true, List.filter_nil]
  apply maxByID_append_gt
  intro a ha
  have := hge a ha
  omega

theorem latestTransaction_updateOrder (db : DB) (status : OrderStatus) (accrual : Option ℚ)
    (number : OrderNumber) (u : UserID) :
    latestTransaction (updateOrder db status accrual number) u = latestTransaction db u := rfl

theorem latestTransaction_updateOrderStatus (db : DB) (status : OrderStatus)
    (number : OrderNumber) (u : UserID) :
    latestTransaction (updateOrderStatus db status number) u = latestTransaction db u := rfl

/-! ## Withdraw -/

theorem latestTransaction_ledger500 : latestTransaction ledger500 1 = some row500 := by
  simp [latestTransaction, ledger500, maxByID, row500]

/-- C1. When the latest ledger row of the user has a balance below the
requested sum and the order number passes the Luhn check, `Withdraw` leaves
the database as it was, whether or not the driver fails; when the statement
runs, the store's `ErrNotFound` comes back as `ErrInsufficientFunds`, and
`ErrNotFound` itself is never returned. -/
theorem Withdraw_insufficient_funds (db : DB) (fail : Bool) (req : WithdrawReq)
    (t : TransactionRow) (hlatest : latestTransaction db req.UserID = some t)
    (hluhn : CheckNumberByLuhn req.Number = true) (hsum : req.Sum > t.balance) :
    (OrderServiceImpl.Withdraw db fail req).1 = db ∧
    OrderServiceImpl.Withdraw db false req = (db, some Err.ErrInsufficientFunds) ∧
    (OrderServiceImpl.Withdraw db fail req).2 ≠ some Err.ErrNotFound := by
  have hnot : ¬ (t.balance ≥ req.Sum) := not_le.mpr hsum
  cases fail <;>
    simp [OrderServiceImpl.Withdraw, DBOrderStorage.Withdraw, insertDebitTransaction,
      hluhn, hlatest, hnot]

/-- The theorem of C1 on the test request of `TestWithdraw` (sum 751) against
a balance of 500. -/
theorem Withdraw_insufficient_funds_witness :
    (OrderServiceImpl.Withdraw ledger500 false
        { Number := "2377225624", Sum := 751, UserID := 1 }).1 = ledger500 ∧
    OrderServiceImpl.Withdraw ledger500 false
        { Number := "2377225624", Sum := 751, UserID := 1 }
      = (ledger500, some Err.ErrInsufficientFunds) ∧
    (OrderServiceImpl.Withdraw ledger500 false
        { Number := "2377225624", Sum := 751, UserID := 1 }).2 ≠ some Err.ErrNotFound :=
  Withdraw_insufficient_funds ledger500 false { Number := "2377225624", Sum := 751, UserID := 1 }
    row500 latestTransaction_ledger500 (by decide) (by norm_num [row500])

/-- C2. When the latest ledger row of the user has id `i`, balance `b` and
withdrawn `w`, a `Withdraw` of a sum `a` with `0 < a ≤ b` and a Luhn-valid
order number succeeds, appends exactly the row
`(i+1, number, user, -a, b-a, w+a)` and changes nothing else; `GetBalance`
then returns `{b-a, w+a}`.  Only `a ≤ b` is used, so this covers every
`0 < a ≤ b`. -/
theorem Withdraw_success (db : DB) (req : WithdrawReq) (t : TransactionRow)
    (hlatest : latestTransaction db req.UserID = some t)
    (hluhn : CheckNumberByLuhn req.Number = true)
    (hsum : req.Sum ≤ t.balance) :
    OrderServiceImpl.Withdraw db false req =
      ({ db with transactions := db.transactions ++
          [{ id := t.id + 1, number := some req.Number, user_id := req.UserID,
             sum := -req.Sum, balance := t.balance - req.Sum,
             withdrawals := t.withdrawals + req.Sum }] }, none) ∧
    OrderServiceImpl.GetBalance (OrderServiceImpl.Withdraw db false req).1 false req.UserID =
      Except.ok { Current := t.balance - req.Sum, Withdrawn := t.withdrawals + req.Sum } := by
  have hge : t.balance ≥ req.Sum := hsum
  have hw : OrderServiceImpl.Withdraw db false req =
      ({ db with transactions := db.transactions ++
          [{ id := t.id + 1, number := some req.Number, user_id := req.UserID,
             sum := -req.Sum, balance := t.balance - req.Sum,
             withdrawals := t.withdrawals + req.Sum }] }, none) := by
    simp [OrderServiceImpl.Withdraw, DBOrderStorage.Withdraw, insertDebitTransaction,
      hluhn, hlatest, hge]
  refine ⟨hw, ?_⟩
  rw [hw]
  simp only [OrderServiceImpl.GetBalance, DBOrderStorage.GetBalance]
  rw [latestTransaction_append_same db _ t req.UserID hlatest rfl (by simp)]
  simp

/-- The theorem of C2 on the scenario of the specification: from `{500, 0}` a
withdrawal of 300 succeeds and leaves `{200, 300}`. -/
theorem Withdraw_success_witness :
    (300 : ℚ) ≤ row500.balance ∧
    (OrderServiceImpl.Withdraw ledger500 false
      { Number := "2377225624", Sum := 300, UserID := 1 }).2 = none ∧
    OrderServiceImpl.GetBalance
        (OrderServiceImpl.Withdraw ledger500 false
          { Number := "2377225624", Sum := 300, UserID := 1 }).1 false 1 =
      Except.ok { Current := 200, Withdrawn := 300 } := by
  have h := Withdraw_success ledger500 { Number := "2377225624", Sum := 300, UserID := 1 }
    row500 latestTransaction_ledger500 (by decide) (by norm_num [row500])
  refine ⟨by norm_num [row500], by rw [h.1], ?_⟩
  rw [h.2]
  norm_num [row500]

/-! ## UpdateOrderAccrual -/

theorem latestTransaction_ledgerFresh : latestTransaction ledgerFresh 1 = some row0 := by
  simp [latestTransaction, ledgerFresh, maxByID, row0]

/-- C5. For an order row owned by a user whose latest ledger row has id `i`,
balance `b` and withdrawn `w`, `UpdateOrderAccrual` with status Processed and
accrual `a`, when no step fails, sets status Processed and accrual `a` on the
rows with that number, appends exactly the ledger row
`(i+1, number, user, +a, b+a, w)` and changes nothing else, so that
`GetBalance` returns `{b+a, w}`; when a step fails (begin, update, insert or
commit) an error is returned and the database is what it was. -/
theorem UpdateOrderAccrual_credit (db : DB) (fault : Fault) (order : ProcessingOrder)
    (a : ℚ) (t : TransactionRow) (o : OrderRow)
    (ho : o ∈ db.orders) (hnumber : o.number = order.Number)
    (hlatest : latestTransaction db order.UserID = some t)
    (hstatus : order.Status = OrderStatus.Processed) (haccrual : order.Accrual = some a) :
    (fault = Fault.none →
      DBOrderStorage.UpdateOrderAccrual db fault order =
        ({ db with
            orders := db.orders.map (fun r => if r.number = order.Number
              then { r with status := OrderStatus.Processed, accrual := some a } else r),
            transactions := db.transactions ++
              [{ id := t.id + 1, number := some order.Number, user_id := order.UserID,
                 sum := a, balance := t.balance + a, withdrawals := t.withdrawals }] }, none) ∧
      { o with status := OrderStatus.Processed, accrual := some a } ∈
        (DBOrderStorage.UpdateOrderAccrual db fault order).1.orders ∧
      DBOrderStorage.GetBalance (DBOrderStorage.UpdateOrderAccrual db fault order).1 false
          order.UserID =
        Except.ok { Current := t.balance + a, Withdrawn := t.withdrawals }) ∧
    (fault ≠ Fault.none →
      (DBOrderStorage.UpdateOrderAccrual db fault order).1 = db ∧
      (DBOrderStorage.UpdateOrderAccrual db fault order).2 ≠ none) := by
  constructor
  · intro hfault
    subst hfault
    have hres : DBOrderStorage.UpdateOrderAccrual db Fault.none order =
        ({ db with
            orders := db.orders.map (fun r => if r.number = order.Number
              then { r with status := OrderStatus.Processed, accrual := some a } else r),
            transactions := db.transactions ++
              [{ id := t.id + 1, number := some order.Number, user_id := order.UserID,
                 sum := a, balance := t.balance + a, withdrawals := t.withdrawals }] }, none) := by
      simp only [DBOrderStorage.UpdateOrderAccrual, haccrual, insertCreditTransaction,
        latestTransaction_updateOrder, hlatest]
      simp [updateOrder, hstatus]
    refine ⟨hres, ?_, ?_⟩
    · rw [hres]
      simp only [List.mem_map]
      exact ⟨o, ho, by simp [hnumber]⟩
    · rw [hres]
      simp only [DBOrderStorage.GetBalance]
      have hl := latestTransaction_append_same
        { db with orders := db.orders.map (fun r => if r.number = order.Number
            then { r with status := OrderStatus.Processed, accrual := some a } else r) }
        { id := t.id + 1, number := some order.Number, user_id := order.UserID,
          sum := a, balance := t.balance + a, withdrawals := t.withdrawals }
        t order.UserID hlatest rfl (by simp)
      simp only [] at hl
      rw [hl]
      simp
  · intro hfault
    cases fault <;> simp [DBOrderStorage.UpdateOrderAccrual, haccrual] at hfault ⊢

/-- The theorem of C5 on the scenario of the specification: accrual 500 on a
fresh user gives status Processed, accrual 500 and balance `{500, 0}`. -/
theorem UpdateOrderAccrual_credit_witness :
    latestTransaction ledgerFresh 1 = some row0 ∧
    DBOrderStorage.UpdateOrderAccrual ledgerFresh Fault.none order500 = (ledger500, none) ∧
    DBOrderStorage.GetBalance ledger500 false 1 =
      Except.ok { Current := 500, Withdrawn := 0 } := by
  have h := (UpdateOrderAccrual_credit ledgerFresh Fault.none order500 500 row0
    { number := "12345678903", user_id := 1, status := OrderStatus.New, accrual := none }
    (by simp [ledgerFresh]) rfl latestTransaction_ledgerFresh rfl rfl).1 rfl
  have hdb : DBOrderStorage.UpdateOrderAccrual ledgerFresh Fault.none order500
      = (ledger500, none) := by
    rw [h.1]
    simp [ledgerFresh, ledger500, order500, row0]
  refine ⟨latestTransaction_ledgerFresh, hdb, ?_⟩
  have hb := h.2.2
  rw [hdb] at hb
  rw [show (1 : UserID) = order500.UserID from rfl, hb]
  simp [row0]

/-! ## Effects of the statements -/

theorem latestTransaction_mem (db : DB) (u : UserID) (t : TransactionRow)
    (h : latestTransaction db u = some t) : t ∈ db.transactions ∧ t.user_id = u := by
  have hm := maxByID_mem _ _ h
  simpa using List.mem_filter.mp hm

theorem insertCreditTransaction_cases (db : DB) (number : OrderNumber) (userID : UserID)
    (sum : ℚ) :
    (latestTransaction db userID = none ∧
      insertCreditTransaction db number userID sum = db) ∨
    (∃ t, latestTransaction db userID = some t ∧
      insertCreditTransaction db number userID sum =
        { db with transactions := db.transactions ++
            [{ id := t.id + 1, number := some number, user_id := userID, sum := sum,
               balance := t.balance + sum, withdrawals := t.withdrawals }] }) := by
  unfold insertCreditTransaction
  cases h : latestTransaction db userID with
  | none => exact Or.inl ⟨rfl, rfl⟩
  | some t => exact Or.inr ⟨t, rfl, rfl⟩

theorem insertDebitTransaction_cases (db : DB) (number : OrderNumber) (userID : UserID)
    (sum : ℚ) :
    (insertDebitTransaction db number userID sum).1 = db ∨
    (∃ t, latestTransaction db userID = some t ∧ sum ≤ t.balance ∧
      (insertDebitTransaction db number userID sum).1 =
        { db with transactions := db.transactions ++
            [{ id := t.id + 1, number := some number, user_id := userID, sum := -1 * sum,
               balance := t.balance - sum, withdrawals := t.withdrawals + sum }] }) := by
  unfold insertDebitTransaction
  cases h : latestTransaction db userID with
  | none => exact Or.inl rfl
  | some t =>
    by_cases hb : t.balance ≥ sum
    · right
      exact ⟨t, rfl, hb, by simp [hb]⟩
    · left
      simp [hb]

/-- The database after `OrderServiceImpl.Withdraw` is the old one or the old
one with the debit row appended. -/
theorem Withdraw_cases (db : DB) (fail : Bool) (req : WithdrawReq) :
    (OrderServiceImpl.Withdraw db fail req).1 = db ∨
    (∃ t, latestTransaction db req.UserID = some t ∧ req.Sum ≤ t.balance ∧
      (OrderServiceImpl.Withdraw db fail req).1 =
        { db with transactions := db.transactions ++
            [{ id := t.id + 1, number := some req.Number, user_id := req.UserID,
               sum := -1 * req.Sum, balance := t.balance - req.Sum,
               withdrawals := t.withdrawals + req.Sum }] }) := by
  have hstore : (OrderServiceImpl.Withdraw db fail req).1 = db ∨
      (OrderServiceImpl.Withdraw db fail req).1 =
        (insertDebitTransaction db req.Number req.UserID req.Sum).1 := by
    unfold OrderServiceImpl.Withdraw DBOrderStorage.Withdraw
    by_cases hl : CheckNumberByLuhn req.Number = true
    · cases fail
      · right
        cases hd : insertDebitTransaction db req.Number req.UserID req.Sum with
        | mk db1 r => cases r <;> simp [hl]
      · left; simp [hl]
    · left; simp [hl]
  rcases hstore with h | h
  · exact Or.inl h
  · rcases insertDebitTransaction_cases db req.Number req.UserID req.Sum with h1 | ⟨t, ht, hle, h1⟩
    · exact Or.inl (h.trans h1)
    · exact Or.inr ⟨t, ht, hle, h.trans h1⟩

/-- The database after `DBUserStorage.AddUser`: only the id generator may have
moved, or the user row and the sequence-0 ledger row were both written. -/
theorem AddUser_cases (db : DB) (fault : Fault) (login hashedPass : String) :
    ((DBUserStorage.AddUser db fault login hashedPass).1.users = db.users ∧
      (DBUserStorage.AddUser db fault login hashedPass).1.orders = db.orders ∧
      (DBUserStorage.AddUser db fault login hashedPass).1.transactions = db.transactions) ∨
    ((DBUserStorage.AddUser db fault login hashedPass).1.users = db.users ++
        [{ id := db.userSeq + 1, login := login, password := hashedPass }] ∧
      (DBUserStorage.AddUser db fault login hashedPass).1.orders = db.orders ∧
      (DBUserStorage.AddUser db fault login hashedPass).1.transactions = db.transactions ++
        [{ id := 0, number := none, user_id := db.userSeq + 1, sum := 0, balance := 0,
           withdrawals := 0 }]) := by
  unfold DBUserStorage.AddUser
  by_cases hex : (db.users.any (fun r => r.login = login)) = true
  · left; cases fault <;> simp [hex]
  · cases fault
    · right; simp [hex]
    all_goals (left; simp [hex])

/-- The database after `OrderServiceImpl.UploadOrder` is the old one, or the
old one with a New order row for a number that was absent. -/
theorem UploadOrder_cases (db : DB) (fault : AddOrderFault) (getFails : Bool)
    (userID : UserID) (number : OrderNumber) :
    (OrderServiceImpl.UploadOrder db fault getFails userID number).1 = db ∨
    ((∀ o ∈ db.orders, o.number ≠ number) ∧
      (OrderServiceImpl.UploadOrder db fault getFails userID number).1 =
        { db with orders := db.orders ++
            [{ number := number, user_id := userID, status := OrderStatus.New,
               accrual := none }] }) := by
  unfold OrderServiceImpl.UploadOrder DBOrderStorage.AddOrder
  by_cases hl : CheckNumberByLuhn number = true
  · by_cases hex : (db.orders.any (fun o => o.number = number)) = true
    · left
      cases fault <;> simp [hl, hex] <;>
        (cases DBOrderStorage.GetOrderUser db getFails number <;> simp; split <;> rfl)
    · have habsent : ∀ o ∈ db.orders, o.number ≠ number := by
        intro o ho heq
        exact hex (List.any_eq_true.mpr ⟨o, ho, by simp [heq]⟩)
      cases fault
      · right
        refine ⟨habsent, ?_⟩
        cases hscan : scansAsInt number <;> simp [hl, hex, hscan]
      · left; simp [hl]
      · right; exact ⟨habsent, by simp [hl, hex]⟩
  · left; simp [hl]

/-! ## One iteration of the worker's loop -/

theorem StatusProcessing_ne_StatusInvalid : ¬ StatusProcessing = StatusInvalid := by decide

theorem StatusProcessed_ne_StatusInvalid : ¬ StatusProcessed = StatusInvalid := by decide

theorem StatusProcessed_ne_StatusProcessing : ¬ StatusProcessed = StatusProcessing := by decide

/-- What one loop iteration does to the database: nothing (oracle error or
driver failure), a status-only update, or the status/accrual update with its
ledger credit. -/
theorem processOne_cases (client : AccrualClient) (faults : TickFaults) (db : DB)
    (po : ProcessingOrder) :
    OrderWorker.processOne client faults db po = db ∨
    (∃ s, (s = OrderStatus.Invalid ∨ s = OrderStatus.Processing ∨ s = po.Status ∨
          (s = OrderStatus.Processed ∧ ∃ acc, client po.Number = Except.ok acc ∧
            acc.Status = StatusProcessed ∧ acc.Accrual = none)) ∧
        OrderWorker.processOne client faults db po = updateOrderStatus db s po.Number) ∨
    (∃ s a, (po.Accrual = some a ∨
          (s = OrderStatus.Processed ∧ ∃ acc, client po.Number = Except.ok acc ∧
            acc.Status = StatusProcessed ∧ acc.Accrual = some a)) ∧
        OrderWorker.processOne client faults db po =
          insertCreditTransaction (updateOrder db s (some a) po.Number) po.Number po.UserID a) := by
  unfold OrderWorker.processOne OrderWorker.processOrder
  cases hc : client po.Number with
  | error e => left; rfl
  | ok acc =>
    cases hf : faults.update po.Number with
    | none =>
      right
      by_cases h1 : acc.Status = StatusInvalid
      · cases hacc : po.Accrual with
        | none =>
          left
          exact ⟨OrderStatus.Invalid, Or.inl rfl,
            by simp [h1, hacc, DBOrderStorage.UpdateOrderStatus]⟩
        | some a =>
          right
          exact ⟨OrderStatus.Invalid, a, Or.inl rfl,
            by simp [h1, hacc, DBOrderStorage.UpdateOrderAccrual]⟩
      · by_cases h2 : acc.Status = StatusProcessing
        · cases hacc : po.Accrual with
          | none =>
            left
            exact ⟨OrderStatus.Processing, Or.inr (Or.inl rfl),
              by simp [h2, StatusProcessing_ne_StatusInvalid, hacc, DBOrderStorage.UpdateOrderStatus]⟩
          | some a =>
            right
            exact ⟨OrderStatus.Processing, a, Or.inl rfl,
              by simp [h2, StatusProcessing_ne_StatusInvalid, hacc, DBOrderStorage.UpdateOrderAccrual]⟩
        · by_cases h3 : acc.Status = StatusProcessed
          · cases hacc : acc.Accrual with
            | none =>
              left
              exact ⟨OrderStatus.Processed, Or.inr (Or.inr (Or.inr ⟨rfl, acc, rfl, h3, hacc⟩)),
                by simp [h3, StatusProcessed_ne_StatusInvalid, StatusProcessed_ne_StatusProcessing, hacc,
                  DBOrderStorage.UpdateOrderStatus]⟩
            | some a =>
              right
              exact ⟨OrderStatus.Processed, a, Or.inr ⟨rfl, acc, rfl, h3, hacc⟩,
                by simp [h3, StatusProcessed_ne_StatusInvalid, StatusProcessed_ne_StatusProcessing,
                  hacc, DBOrderStorage.UpdateOrderAccrual]⟩
          · cases hacc : po.Accrual with
            | none =>
              left
              exact ⟨po.Status, Or.inr (Or.inr (Or.inl rfl)),
                by simp [h1, h2, h3, hacc, DBOrderStorage.UpdateOrderStatus]⟩
            | some a =>
              right
              exact ⟨po.Status, a, Or.inl rfl,
                by simp [h1, h2, h3, hacc, DBOrderStorage.UpdateOrderAccrual]⟩
    | begin =>
      left
      simp only [DBOrderStorage.UpdateOrderAccrual, DBOrderStorage.UpdateOrderStatus]
      split <;> simp
    | first =>
      left
      simp only [DBOrderStorage.UpdateOrderAccrual, DBOrderStorage.UpdateOrderStatus]
      split <;> simp
    | second =>
      left
      simp only [DBOrderStorage.UpdateOrderAccrual, DBOrderStorage.UpdateOrderStatus]
      (split <;> simp); intro _; split <;> rfl
    | commit =>
      left
      simp only [DBOrderStorage.UpdateOrderAccrual, DBOrderStorage.UpdateOrderStatus]
      (split <;> simp); intro _; split <;> rfl

/-! ## C3: the balance is never negative -/

theorem BalanceInv_updateOrderStatus (db : DB) (s : OrderStatus) (n : OrderNumber)
    (h : BalanceInv db) : BalanceInv (updateOrderStatus db s n) := by
  refine ⟨h.1, ?_⟩
  intro o ho b hb
  simp only [updateOrderStatus, List.mem_map] at ho
  obtain ⟨r, hr, rfl⟩ := ho
  by_cases hn : r.number = n
  · simp only [hn, if_true] at hb
    exact h.2 r hr b hb
  · simp only [hn, if_false] at hb
    exact h.2 r hr b hb

theorem BalanceInv_credit (db : DB) (s : OrderStatus) (n : OrderNumber) (u : UserID) (a : ℚ)
    (ha : 0 ≤ a) (h : BalanceInv db) :
    BalanceInv (insertCreditTransaction (updateOrder db s (some a) n) n u a) := by
  have horders : ∀ o ∈ (updateOrder db s (some a) n).orders, ∀ b, o.accrual = some b → 0 ≤ b := by
    intro o ho b hb
    simp only [updateOrder, List.mem_map] at ho
    obtain ⟨r, hr, rfl⟩ := ho
    by_cases hn : r.number = n
    · simp only [hn, if_true, Option.some.injEq] at hb
      rw [← hb]; exact ha
    · simp only [hn, if_false] at hb
      exact h.2 r hr b hb
  rcases insertCreditTransaction_cases (updateOrder db s (some a) n) n u a with
    ⟨_, heq⟩ | ⟨t, ht, heq⟩
  · rw [heq]; exact ⟨h.1, horders⟩
  · rw [heq]
    refine ⟨?_, horders⟩
    intro x hx
    rcases List.mem_append.mp hx with hx | hx
    · exact h.1 x hx
    · simp only [List.mem_singleton] at hx
      subst hx
      have := h.1 t (latestTransaction_mem _ _ _ ht).1
      show 0 ≤ t.balance + a
      linarith

theorem BalanceInv_processOne (client : AccrualClient) (faults : TickFaults) (db : DB)
    (po : ProcessingOrder)
    (hclient : ∀ n acc a, client n = Except.ok acc → acc.Accrual = some a → 0 ≤ a)
    (hpo : ∀ b, po.Accrual = some b → 0 ≤ b) (h : BalanceInv db) :
    BalanceInv (OrderWorker.processOne client faults db po) := by
  rcases processOne_cases client faults db po with heq | ⟨s, _, heq⟩ | ⟨s, a, ha, heq⟩
  · rw [heq]; exact h
  · rw [heq]; exact BalanceInv_updateOrderStatus db s po.Number h
  · rw [heq]
    apply BalanceInv_credit _ _ _ _ _ _ h
    rcases ha with ha | ⟨_, acc, hacc, _, hsome⟩
    · exact hpo a ha
    · exact hclient _ acc a hacc hsome

theorem BalanceInv_processOrders (client : AccrualClient) (faults : TickFaults)
    (hclient : ∀ n acc a, client n = Except.ok acc → acc.Accrual = some a → 0 ≤ a)
    (orders : List ProcessingOrder) :
    ∀ db, (∀ po ∈ orders, ∀ b, po.Accrual = some b → 0 ≤ b) → BalanceInv db →
      BalanceInv (OrderWorker.processOrders client faults orders db) := by
  induction orders with
  | nil => intro db _ h; exact h
  | cons po rest ih =>
    intro db hpos h
    unfold OrderWorker.processOrders
    apply ih
    · exact fun p hp => hpos p (List.mem_cons_of_mem _ hp)
    · exact BalanceInv_processOne client faults db po hclient
        (hpos po (List.mem_cons_self _ _)) h

theorem BalanceInv_step (db : DB) (a : Action) (hok : nonNegativeAccruals db a)
    (h : BalanceInv db) : BalanceInv (step db a) := by
  cases a with
  | AddUser fault login hashedPass =>
    show BalanceInv (DBUserStorage.AddUser db fault login hashedPass).1
    rcases AddUser_cases db fault login hashedPass with ⟨_, ho, ht⟩ | ⟨_, ho, ht⟩
    · exact ⟨by rw [ht]; exact h.1, by rw [ho]; exact h.2⟩
    · refine ⟨?_, by rw [ho]; exact h.2⟩
      rw [ht]
      intro x hx
      rcases List.mem_append.mp hx with hx | hx
      · exact h.1 x hx
      · simp only [List.mem_singleton] at hx
        subst hx
        exact le_refl _
  | UploadOrder fault getFails userID number =>
    show BalanceInv (OrderServiceImpl.UploadOrder db fault getFails userID number).1
    rcases UploadOrder_cases db fault getFails userID number with heq | ⟨_, heq⟩
    · rw [heq]; exact h
    · rw [heq]
      refine ⟨h.1, ?_⟩
      intro o ho b hb
      rcases List.mem_append.mp ho with ho | ho
      · exact h.2 o ho b hb
      · simp only [List.mem_singleton] at ho
        subst ho
        cases hb
  | Withdraw fail req =>
    show BalanceInv (OrderServiceImpl.Withdraw db fail req).1
    rcases Withdraw_cases db fail req with heq | ⟨t, ht, hle, heq⟩
    · rw [heq]; exact h
    · rw [heq]
      refine ⟨?_, h.2⟩
      intro x hx
      rcases List.mem_append.mp hx with hx | hx
      · exact h.1 x hx
      · simp only [List.mem_singleton] at hx
        subst hx
        show 0 ≤ t.balance - req.Sum
        linarith
  | process client faults =>
    show BalanceInv (OrderWorker.process client faults db)
    unfold OrderWorker.process DBOrderStorage.GetNotProcessedOrders
    cases faults.getNotProcessed with
    | true => exact h
    | false =>
      apply BalanceInv_processOrders client faults hok _ db _ h
      intro po hpo b hb
      simp only [List.mem_map, List.mem_filter] at hpo
      obtain ⟨o, ⟨ho, _⟩, rfl⟩ := hpo
      exact h.2 o ho b hb

/-- C3. In every database reachable from the empty one by registrations,
uploads, `Withdraw` requests with any sum (positive, zero or negative) and
worker ticks whose oracle answers carry non-negative accruals, with any
driver failures, the running balance of every ledger row is at least 0. -/
theorem balance_never_negative (db : DB) (hreach : Reachable nonNegativeAccruals db) :
    ∀ t ∈ db.transactions, 0 ≤ t.balance := by
  have hinv : BalanceInv db := by
    induction hreach with
    | init => constructor <;> intro x hx <;> cases hx
    | step db a _ hok ih => exact BalanceInv_step db a hok ih
  exact hinv.1

/-! ## The orders table along an execution -/

theorem updateOrderStatus_numbers (db : DB) (s : OrderStatus) (n : OrderNumber) :
    (updateOrderStatus db s n).orders.map (fun o => o.number) =
      db.orders.map (fun o => o.number) := by
  simp only [updateOrderStatus, List.map_map]
  apply List.map_congr_left
  intro o _
  by_cases h : o.number = n <;> simp [h]

theorem updateOrder_numbers (db : DB) (s : OrderStatus) (acc : Option ℚ) (n : OrderNumber) :
    (updateOrder db s acc n).orders.map (fun o => o.number) =
      db.orders.map (fun o => o.number) := by
  simp only [updateOrder, List.map_map]
  apply List.map_congr_left
  intro o _
  by_cases h : o.number = n <;> simp [h]

theorem insertCreditTransaction_orders (db : DB) (n : OrderNumber) (u : UserID) (a : ℚ) :
    (insertCreditTransaction db n u a).orders = db.orders := by
  rcases insertCreditTransaction_cases db n u a with ⟨_, h⟩ | ⟨t, _, h⟩ <;> rw [h]

theorem insertCreditTransaction_users (db : DB) (n : OrderNumber) (u : UserID) (a : ℚ) :
    (insertCreditTransaction db n u a).users = db.users := by
  rcases insertCreditTransaction_cases db n u a with ⟨_, h⟩ | ⟨t, _, h⟩ <;> rw [h]

/-- A row of `orders` after `updateOrderStatus`. -/
theorem mem_updateOrderStatus (db : DB) (s : OrderStatus) (n : OrderNumber) (o : OrderRow) :
    o ∈ (updateOrderStatus db s n).orders ↔
      ∃ r ∈ db.orders, (r.number = n ∧ o = { r with status := s }) ∨ (r.number ≠ n ∧ o = r) := by
  simp only [updateOrderStatus, List.mem_map]
  constructor
  · rintro ⟨r, hr, rfl⟩
    by_cases h : r.number = n
    · exact ⟨r, hr, Or.inl ⟨h, by simp [h]⟩⟩
    · exact ⟨r, hr, Or.inr ⟨h, by simp [h]⟩⟩
  · rintro ⟨r, hr, ⟨h, rfl⟩ | ⟨h, rfl⟩⟩
    · exact ⟨r, hr, by simp [h]⟩
    · exact ⟨o, hr, by simp [h]⟩

/-- A row of `orders` after `updateOrder`. -/
theorem mem_updateOrder (db : DB) (s : OrderStatus) (acc : Option ℚ) (n : OrderNumber)
    (o : OrderRow) :
    o ∈ (updateOrder db s acc n).orders ↔
      ∃ r ∈ db.orders, (r.number = n ∧ o = { r with status := s, accrual := acc }) ∨
        (r.number ≠ n ∧ o = r) := by
  simp only [updateOrder, List.mem_map]
  constructor
  · rintro ⟨r, hr, rfl⟩
    by_cases h : r.number = n
    · exact ⟨r, hr, Or.inl ⟨h, by simp [h]⟩⟩
    · exact ⟨r, hr, Or.inr ⟨h, by simp [h]⟩⟩
  · rintro ⟨r, hr, ⟨h, rfl⟩ | ⟨h, rfl⟩⟩
    · exact ⟨r, hr, by simp [h]⟩
    · exact ⟨o, hr, by simp [h]⟩

/-- With no accrual read for the order and an order that is not Processed,
the loop iteration does nothing, updates the status alone, or writes status
Processed with the oracle's accrual and the ledger credit. -/
theorem processOne_pending_cases (client : AccrualClient) (faults : TickFaults) (db : DB)
    (po : ProcessingOrder) (hacc : po.Accrual = none) :
    OrderWorker.processOne client faults db po = db ∨
    (∃ s, (s = OrderStatus.Invalid ∨ s = OrderStatus.Processing ∨ s = po.Status ∨
          (s = OrderStatus.Processed ∧ ∃ acc, client po.Number = Except.ok acc ∧
            acc.Status = StatusProcessed ∧ acc.Accrual = none)) ∧
        OrderWorker.processOne client faults db po = updateOrderStatus db s po.Number) ∨
    (∃ a acc, client po.Number = Except.ok acc ∧ acc.Status = StatusProcessed ∧
        acc.Accrual = some a ∧
        OrderWorker.processOne client faults db po =
          insertCreditTransaction (updateOrder db OrderStatus.Processed (some a) po.Number)
            po.Number po.UserID a) := by
  rcases processOne_cases client faults db po with h | h | ⟨s, a, hsa, heq⟩
  · exact Or.inl h
  · exact Or.inr (Or.inl h)
  · rcases hsa with hsa | ⟨rfl, acc, h1, h2, h3⟩
    · rw [hacc] at hsa; cases hsa
    · exact Or.inr (Or.inr ⟨a, acc, h1, h2, h3, heq⟩)

/-- Rows of other order numbers are the same before and after a loop
iteration. -/
theorem processOne_other_rows (client : AccrualClient) (faults : TickFaults) (db : DB)
    (po : ProcessingOrder) (n : OrderNumber) (hn : n ≠ po.Number) (o : OrderRow)
    (hon : o.number = n) :
    o ∈ (OrderWorker.processOne client faults db po).orders ↔ o ∈ db.orders := by
  rcases processOne_cases client faults db po with heq | ⟨s, _, heq⟩ | ⟨s, a, _, heq⟩
  · rw [heq]
  · rw [heq, mem_updateOrderStatus]
    constructor
    · rintro ⟨r, hr, ⟨h, rfl⟩ | ⟨h, rfl⟩⟩
      · exact absurd (hon.symm.trans h) hn
      · exact hr
    · intro ho
      exact ⟨o, ho, Or.inr ⟨by rw [hon]; exact hn, rfl⟩⟩
  · rw [heq, insertCreditTransaction_orders, mem_updateOrder]
    constructor
    · rintro ⟨r, hr, ⟨h, rfl⟩ | ⟨h, rfl⟩⟩
      · exact absurd (hon.symm.trans h) hn
      · exact hr
    · intro ho
      exact ⟨o, ho, Or.inr ⟨by rw [hon]; exact hn, rfl⟩⟩

/-- An order of the snapshot with another number is still pending after a
loop iteration. -/
theorem PendingIn_processOne_other (client : AccrualClient) (faults : TickFaults) (db : DB)
    (po po1 : ProcessingOrder) (hne : po1.Number ≠ po.Number) (h : PendingIn db po1) :
    PendingIn (OrderWorker.processOne client faults db po) po1 := by
  obtain ⟨h1, h2, ⟨o, ho, hon, hou⟩, h4⟩ := h
  refine ⟨h1, h2, ⟨o, ?_, hon, hou⟩, ?_⟩
  · exact (processOne_other_rows client faults db po po1.Number hne o hon).mpr ho
  · intro r hr hrn
    exact h4 r ((processOne_other_rows client faults db po po1.Number hne r hrn).mp hr) hrn

/-- Loop rule of a tick: a property of the database that every iteration on
a pending order keeps is kept by the whole loop over pending orders with
distinct numbers. -/
theorem processOrders_preserves (client : AccrualClient) (faults : TickFaults)
    (P : DB → Prop)
    (hP : ∀ db po, P db → PendingIn db po → P (OrderWorker.processOne client faults db po))
    (orders : List ProcessingOrder) :
    ∀ db, (orders.map (fun po => po.Number)).Nodup → (∀ po ∈ orders, PendingIn db po) →
      P db → P (OrderWorker.processOrders client faults orders db) := by
  induction orders with
  | nil => intro db _ _ h; exact h
  | cons po rest ih =>
    intro db hnodup hpend h
    unfold OrderWorker.processOrders
    rw [List.map_cons, List.nodup_cons] at hnodup
    apply ih _ hnodup.2
    · intro p hp
      apply PendingIn_processOne_other
      · intro heq
        exact hnodup.1 (List.mem_map.mpr ⟨p, hp, heq⟩)
      · exact hpend p (List.mem_cons_of_mem _ hp)
    · exact hP db po h (hpend po (List.mem_cons_self _ _))

/-- The orders returned by `GetNotProcessedOrders` have distinct numbers and
are pending in the database they were read from. -/
theorem GetNotProcessedOrders_pending (db : DB) (hinv : OrdersInv db)
    (orders : List ProcessingOrder)
    (h : DBOrderStorage.GetNotProcessedOrders db false = Except.ok orders) :
    (orders.map (fun po => po.Number)).Nodup ∧ ∀ po ∈ orders, PendingIn db po := by
  simp only [DBOrderStorage.GetNotProcessedOrders, Bool.false_eq_true, if_false,
    Except.ok.injEq] at h
  subst h
  constructor
  · rw [List.map_map]
    exact (hinv.1.sublist ((List.filter_sublist _).map _))
  · intro po hpo
    simp only [List.mem_map, List.mem_filter] at hpo
    obtain ⟨o, ⟨ho, hst⟩, rfl⟩ := hpo
    have hst1 : o.status ≠ OrderStatus.Processed := by
      intro hc; simp [hc] at hst
    refine ⟨hinv.2 o ho hst1, hst1, ⟨o, ho, rfl, rfl⟩, ?_⟩
    intro r hr hrn
    have : r = o := List.inj_on_of_nodup_map hinv.1 hr ho hrn
    rw [this]; exact hst1

theorem OrdersInv_processOne (client : AccrualClient) (faults : TickFaults) (db : DB)
    (po : ProcessingOrder) (hinv : OrdersInv db) (hpo : PendingIn db po) :
    OrdersInv (OrderWorker.processOne client faults db po) := by
  obtain ⟨hacc, _, _, hpend⟩ := hpo
  rcases processOne_pending_cases client faults db po hacc with
    heq | ⟨s, _, heq⟩ | ⟨a, acc, _, _, _, heq⟩
  · rw [heq]; exact hinv
  · rw [heq]
    refine ⟨by rw [updateOrderStatus_numbers]; exact hinv.1, ?_⟩
    intro o ho _
    rw [mem_updateOrderStatus] at ho
    obtain ⟨r, hr, ⟨hn, rfl⟩ | ⟨hn, rfl⟩⟩ := ho
    · exact hinv.2 r hr (hpend r hr hn)
    · rename_i hst
      exact hinv.2 o hr hst
  · rw [heq]
    refine ⟨by rw [insertCreditTransaction_orders, updateOrder_numbers]; exact hinv.1, ?_⟩
    intro o ho hst
    rw [insertCreditTransaction_orders, mem_updateOrder] at ho
    obtain ⟨r, hr, ⟨hn, rfl⟩ | ⟨hn, rfl⟩⟩ := ho
    · exact absurd rfl hst
    · exact hinv.2 o hr hst

/-- Tick rule: a property that implies `OrdersInv` and is kept by every loop
iteration on a pending order is kept by `OrderWorker.process`. -/
theorem process_preserves (client : AccrualClient) (faults : TickFaults) (P : DB → Prop)
    (hinv : ∀ db, P db → OrdersInv db)
    (hP : ∀ db po, P db → PendingIn db po → P (OrderWorker.processOne client faults db po))
    (db : DB) (h : P db) : P (OrderWorker.process client faults db) := by
  unfold OrderWorker.process
  cases hflag : faults.getNotProcessed with
  | true => simpa [DBOrderStorage.GetNotProcessedOrders] using h
  | false =>
    cases hq : DBOrderStorage.GetNotProcessedOrders db false with
    | error e => simp [DBOrderStorage.GetNotProcessedOrders] at hq
    | ok orders =>
      obtain ⟨hnodup, hpend⟩ := GetNotProcessedOrders_pending db (hinv db h) orders hq
      exact processOrders_preserves client faults P hP orders db hnodup hpend h

theorem OrdersInv_UploadOrder (db : DB) (fault : AddOrderFault) (getFails : Bool)
    (userID : UserID) (number : OrderNumber) (hinv : OrdersInv db) :
    OrdersInv (OrderServiceImpl.UploadOrder db fault getFails userID number).1 := by
  rcases UploadOrder_cases db fault getFails userID number with heq | ⟨habsent, heq⟩
  · rw [heq]; exact hinv
  · rw [heq]
    constructor
    · show (List.map (fun o : OrderRow => o.number) (db.orders ++ [_])).Nodup
      rw [List.map_append, List.map_singleton]
      apply List.Nodup.append hinv.1 (List.nodup_singleton _)
      intro n hn hn1
      simp only [List.mem_singleton] at hn1
      subst hn1
      obtain ⟨o, ho, hon⟩ := List.mem_map.mp hn
      exact habsent o ho hon
    · intro o ho hst
      rcases List.mem_append.mp ho with ho | ho
      · exact hinv.2 o ho hst
      · simp only [List.mem_singleton] at ho
        subst ho
        rfl

/-! ## C7: the credit of an order lands once -/

theorem entriesOf_append (db : DB) (O : OrderNumber) (x : TransactionRow) :
    entriesOf { db with transactions := db.transactions ++ [x] } O =
      entriesOf db O ++ (if x.number = some O then [x] else []) := by
  simp only [entriesOf, List.filter_append, List.filter_cons, List.filter_nil]
  by_cases h : x.number = some O <;> simp [h]

theorem CreditInv_processOne (O : OrderNumber) (client : AccrualClient) (faults : TickFaults)
    (db : DB) (po : ProcessingOrder) (h : CreditInv O db) (hpo : PendingIn db po) :
    CreditInv O (OrderWorker.processOne client faults db po) := by
  refine ⟨OrdersInv_processOne client faults db po h.1 hpo, ?_⟩
  obtain ⟨_, hE, hF⟩ := h
  obtain ⟨hacc, _, ⟨row, hrow, hrown, hrowu⟩, hpend⟩ := hpo
  rcases processOne_pending_cases client faults db po hacc with
    heq | ⟨s, _, heq⟩ | ⟨a, acc, _, _, _, heq⟩
  · rw [heq]; exact ⟨hE, hF⟩
  · rw [heq]
    refine ⟨?_, hF⟩
    intro t ht htn
    obtain ⟨o, ho, hon, hos, hou⟩ := hE t ht htn
    have hne : o.number ≠ po.Number := fun hc => hpend o ho hc hos
    exact ⟨o, (mem_updateOrderStatus _ _ _ _).mpr ⟨o, ho, Or.inr ⟨hne, rfl⟩⟩, hon, hos, hou⟩
  · rw [heq]
    have hold : ∀ t ∈ db.transactions, t.number = some O →
        ∃ o ∈ (updateOrder db OrderStatus.Processed (some a) po.Number).orders,
          o.number = O ∧ o.status = OrderStatus.Processed ∧ o.user_id = t.user_id := by
      intro t ht htn
      obtain ⟨o, ho, hon, hos, hou⟩ := hE t ht htn
      have hne : o.number ≠ po.Number := fun hc => hpend o ho hc hos
      exact ⟨o, (mem_updateOrder _ _ _ _ _).mpr ⟨o, ho, Or.inr ⟨hne, rfl⟩⟩, hon, hos, hou⟩
    rcases insertCreditTransaction_cases
        (updateOrder db OrderStatus.Processed (some a) po.Number) po.Number po.UserID a with
      ⟨_, hins⟩ | ⟨t0, _, hins⟩
    · rw [hins]; exact ⟨hold, hF⟩
    · rw [hins]
      constructor
      · intro t ht htn
        rcases List.mem_append.mp ht with ht | ht
        · exact hold t ht htn
        · simp only [List.mem_singleton] at ht
          subst ht
          simp only [Option.some.injEq] at htn
          refine ⟨{ row with status := OrderStatus.Processed, accrual := some a },
            (mem_updateOrder _ _ _ _ _).mpr ⟨row, hrow, Or.inl ⟨hrown, rfl⟩⟩, ?_, rfl, hrowu⟩
          exact hrown.trans htn
      · rw [entriesOf_append]
        by_cases hn : po.Number = O
        · have hempty : entriesOf db O = [] := by
            apply List.eq_nil_iff_forall_not_mem.mpr
            intro t ht
            obtain ⟨ht1, ht2⟩ := List.mem_filter.mp ht
            obtain ⟨o, ho, hon, hos, _⟩ := hE t ht1 (by simpa using ht2)
            exact hpend o ho (hon.trans hn.symm) hos
          have hempty1 : entriesOf (updateOrder db OrderStatus.Processed (some a) po.Number) O
              = [] := hempty
          rw [hempty1]
          simp [hn]
        · have hsame : entriesOf (updateOrder db OrderStatus.Processed (some a) po.Number) O
              = entriesOf db O := rfl
          rw [hsame]
          simpa [hn] using hF

theorem CreditInv_step (O : OrderNumber) (db : DB) (a : Action)
    (hok : withdrawalsAvoid O db a) (h : CreditInv O db) : CreditInv O (step db a) := by
  cases a with
  | AddUser fault login hashedPass =>
    show CreditInv O (DBUserStorage.AddUser db fault login hashedPass).1
    obtain ⟨hI, hE, hF⟩ := h
    rcases AddUser_cases db fault login hashedPass with ⟨_, ho, ht⟩ | ⟨_, ho, ht⟩
    · refine ⟨?_, ?_, ?_⟩
      · unfold OrdersInv; rw [ho]; exact hI
      · rw [ho, ht]; exact hE
      · unfold entriesOf; rw [ht]; exact hF
    · refine ⟨?_, ?_, ?_⟩
      · unfold OrdersInv; rw [ho]; exact hI
      · rw [ho, ht]
        intro t ht1 htn
        rcases List.mem_append.mp ht1 with ht1 | ht1
        · exact hE t ht1 htn
        · simp only [List.mem_singleton] at ht1
          subst ht1
          cases htn
      · unfold entriesOf; rw [ht]
        simpa [List.filter_append] using hF
  | UploadOrder fault getFails userID number =>
    show CreditInv O (OrderServiceImpl.UploadOrder db fault getFails userID number).1
    refine ⟨OrdersInv_UploadOrder db fault getFails userID number h.1, ?_⟩
    obtain ⟨_, hE, hF⟩ := h
    rcases UploadOrder_cases db fault getFails userID number with heq | ⟨_, heq⟩
    · rw [heq]; exact ⟨hE, hF⟩
    · rw [heq]
      refine ⟨?_, hF⟩
      intro t ht htn
      obtain ⟨o, ho, hrest⟩ := hE t ht htn
      exact ⟨o, List.mem_append_left _ ho, hrest⟩
  | Withdraw fail req =>
    show CreditInv O (OrderServiceImpl.Withdraw db fail req).1
    have hne : req.Number ≠ O := hok
    rcases Withdraw_cases db fail req with heq | ⟨t0, _, _, heq⟩
    · rw [heq]; exact h
    · rw [heq]
      obtain ⟨hI, hE, hF⟩ := h
      refine ⟨hI, ?_, ?_⟩
      · intro t ht htn
        rcases List.mem_append.mp ht with ht | ht
        · exact hE t ht htn
        · simp only [List.mem_singleton] at ht
          subst ht
          simp only [Option.some.injEq] at htn
          exact absurd htn hne
      · rw [entriesOf_append]
        simpa [hne] using hF
  | process client faults =>
    exact process_preserves client faults (CreditInv O) (fun _ hdb => hdb.1)
      (fun db po hdb hpo => CreditInv_processOne O client faults db po hdb hpo) db h

theorem CreditInv_reachable (O : OrderNumber) (db : DB)
    (hreach : Reachable (withdrawalsAvoid O) db) : CreditInv O db := by
  induction hreach with
  | init =>
    refine ⟨⟨List.nodup_nil, ?_⟩, ?_, ?_⟩
    · intro o ho; cases ho
    · intro t ht; cases ht
    · exact Nat.zero_le _
  | step db a _ hok ih => exact CreditInv_step O db a hok ih

/-- C7 (amended). In every database reachable by registrations, uploads,
worker ticks with any oracle answers, and `Withdraw` requests that do not name
the order number `O`, with any driver failures: once the ledger holds a row
with order number `O` (only the worker's credit of `O` writes one), it holds
exactly one such row, and the order `O` exists with status Processed and is
owned by the user of that row. -/
theorem credit_lands_once (O : OrderNumber) (db : DB)
    (hreach : Reachable (withdrawalsAvoid O) db)
    (hcredited : ∃ t ∈ db.transactions, t.number = some O) :
    (entriesOf db O).length = 1 ∧
    ∃ o ∈ db.orders, o.number = O ∧ o.status = OrderStatus.Processed ∧
      ∀ t ∈ db.transactions, t.number = some O → t.user_id = o.user_id := by
  obtain ⟨hI, hE, hF⟩ := CreditInv_reachable O db hreach
  obtain ⟨t, ht, htn⟩ := hcredited
  constructor
  · have hmem : t ∈ entriesOf db O := List.mem_filter.mpr ⟨ht, by simpa using htn⟩
    have hpos : 0 < (entriesOf db O).length := List.length_pos_of_mem hmem
    omega
  · obtain ⟨o, ho, hon, hos, _⟩ := hE t ht htn
    refine ⟨o, ho, hon, hos, ?_⟩
    intro t1 ht1 ht1n
    obtain ⟨o1, ho1, ho1n, _, ho1u⟩ := hE t1 ht1 ht1n
    have : o1 = o := List.inj_on_of_nodup_map hI.1 ho1 ho (ho1n.trans hon.symm)
    rw [← ho1u, this]

/-! ## C6: a credit entry exists iff the order is Processed -/

theorem latestTransaction_isSome (db : DB) (u : UserID)
    (h : ∃ t ∈ db.transactions, t.user_id = u) : ∃ m, latestTransaction db u = some m := by
  obtain ⟨t, ht, htu⟩ := h
  apply maxByID_isSome
  intro hnil
  have : t ∈ db.transactions.filter (fun t => t.user_id = u) :=
    List.mem_filter.mpr ⟨ht, by simpa using htu⟩
  rw [hnil] at this
  cases this

theorem ReconciledInv_processOne (client : AccrualClient) (faults : TickFaults)
    (hclient : ∀ n acc, client n = Except.ok acc → acc.Status = StatusProcessed →
      ∃ a, acc.Accrual = some a ∧ 0 ≤ a)
    (db : DB) (po : ProcessingOrder) (h : ReconciledInv db) (hpo : PendingIn db po) :
    ReconciledInv (OrderWorker.processOne client faults db po) := by
  refine ⟨OrdersInv_processOne client faults db po h.1 hpo, ?_⟩
  obtain ⟨_, hA, hB, hEa, hEb⟩ := h
  obtain ⟨hacc, hpst, ⟨row, hrow, hrown, hrowu⟩, hpend⟩ := hpo
  rcases processOne_pending_cases client faults db po hacc with
    heq | ⟨s, hs, heq⟩ | ⟨a, acc, hc1, hc2, hc3, heq⟩
  · rw [heq]; exact ⟨hA, hB, hEa, hEb⟩
  · have hsne : s ≠ OrderStatus.Processed := by
      rcases hs with rfl | rfl | rfl | ⟨_, acc, hc1, hc2, hc3⟩
      · decide
      · decide
      · exact hpst
      · obtain ⟨a, ha, _⟩ := hclient _ acc hc1 hc2
        rw [hc3] at ha; cases ha
    rw [heq]
    refine ⟨hA, ?_, ?_, ?_⟩
    · intro o ho
      obtain ⟨r, hr, ⟨_, rfl⟩ | ⟨_, rfl⟩⟩ := (mem_updateOrderStatus _ _ _ _).mp ho
      · exact hB r hr
      · exact hB o hr
    · intro t ht n htn hsum
      obtain ⟨o, ho, hon, hos⟩ := hEa t ht n htn hsum
      have hne : o.number ≠ po.Number := fun hc => hpend o ho hc hos
      exact ⟨o, (mem_updateOrderStatus _ _ _ _).mpr ⟨o, ho, Or.inr ⟨hne, rfl⟩⟩, hon, hos⟩
    · intro o ho hos
      obtain ⟨r, hr, ⟨_, rfl⟩ | ⟨_, rfl⟩⟩ := (mem_updateOrderStatus _ _ _ _).mp ho
      · exact absurd hos hsne
      · exact hEb o hr hos
  · have ha0 : 0 ≤ a := by
      obtain ⟨a1, ha1, hpos⟩ := hclient _ acc hc1 hc2
      rw [hc3] at ha1
      cases ha1
      exact hpos
    have hledger : ∃ t ∈ db.transactions, t.user_id = po.UserID := by
      obtain ⟨r, hr, hrid⟩ := hB row hrow
      obtain ⟨t, ht, htu⟩ := hA r hr
      exact ⟨t, ht, by rw [htu, hrid, hrowu]⟩
    obtain ⟨m, hm⟩ := latestTransaction_isSome db po.UserID hledger
    rcases insertCreditTransaction_cases
        (updateOrder db OrderStatus.Processed (some a) po.Number) po.Number po.UserID a with
      ⟨hnone, _⟩ | ⟨t0, _, hins⟩
    · rw [latestTransaction_updateOrder, hm] at hnone; cases hnone
    · rw [heq, hins]
      have hold : ∀ t ∈ db.transactions, ∀ n, t.number = some n → 0 ≤ t.sum →
          ∃ o ∈ (updateOrder db OrderStatus.Processed (some a) po.Number).orders,
            o.number = n ∧ o.status = OrderStatus.Processed := by
        intro t ht n htn hsum
        obtain ⟨o, ho, hon, hos⟩ := hEa t ht n htn hsum
        have hne : o.number ≠ po.Number := fun hc => hpend o ho hc hos
        exact ⟨o, (mem_updateOrder _ _ _ _ _).mpr ⟨o, ho, Or.inr ⟨hne, rfl⟩⟩, hon, hos⟩
      refine ⟨?_, ?_, ?_, ?_⟩
      · intro r hr
        obtain ⟨t, ht, htu⟩ := hA r hr
        exact ⟨t, List.mem_append_left _ ht, htu⟩
      · intro o ho
        obtain ⟨r, hr, ⟨_, rfl⟩ | ⟨_, rfl⟩⟩ := (mem_updateOrder _ _ _ _ _).mp ho
        · exact hB r hr
        · exact hB o hr
      · intro t ht n htn hsum
        rcases List.mem_append.mp ht with ht | ht
        · exact hold t ht n htn hsum
        · simp only [List.mem_singleton] at ht
          subst ht
          simp only [Option.some.injEq] at htn
          exact ⟨{ row with status := OrderStatus.Processed, accrual := some a },
            (mem_updateOrder _ _ _ _ _).mpr ⟨row, hrow, Or.inl ⟨hrown, rfl⟩⟩,
            hrown.trans htn, rfl⟩
      · intro o ho hos
        obtain ⟨r, hr, ⟨hrn, rfl⟩ | ⟨_, rfl⟩⟩ := (mem_updateOrder _ _ _ _ _).mp ho
        · exact ⟨_, List.mem_append_right _ (List.mem_singleton_self _),
            by simp [hrn], ha0⟩
        · obtain ⟨t, ht, htn, hsum⟩ := hEb o hr hos
          exact ⟨t, List.mem_append_left _ ht, htn, hsum⟩

theorem ReconciledInv_step (db : DB) (a : Action) (hok : reconcilable db a)
    (h : ReconciledInv db) : ReconciledInv (step db a) := by
  cases a with
  | AddUser fault login hashedPass =>
    show ReconciledInv (DBUserStorage.AddUser db fault login hashedPass).1
    obtain ⟨hI, hA, hB, hEa, hEb⟩ := h
    rcases AddUser_cases db fault login hashedPass with ⟨hu, ho, ht⟩ | ⟨hu, ho, ht⟩
    · unfold ReconciledInv OrdersInv creditEntryFor registered
      rw [hu, ho, ht]
      exact ⟨hI, hA, hB, hEa, hEb⟩
    · unfold ReconciledInv OrdersInv creditEntryFor registered
      rw [hu, ho, ht]
      refine ⟨hI, ?_, ?_, ?_, ?_⟩
      · intro r hr
        rcases List.mem_append.mp hr with hr | hr
        · obtain ⟨t, ht1, htu⟩ := hA r hr
          exact ⟨t, List.mem_append_left _ ht1, htu⟩
        · simp only [List.mem_singleton] at hr
          subst hr
          exact ⟨_, List.mem_append_right _ (List.mem_singleton_self _), rfl⟩
      · intro o ho1
        obtain ⟨r, hr, hrid⟩ := hB o ho1
        exact ⟨r, List.mem_append_left _ hr, hrid⟩
      · intro t ht1 n htn hsum
        rcases List.mem_append.mp ht1 with ht1 | ht1
        · exact hEa t ht1 n htn hsum
        · simp only [List.mem_singleton] at ht1
          subst ht1
          cases htn
      · intro o ho1 hos
        obtain ⟨t, ht1, htn, hsum⟩ := hEb o ho1 hos
        exact ⟨t, List.mem_append_left _ ht1, htn, hsum⟩
  | UploadOrder fault getFails userID number =>
    show ReconciledInv (OrderServiceImpl.UploadOrder db fault getFails userID number).1
    refine ⟨OrdersInv_UploadOrder db fault getFails userID number h.1, ?_⟩
    obtain ⟨_, hA, hB, hEa, hEb⟩ := h
    have hreg : registered db userID := hok
    rcases UploadOrder_cases db fault getFails userID number with heq | ⟨_, heq⟩
    · rw [heq]; exact ⟨hA, hB, hEa, hEb⟩
    · rw [heq]
      refine ⟨hA, ?_, ?_, ?_⟩
      · intro o ho
        rcases List.mem_append.mp ho with ho | ho
        · exact hB o ho
        · simp only [List.mem_singleton] at ho
          subst ho
          exact hreg
      · intro t ht n htn hsum
        obtain ⟨o, ho, hrest⟩ := hEa t ht n htn hsum
        exact ⟨o, List.mem_append_left _ ho, hrest⟩
      · intro o ho hos
        rcases List.mem_append.mp ho with ho | ho
        · exact hEb o ho hos
        · simp only [List.mem_singleton] at ho
          subst ho
          cases hos
  | Withdraw fail req =>
    show ReconciledInv (OrderServiceImpl.Withdraw db fail req).1
    have hpos : 0 < req.Sum := hok
    rcases Withdraw_cases db fail req with heq | ⟨t0, _, _, heq⟩
    · rw [heq]; exact h
    · rw [heq]
      obtain ⟨hI, hA, hB, hEa, hEb⟩ := h
      refine ⟨hI, ?_, hB, ?_, ?_⟩
      · intro r hr
        obtain ⟨t, ht, htu⟩ := hA r hr
        exact ⟨t, List.mem_append_left _ ht, htu⟩
      · intro t ht n htn hsum
        rcases List.mem_append.mp ht with ht | ht
        · exact hEa t ht n htn hsum
        · simp only [List.mem_singleton] at ht
          subst ht
          exfalso
          have hneg : (-1 * req.Sum) < 0 := by linarith
          exact absurd hsum (not_le.mpr hneg)
      · intro o ho hos
        obtain ⟨t, ht, htn, hsum⟩ := hEb o ho hos
        exact ⟨t, List.mem_append_left _ ht, htn, hsum⟩
  | process client faults =>
    exact process_preserves client faults ReconciledInv (fun _ hdb => hdb.1)
      (fun db po hdb hpo => ReconciledInv_processOne client faults hok db po hdb hpo) db h

theorem ReconciledInv_reachable (db : DB) (hreach : Reachable reconcilable db) :
    ReconciledInv db := by
  induction hreach with
  | init =>
    refine ⟨⟨List.nodup_nil, ?_⟩, ?_, ?_, ?_, ?_⟩ <;> intro x hx <;> cases hx
  | step db a _ hok ih => exact ReconciledInv_step db a hok ih

/-- C6 (amended). In every database reachable by registrations, uploads by
registered users, withdrawals of a positive sum and worker ticks in which
every oracle answer with status `PROCESSED` carries a non-negative accrual,
with any driver failures: an order has a credit entry in the ledger (a row
with its number and a non-negative amount) if and only if its status is
Processed. -/
theorem credit_iff_processed (db : DB) (hreach : Reachable reconcilable db) :
    ∀ o ∈ db.orders, creditEntryFor db o.number ↔ o.status = OrderStatus.Processed := by
  obtain ⟨hI, _, _, hEa, hEb⟩ := ReconciledInv_reachable db hreach
  intro o ho
  constructor
  · rintro ⟨t, ht, htn, hsum⟩
    obtain ⟨o1, ho1, ho1n, ho1s⟩ := hEa t ht o.number htn hsum
    have : o1 = o := List.inj_on_of_nodup_map hI.1 ho1 ho ho1n
    rw [← this]; exact ho1s
  · exact hEb o ho

/-! ## The scenario of the specification -/

theorem luhn_12345678903 : CheckNumberByLuhn "12345678903" = true := by decide

theorem luhn_2377225624 : CheckNumberByLuhn "2377225624" = true := by decide

theorem step_register : step DB.empty actRegister = ledgerRegistered := by
  simp [step, actRegister, DBUserStorage.AddUser, DB.empty, ledgerRegistered]

theorem scansAsInt_12345678903 : scansAsInt "12345678903" = true := by decide

theorem step_upload : step ledgerRegistered actUpload = ledgerFresh := by
  simp [step, actUpload, OrderServiceImpl.UploadOrder, luhn_12345678903,
    scansAsInt_12345678903, DBOrderStorage.AddOrder, ledgerRegistered, ledgerFresh]

theorem step_credit500 : step ledgerFresh actCredit500 = ledger500 := by
  simp [step, actCredit500, OrderWorker.process, DBOrderStorage.GetNotProcessedOrders,
    noFaults, OrderWorker.processOrders, OrderWorker.processOne, OrderWorker.processOrder,
    clientProcessed500, StatusProcessed_ne_StatusInvalid, StatusProcessed_ne_StatusProcessing,
    DBOrderStorage.UpdateOrderAccrual, updateOrder, insertCreditTransaction,
    latestTransaction, maxByID, ledgerFresh, ledger500]

theorem step_processedNoAccrual : step ledgerFresh actProcessedNoAccrual = ledgerNoCredit := by
  simp [step, actProcessedNoAccrual, OrderWorker.process,
    DBOrderStorage.GetNotProcessedOrders, noFaults, OrderWorker.processOrders,
    OrderWorker.processOne, OrderWorker.processOrder, clientProcessedNoAccrual,
    StatusProcessed_ne_StatusInvalid, StatusProcessed_ne_StatusProcessing,
    DBOrderStorage.UpdateOrderStatus, updateOrderStatus, ledgerFresh, ledgerNoCredit]

theorem step_withdraw300 : step ledger500 actWithdraw300 = ledger200 := by
  simp [step, actWithdraw300, OrderServiceImpl.Withdraw, luhn_2377225624,
    DBOrderStorage.Withdraw, insertDebitTransaction, latestTransaction, maxByID,
    ledger500, ledger200]
  norm_num

theorem step_withdrawSameNumber : step ledger500 actWithdrawSameNumber = ledgerTwoEntries := by
  simp [step, actWithdrawSameNumber, OrderServiceImpl.Withdraw, luhn_12345678903,
    DBOrderStorage.Withdraw, insertDebitTransaction, latestTransaction, maxByID,
    ledger500, ledgerTwoEntries]
  norm_num

theorem step_withdrawNegative : step ledgerFresh actWithdrawNegative = ledgerNegative := by
  simp [step, actWithdrawNegative, OrderServiceImpl.Withdraw, luhn_2377225624,
    DBOrderStorage.Withdraw, insertDebitTransaction, latestTransaction, maxByID,
    ledgerFresh, ledgerNegative]

theorem registered_ledgerRegistered : registered ledgerRegistered 1 :=
  ⟨{ id := 1, login := "alice", password := "hash" }, by simp [ledgerRegistered], rfl⟩

theorem registered_ledgerFresh : registered ledgerFresh 1 :=
  ⟨{ id := 1, login := "alice", password := "hash" }, by simp [ledgerFresh], rfl⟩

theorem registered_ledger500 : registered ledger500 1 :=
  ⟨{ id := 1, login := "alice", password := "hash" }, by simp [ledger500], rfl⟩

/-- Register and upload: the state `ledgerFresh` is reachable under any
restriction that admits the two requests. -/
theorem reachable_ledgerFresh (ok : DB → Action → Prop) (h1 : ok DB.empty actRegister)
    (h2 : ok ledgerRegistered actUpload) : Reachable ok ledgerFresh := by
  have r1 : Reachable ok ledgerRegistered := by
    rw [← step_register]; exact Reachable.step _ _ Reachable.init h1
  rw [← step_upload]
  exact Reachable.step _ _ r1 h2

/-- Register, upload, credit of 500. -/
theorem reachable_ledger500 (ok : DB → Action → Prop) (h1 : ok DB.empty actRegister)
    (h2 : ok ledgerRegistered actUpload) (h3 : ok ledgerFresh actCredit500) :
    Reachable ok ledger500 := by
  rw [← step_credit500]
  exact Reachable.step _ _ (reachable_ledgerFresh ok h1 h2) h3

theorem reconcilable_actCredit500 (db : DB) : reconcilable db actCredit500 := by
  intro n acc hacc _
  simp only [clientProcessed500, Except.ok.injEq] at hacc
  subst hacc
  exact ⟨500, rfl, by norm_num⟩

theorem nonNegativeAccruals_actCredit500 (db : DB) : nonNegativeAccruals db actCredit500 := by
  intro n acc a hacc ha
  simp only [clientProcessed500, Except.ok.injEq] at hacc
  subst hacc
  simp only [Option.some.injEq] at ha
  rw [← ha]; norm_num

/-- The theorem of C3 on a ledger reached through a `Withdraw` with a
negative sum. -/
theorem balance_never_negative_witness :
    Reachable nonNegativeAccruals ledgerNegative ∧
      ∀ t ∈ ledgerNegative.transactions, 0 ≤ t.balance := by
  have hreach : Reachable nonNegativeAccruals ledgerNegative := by
    rw [← step_withdrawNegative]
    exact Reachable.step _ _ (reachable_ledgerFresh _ trivial trivial) trivial
  exact ⟨hreach, balance_never_negative ledgerNegative hreach⟩

/-- C4 (the code at the failing input). The handler's `ValidateWithdrawReq`
lets the sum -5 through; on the reachable ledger `ledgerFresh` the `Withdraw`
succeeds and appends a row with the non-negative amount +5, balance 5 and
withdrawn -5: a row with a non-negative amount has changed `withdrawn`, which
no longer equals the sum of the absolute values of the negative amounts
(that sum is 0). -/
theorem Withdraw_negative_sum :
    ValidateWithdrawReq { Number := "2377225624", Sum := -5, UserID := 1 } = true ∧
    Reachable authenticated ledgerFresh ∧
    OrderServiceImpl.Withdraw ledgerFresh false
      { Number := "2377225624", Sum := -5, UserID := 1 } = (ledgerNegative, none) ∧
    latestTransaction ledgerNegative 1 = some rowNegative ∧
    0 ≤ rowNegative.sum ∧ rowNegative.withdrawals = -5 ∧
    absNegativeAmounts ledgerNegative.transactions = 0 := by
  refine ⟨?_, ?_, ?_, ?_, by norm_num [rowNegative], rfl, ?_⟩
  · simp [ValidateWithdrawReq]
  · exact reachable_ledgerFresh _ trivial registered_ledgerRegistered
  · have h := step_withdrawNegative
    simp only [step, actWithdrawNegative] at h
    have h2 : (OrderServiceImpl.Withdraw ledgerFresh false
        { Number := "2377225624", Sum := -5, UserID := 1 }).2 = none := by
      simp [OrderServiceImpl.Withdraw, luhn_2377225624, DBOrderStorage.Withdraw,
        insertDebitTransaction, latestTransaction, maxByID, ledgerFresh]
    exact Prod.ext h h2
  · simp [latestTransaction, maxByID, ledgerNegative, rowNegative]
  · simp [absNegativeAmounts, ledgerNegative]

/-- C6 (counterexample). Register, upload `12345678903`, then a tick whose
oracle answer is `PROCESSED` without an accrual: the order is Processed and
the ledger holds no row at all with its number, so no credit entry. -/
theorem credit_iff_processed_counterexample :
    Reachable authenticated ledgerNoCredit ∧
    step ledgerFresh (Action.process clientProcessedNoAccrual noFaults) = ledgerNoCredit ∧
    ∃ o ∈ ledgerNoCredit.orders, o.status = OrderStatus.Processed ∧
      (¬ creditEntryFor ledgerNoCredit o.number) ∧
      ∀ t ∈ ledgerNoCredit.transactions, t.number ≠ some o.number := by
  refine ⟨?_, step_processedNoAccrual, ?_⟩
  · rw [← step_processedNoAccrual]
    exact Reachable.step _ _ (reachable_ledgerFresh _ trivial registered_ledgerRegistered) trivial
  · refine ⟨orderNoCredit, by simp [ledgerNoCredit, orderNoCredit], rfl, ?_, ?_⟩
    · simp [creditEntryFor, ledgerNoCredit, orderNoCredit]
    · simp [ledgerNoCredit, orderNoCredit]

/-- The theorem of the amended C6 on the scenario of the specification after
the credit of 500 and the withdrawal of 300. -/
theorem credit_iff_processed_witness :
    Reachable reconcilable ledger200 ∧
      ∀ o ∈ ledger200.orders,
        creditEntryFor ledger200 o.number ↔ o.status = OrderStatus.Processed := by
  have hreach : Reachable reconcilable ledger200 := by
    rw [← step_withdraw300]
    refine Reachable.step _ _ (reachable_ledger500 _ trivial registered_ledgerRegistered
      (reconcilable_actCredit500 _)) ?_
    show (0 : ℚ) < 300
    norm_num
  exact ⟨hreach, credit_iff_processed ledger200 hreach⟩

/-- C7 (counterexample). After the worker has credited the order
`12345678903` (state `ledger500`), a withdrawal of 300 that names the same
order number succeeds, and the ledger then holds two rows with that number. -/
theorem credit_lands_once_counterexample :
    step ledgerFresh (Action.process clientProcessed500 noFaults) = ledger500 ∧
    step ledger500 (Action.Withdraw false
      { Number := "12345678903", Sum := 300, UserID := 1 }) = ledgerTwoEntries ∧
    Reachable authenticated ledgerTwoEntries ∧
    (entriesOf ledgerTwoEntries "12345678903").length = 2 := by
  refine ⟨step_credit500, step_withdrawSameNumber, ?_, ?_⟩
  · rw [← step_withdrawSameNumber]
    exact Reachable.step _ _
      (reachable_ledger500 _ trivial registered_ledgerRegistered trivial) registered_ledger500
  · simp [entriesOf, ledgerTwoEntries]

/-- The theorem of the amended C7 on the scenario of the specification: after
the credit of `12345678903` and a withdrawal under another number, the ledger
holds one row with that number. -/
theorem credit_lands_once_witness :
    Reachable (withdrawalsAvoid "12345678903") ledger200 ∧
    (∃ t ∈ ledger200.transactions, t.number = some "12345678903") ∧
    (entriesOf ledger200 "12345678903").length = 1 ∧
    ∃ o ∈ ledger200.orders, o.number = "12345678903" ∧ o.status = OrderStatus.Processed ∧
      ∀ t ∈ ledger200.transactions, t.number = some "12345678903" → t.user_id = o.user_id := by
  have hreach : Reachable (withdrawalsAvoid "12345678903") ledger200 := by
    rw [← step_withdraw300]
    refine Reachable.step _ _ (reachable_ledger500 _ trivial trivial trivial) ?_
    show "2377225624" ≠ "12345678903"
    decide
  have hentry : ∃ t ∈ ledger200.transactions, t.number = some "12345678903" :=
    ⟨row500, by simp [ledger200, row500], rfl⟩
  exact ⟨hreach, hentry, credit_lands_once "12345678903" ledger200 hreach hentry⟩

example : (authAB.CreateToken concatMAC 0 1).1 = "00000001000000000003f4800a0b00000001000000000003f480" := by
  decide
example : authAB.CheckToken concatMAC 0 "00000001000000000003f4800a0b00000001000000000003f480" = (1, none) := by
  decide
example : authAB.CheckToken concatMAC 259201 "00000001000000000003f4800a0b00000001000000000003f480" = (0, some Err.ErrUnauthorized) := by
  decide
example : authAB.CheckToken concatMAC 0 "" = (0, some Err.ErrUnauthorized) := by decide
example : authAB.CheckToken concatMAC 0 "zz" = (0, some (Err.Wrapped "decode token error")) := by decide

/-! ## Tokens: encoding lemmas -/

theorem fromHexChar_hexDigit (n : Nat) (h : n < 16) : fromHexChar (hexDigit n) = some n := by
  interval_cases n <;> decide

theorem toByte_split (b : Byte) : toByte (b.val / 16 * 16 + b.val % 16) = b := by
  apply Fin.ext
  show (b.val / 16 * 16 + b.val % 16) % 256 = b.val
  have := b.isLt
  omega

theorem decodeHex_encodeHex (bs : List Byte) : decodeHex (encodeHex bs) = some bs := by
  induction bs with
  | nil => rfl
  | cons b bs ih =>
    have h1 : b.val / 16 < 16 := by have := b.isLt; omega
    have h2 : b.val % 16 < 16 := Nat.mod_lt _ (by decide)
    simp only [encodeHex, decodeHex, fromHexChar_hexDigit _ h1, fromHexChar_hexDigit _ h2, ih,
      toByte_split]

theorem DecodeString_EncodeToString (bs : List Byte) :
    DecodeString (EncodeToString bs) = some bs := decodeHex_encodeHex bs

theorem Uint32_AppendUint32 (v : Nat) (rest : List Byte) :
    Uint32 (AppendUint32 [] v ++ rest) = v % 2 ^ 32 := by
  simp only [AppendUint32, List.nil_append, List.cons_append, Uint32, toByte]
  omega

theorem Uint64_AppendUint64 (v : Nat) (rest : List Byte) :
    Uint64 (AppendUint64 [] v ++ rest) = v % 2 ^ 64 := by
  simp only [AppendUint64, List.nil_append, List.cons_append, Uint64, toByte]
  omega

theorem Uint64_lt (bs : List Byte) : Uint64 bs < 2 ^ 64 := by
  match bs with
  | [] => simp [Uint64]
  | [_] => simp [Uint64]
  | [_, _] => simp [Uint64]
  | [_, _, _] => simp [Uint64]
  | [_, _, _, _] => simp [Uint64]
  | [_, _, _, _, _] => simp [Uint64]
  | [_, _, _, _, _, _] => simp [Uint64]
  | [_, _, _, _, _, _, _] => simp [Uint64]
  | b0 :: b1 :: b2 :: b3 :: b4 :: b5 :: b6 :: b7 :: _ =>
    simp only [Uint64]
    have := b0.isLt; have := b1.isLt; have := b2.isLt; have := b3.isLt
    have := b4.isLt; have := b5.isLt; have := b6.isLt; have := b7.isLt
    omega

theorem Uint32_lt (bs : List Byte) : Uint32 bs < 2 ^ 32 := by
  match bs with
  | [] => simp [Uint32]
  | [_] => simp [Uint32]
  | [_, _] => simp [Uint32]
  | [_, _, _] => simp [Uint32]
  | b0 :: b1 :: b2 :: b3 :: _ =>
    simp only [Uint32]
    have := b0.isLt; have := b1.isLt; have := b2.isLt; have := b3.isLt
    omega

theorem int64_uint64 (e : Int) (hlo : -2 ^ 63 ≤ e) (hhi : e < 2 ^ 63) :
    int64 (uint64 e) = e := by
  unfold int64 uint64
  have hmod : ((e % 2 ^ 64).toNat : Int) = e % 2 ^ 64 :=
    Int.toNat_of_nonneg (Int.emod_nonneg _ (by norm_num))
  have hlt : e % 2 ^ 64 < 2 ^ 64 := Int.emod_lt_of_pos _ (by norm_num)
  have hnat : (e % 2 ^ 64).toNat % 2 ^ 64 = (e % 2 ^ 64).toNat := by
    apply Nat.mod_eq_of_lt
    omega
  rw [hnat]
  generalize (e % 2 ^ 64).toNat = n at hmod
  by_cases hneg : 0 ≤ e
  · have he : e % 2 ^ 64 = e := Int.emod_eq_of_lt hneg (by omega)
    rw [he] at hmod
    have hsmall : n < 2 ^ 63 := by omega
    simp only [hsmall, if_true, hmod]
  · have he : e % 2 ^ 64 = e + 2 ^ 64 := by
      have h1 : (e + 2 ^ 64) % 2 ^ 64 = e + 2 ^ 64 := Int.emod_eq_of_lt (by omega) (by omega)
      rw [← h1, Int.add_emod_self]
    rw [he] at hmod
    have hbig : ¬ n < 2 ^ 63 := by omega
    simp only [hbig, if_false, hmod]
    omega

/-- The payload of a token: 4 bytes of user id, 8 bytes of expiry. -/
theorem payload_length (v w : Nat) : (AppendUint64 (AppendUint32 [] v) w).length = 12 := by
  simp [AppendUint64, AppendUint32]

/-- What `CheckToken` answers at time `t` on the token that `CreateToken`
issued at time `t0`, under the same secret. -/
theorem CheckToken_CreateToken (a : AuthServiceImpl) (hmacSHA256 : MAC) (t0 t : Int)
    (id : UserID) :
    a.CheckToken hmacSHA256 t (a.CreateToken hmacSHA256 t0 id).1 =
      if t > int64 (uint64 (t0 + tokenExpiry)) then (0, some Err.ErrUnauthorized)
      else ((uint32 id : Int), none) := by
  have hlen := payload_length (uint32 id) (uint64 (t0 + tokenExpiry))
  have htake12 : ∀ sign : List Byte,
      (AppendUint64 (AppendUint32 [] (uint32 id)) (uint64 (t0 + tokenExpiry)) ++ sign).take 12
        = AppendUint64 (AppendUint32 [] (uint32 id)) (uint64 (t0 + tokenExpiry)) := by
    intro sign
    rw [List.take_append_of_le_length (by omega), List.take_of_length_le (by omega)]
  have hdrop12 : ∀ sign : List Byte,
      (AppendUint64 (AppendUint32 [] (uint32 id)) (uint64 (t0 + tokenExpiry)) ++ sign).drop 12
        = sign := by
    intro sign
    rw [List.drop_append_of_le_length (by omega), List.drop_of_length_le (by omega),
      List.nil_append]
  have hid : ∀ sign : List Byte,
      Uint32 ((AppendUint64 (AppendUint32 [] (uint32 id)) (uint64 (t0 + tokenExpiry))
        ++ sign).take 4) = uint32 id := by
    intro sign
    have h32 : uint32 id < 2 ^ 32 := by
      unfold uint32
      have := Int.emod_lt_of_pos id (show (0 : Int) < 2 ^ 32 by norm_num)
      have := Int.emod_nonneg id (show (2 ^ 32 : Int) ≠ 0 by norm_num)
      omega
    simp only [AppendUint64, AppendUint32, List.nil_append, List.cons_append, List.take,
      Uint32, toByte]
    omega
  have hexp : ∀ sign : List Byte,
      Uint64 (((AppendUint64 (AppendUint32 [] (uint32 id)) (uint64 (t0 + tokenExpiry))
        ++ sign).drop 4).take 8) = uint64 (t0 + tokenExpiry) := by
    intro sign
    have h64 : uint64 (t0 + tokenExpiry) < 2 ^ 64 := by
      unfold uint64
      have := Int.emod_lt_of_pos (t0 + tokenExpiry) (show (0 : Int) < 2 ^ 64 by norm_num)
      have := Int.emod_nonneg (t0 + tokenExpiry) (show (2 ^ 64 : Int) ≠ 0 by norm_num)
      omega
    simp only [AppendUint64, AppendUint32, List.nil_append, List.cons_append, List.drop,
      List.take, Uint64, toByte]
    omega
  simp only [AuthServiceImpl.CreateToken, AuthServiceImpl.CheckToken,
    DecodeString_EncodeToString, List.length_append, hlen, htake12, hdrop12, hid, hexp]
  have hnot : ¬ (12 + (hmacSHA256 a.SecretKey
      (AppendUint64 (AppendUint32 [] (uint32 id)) (uint64 (t0 + tokenExpiry)))).length < 12) := by
    omega
  simp only [hnot, if_false, ne_eq, not_true_eq_false]

/-! ## Tokens: issue and verification -/

theorem tokenExpiry_eq : tokenExpiry = 259200 := by decide

theorem uint32_of_fits (id : Int) (h0 : 0 ≤ id) (h1 : id < 2 ^ 32) : (uint32 id : Int) = id := by
  unfold uint32
  rw [Int.emod_eq_of_lt h0 h1]
  exact Int.toNat_of_nonneg h0

theorem uint64_of_fits (e : Int) (h0 : 0 ≤ e) (h1 : e < 2 ^ 64) : (uint64 e : Int) = e := by
  unfold uint64
  rw [Int.emod_eq_of_lt h0 h1]
  exact Int.toNat_of_nonneg h0

/-- The expiry field of the bytes of an issued token. -/
theorem CreateToken_bytes (a : AuthServiceImpl) (hmacSHA256 : MAC) (t0 : Int) (id : UserID) :
    ∃ data, DecodeString (a.CreateToken hmacSHA256 t0 id).1 = some data ∧
      12 ≤ data.length ∧
      Uint64 ((data.drop 4).take 8) = uint64 (t0 + tokenExpiry) := by
  refine ⟨AppendUint64 (AppendUint32 [] (uint32 id)) (uint64 (t0 + tokenExpiry)) ++
    hmacSHA256 a.SecretKey
      (AppendUint64 (AppendUint32 [] (uint32 id)) (uint64 (t0 + tokenExpiry))), ?_, ?_, ?_⟩
  · simp only [AuthServiceImpl.CreateToken, DecodeString_EncodeToString]
  · rw [List.length_append, payload_length]; omega
  · have h64 : uint64 (t0 + tokenExpiry) < 2 ^ 64 := by
      unfold uint64
      have := Int.emod_lt_of_pos (t0 + tokenExpiry) (show (0 : Int) < 2 ^ 64 by norm_num)
      have := Int.emod_nonneg (t0 + tokenExpiry) (show (2 ^ 64 : Int) ≠ 0 by norm_num)
      omega
    simp only [AppendUint64, AppendUint32, List.nil_append, List.cons_append, List.drop,
      List.take, Uint64, toByte]
    omega

/-- C11 (counterexample). The user id 4294967297 = 2^32 + 1 does not fit the
4-byte field written by `uint32(id)`: the token issued for it verifies, at the
same instant and under the same secret, as user 1. -/
theorem CheckToken_CreateToken_counterexample :
    authAB.CheckToken concatMAC 0 (authAB.CreateToken concatMAC 0 4294967297).1 = (1, none) ∧
    (1 : UserID) ≠ 4294967297 := by
  constructor
  · rw [CheckToken_CreateToken]
    decide
  · decide

/-- C11 (amended). For every user id that fits the 4-byte field of the
payload (`0 ≤ id < 2^32`), every secret key, every MAC function and every
clock value `now` (with `now + 72h` an `int64` Unix time): `CreateToken`
returns no error, and `CheckToken` on its token, with the same secret and at
the same instant, returns that user id and no error. -/
theorem CheckToken_CreateToken_roundtrip (a : AuthServiceImpl) (hmacSHA256 : MAC) (now : Int)
    (id : UserID) (hid0 : 0 ≤ id) (hid1 : id < 2 ^ 32)
    (hlo : -2 ^ 63 ≤ now + tokenExpiry) (hhi : now + tokenExpiry < 2 ^ 63) :
    (a.CreateToken hmacSHA256 now id).2 = none ∧
    a.CheckToken hmacSHA256 now (a.CreateToken hmacSHA256 now id).1 = (id, none) := by
  refine ⟨rfl, ?_⟩
  rw [CheckToken_CreateToken, int64_uint64 _ hlo hhi, uint32_of_fits id hid0 hid1]
  have : ¬ now > now + tokenExpiry := by rw [tokenExpiry_eq]; omega
  simp only [this, if_false]

/-- The theorem of the amended C11 for user 1 at time 0. -/
theorem CheckToken_CreateToken_roundtrip_witness :
    (0 : Int) ≤ 1 ∧ (1 : Int) < 2 ^ 32 ∧
    authAB.CheckToken concatMAC 0 (authAB.CreateToken concatMAC 0 1).1 = (1, none) :=
  ⟨by decide, by decide,
    (CheckToken_CreateToken_roundtrip authAB concatMAC 0 1 (by decide) (by decide)
      (by decide) (by decide)).2⟩

/-- C12. A token that decodes to at least 12 bytes and whose embedded expiry
(bytes 4..12, read as the unsigned big-endian value or as the `int64` the code
converts it to) is earlier than the current Unix time is rejected with
`ErrUnauthorized` and user id 0, for every secret and MAC function, that is
whether or not the MAC of the token is valid. -/
theorem CheckToken_expired (a : AuthServiceImpl) (hmacSHA256 : MAC) (now : Int)
    (token : String) (data : List Byte) (hdecode : DecodeString token = some data)
    (hlen : 12 ≤ data.length)
    (hexpired : (Uint64 ((data.drop 4).take 8) : Int) < now ∨
      int64 (Uint64 ((data.drop 4).take 8)) < now) :
    a.CheckToken hmacSHA256 now token = (0, some Err.ErrUnauthorized) := by
  have hsigned : int64 (Uint64 ((data.drop 4).take 8)) < now := by
    rcases hexpired with h | h
    · have hle : int64 (Uint64 ((data.drop 4).take 8))
          ≤ (Uint64 ((data.drop 4).take 8) : Int) := by
        have hlt := Uint64_lt ((data.drop 4).take 8)
        unfold int64
        rw [Nat.mod_eq_of_lt hlt]
        split <;> omega
      omega
    · exact h
  have hnot : ¬ data.length < 12 := by omega
  have hgt : now > int64 (Uint64 ((data.drop 4).take 8)) := hsigned
  simp only [AuthServiceImpl.CheckToken, hdecode, hnot, if_false, hgt, if_true]

theorem DecodeString_tokenAB : DecodeString tokenAB = some tokenBytesAB := by decide

/-- The theorem of C12 on a token with a valid MAC, one second after its
expiry 259200. -/
theorem CheckToken_expired_witness :
    DecodeString tokenAB = some tokenBytesAB ∧ 12 ≤ tokenBytesAB.length ∧
    Uint64 ((tokenBytesAB.drop 4).take 8) = 259200 ∧
    tokenBytesAB.drop 12 = concatMAC authAB.SecretKey (tokenBytesAB.take 12) ∧
    authAB.CheckToken concatMAC 259201 tokenAB = (0, some Err.ErrUnauthorized) :=
  ⟨DecodeString_tokenAB, by decide, by decide, by decide,
    CheckToken_expired authAB concatMAC 259201 tokenAB tokenBytesAB DecodeString_tokenAB
      (by decide) (Or.inl (by decide))⟩

/-- C13. `CheckToken` returns no error exactly when the token hex-decodes to
at least 12 bytes, the current Unix time does not exceed the embedded expiry
(bytes 4..12 as the `int64` Unix time they encode) and the bytes after the
first 12 equal the MAC of the first 12 bytes under the secret; the user id
returned is then the big-endian 32-bit value of the first 4 bytes; in every
other case the user id returned with the error is 0. -/
theorem CheckToken_spec (a : AuthServiceImpl) (hmacSHA256 : MAC) (now : Int) (token : String) :
    ((a.CheckToken hmacSHA256 now token).2 = none ↔
      ∃ data, DecodeString token = some data ∧ 12 ≤ data.length ∧
        now ≤ int64 (Uint64 ((data.drop 4).take 8)) ∧
        data.drop 12 = hmacSHA256 a.SecretKey (data.take 12)) ∧
    (∀ data, DecodeString token = some data → (a.CheckToken hmacSHA256 now token).2 = none →
      (a.CheckToken hmacSHA256 now token).1 = (Uint32 (data.take 4) : Int)) ∧
    ((a.CheckToken hmacSHA256 now token).2 ≠ none →
      (a.CheckToken hmacSHA256 now token).1 = 0) := by
  unfold AuthServiceImpl.CheckToken
  cases hdecode : DecodeString token with
  | none => simp
  | some data =>
    by_cases hlen : data.length < 12
    · simp only [hlen, if_true]
      refine ⟨⟨?_, ?_⟩, ?_, ?_⟩
      · intro h; cases h
      · rintro ⟨d, hd, hd12, _⟩
        cases hd
        omega
      · intro _ _ h; cases h
      · intro _; trivial
    · by_cases hexp : now > int64 (Uint64 ((data.drop 4).take 8))
      · simp only [hlen, if_false, hexp, if_true]
        refine ⟨⟨?_, ?_⟩, ?_, ?_⟩
        · intro h; cases h
        · rintro ⟨d, hd, _, hnow, _⟩
          cases hd
          omega
        · intro _ _ h; cases h
        · intro _; trivial
      · by_cases hsign : hmacSHA256 a.SecretKey (data.take 12) = data.drop 12
        · have hres : (if hmacSHA256 a.SecretKey (data.take 12) ≠ data.drop 12
              then ((0 : UserID), some Err.ErrUnauthorized)
              else ((Uint32 (data.take 4) : Int), none)) = ((Uint32 (data.take 4) : Int), none) := by
            simp [hsign]
          simp only [hlen, if_false, hexp, hres]
          refine ⟨⟨?_, ?_⟩, ?_, ?_⟩
          · intro _
            exact ⟨data, rfl, by omega, by omega, hsign.symm⟩
          · intro _; trivial
          · intro d hd _
            cases hd
            rfl
          · intro h; exact absurd rfl h
        · have hres : (if hmacSHA256 a.SecretKey (data.take 12) ≠ data.drop 12
              then ((0 : UserID), some Err.ErrUnauthorized)
              else ((Uint32 (data.take 4) : Int), none)) = (0, some Err.ErrUnauthorized) := by
            simp [hsign]
          simp only [hlen, if_false, hexp, hres]
          refine ⟨⟨?_, ?_⟩, ?_, ?_⟩
          · intro h; cases h
          · rintro ⟨d, hd, _, _, heq⟩
            cases hd
            exact absurd heq.symm hsign
          · intro _ _ h; cases h
          · intro _; trivial

/-- The theorem of C13 on the token issued at time 0 to user 1: it is accepted
at time 0 with user id 1. -/
theorem CheckToken_spec_witness :
    (authAB.CheckToken concatMAC 0 tokenAB).2 = none ∧
    (authAB.CheckToken concatMAC 0 tokenAB).1 = (Uint32 (tokenBytesAB.take 4) : Int) ∧
    Uint32 (tokenBytesAB.take 4) = 1 := by
  have h := CheckToken_spec authAB concatMAC 0 tokenAB
  have hok : (authAB.CheckToken concatMAC 0 tokenAB).2 = none :=
    h.1.mpr ⟨tokenBytesAB, DecodeString_tokenAB, by decide, by decide, by decide⟩
  exact ⟨hok, h.2.1 tokenBytesAB DecodeString_tokenAB hok, by decide⟩

/-- C14. A token issued by `CreateToken` at the Unix time `t0` embeds the
expiry `t0 + 259200`; for a user id that fits the payload, `CheckToken` with
the same secret accepts it at time `t` (returning the user id) if and only if
`t ≤ t0 + 259200`, and rejects it with `ErrUnauthorized` afterwards.  No
store takes part in either function. -/
theorem token_valid_until_expiry (a : AuthServiceImpl) (hmacSHA256 : MAC) (t0 t : Int)
    (id : UserID) (hid0 : 0 ≤ id) (hid1 : id < 2 ^ 32)
    (ht0 : 0 ≤ t0) (hhi : t0 + 259200 < 2 ^ 63) :
    (∃ data, DecodeString (a.CreateToken hmacSHA256 t0 id).1 = some data ∧
      12 ≤ data.length ∧ (Uint64 ((data.drop 4).take 8) : Int) = t0 + 259200) ∧
    ((a.CheckToken hmacSHA256 t (a.CreateToken hmacSHA256 t0 id).1).2 = none ↔
      t ≤ t0 + 259200) ∧
    (t ≤ t0 + 259200 →
      a.CheckToken hmacSHA256 t (a.CreateToken hmacSHA256 t0 id).1 = (id, none)) ∧
    (t0 + 259200 < t →
      a.CheckToken hmacSHA256 t (a.CreateToken hmacSHA256 t0 id).1 =
        (0, some Err.ErrUnauthorized)) := by
  have hcheck := CheckToken_CreateToken a hmacSHA256 t0 t id
  rw [tokenExpiry_eq, int64_uint64 _ (by omega) hhi, uint32_of_fits id hid0 hid1] at hcheck
  refine ⟨?_, ?_, ?_, ?_⟩
  · obtain ⟨data, hd, hlen, hexp⟩ := CreateToken_bytes a hmacSHA256 t0 id
    refine ⟨data, hd, hlen, ?_⟩
    rw [hexp, tokenExpiry_eq]
    exact uint64_of_fits _ (by omega) (by omega)
  · rw [hcheck]
    by_cases h : t > t0 + 259200
    · simp only [h, if_true]
      constructor
      · intro hc; cases hc
      · intro hle; omega
    · simp only [h, if_false]
      constructor
      · intro _; omega
      · intro _; trivial
  · intro hle
    have h : ¬ t > t0 + 259200 := by omega
    rw [hcheck]
    simp only [h, if_false]
  · intro hlt
    have h : t > t0 + 259200 := hlt
    rw [hcheck]
    simp only [h, if_true]

/-- The theorem of C14 for the token issued at time 0 to user 1, checked at
its last valid second. -/
theorem token_valid_until_expiry_witness :
    (0 : Int) ≤ 0 ∧ (0 : Int) + 259200 < 2 ^ 63 ∧
    authAB.CheckToken concatMAC 259200 (authAB.CreateToken concatMAC 0 1).1 = (1, none) ∧
    authAB.CheckToken concatMAC 259201 (authAB.CreateToken concatMAC 0 1).1 =
      (0, some Err.ErrUnauthorized) := by
  have h := token_valid_until_expiry authAB concatMAC 0 259201 1 (by decide) (by decide)
    (by decide) (by decide)
  have h2 := token_valid_until_expiry authAB concatMAC 0 259200 1 (by decide) (by decide)
    (by decide) (by decide)
  exact ⟨by decide, by decide, h2.2.2.1 (by decide), h.2.2.2 (by decide)⟩

/-! ## UploadOrder -/

/-- `UploadOrder` on a Luhn-valid number that `Scan` can store into an `int`,
without driver failure: the order is inserted as New for the caller when the
number is absent; when a row with the number exists the database is unchanged
and the error tells whether the caller owns it. -/
theorem UploadOrder_scannable (db : DB) (userID : UserID) (number : OrderNumber)
    (hluhn : CheckNumberByLuhn number = true) (hscan : scansAsInt number = true) :
    ((∀ o ∈ db.orders, o.number ≠ number) →
      OrderServiceImpl.UploadOrder db AddOrderFault.none false userID number =
        ({ db with orders := db.orders ++
            [{ number := number, user_id := userID, status := OrderStatus.New,
               accrual := none }] }, none)) ∧
    (∀ o, db.orders.find? (fun r => r.number = number) = some o →
      OrderServiceImpl.UploadOrder db AddOrderFault.none false userID number =
        (db, some (if o.user_id = userID then Err.ErrExistingOrderForUser
          else Err.ErrExistingOrderForOtherUser))) := by
  constructor
  · intro habsent
    have hany : (db.orders.any (fun o => o.number = number)) = false := by
      rw [Bool.eq_false_iff]
      intro h
      obtain ⟨o, ho, hon⟩ := List.any_eq_true.mp h
      exact habsent o ho (by simpa using hon)
    simp [OrderServiceImpl.UploadOrder, DBOrderStorage.AddOrder, hluhn, hscan, hany]
  · intro o hfind
    have hany : (db.orders.any (fun o => o.number = number)) = true := by
      have hmem := List.mem_of_find?_eq_some hfind
      have hp := List.find?_some hfind
      exact List.any_eq_true.mpr ⟨o, hmem, hp⟩
    by_cases hown : o.user_id = userID <;>
      simp [OrderServiceImpl.UploadOrder, DBOrderStorage.AddOrder, hluhn, hany,
        DBOrderStorage.GetOrderUser, hfind, hown]

/-- C15 (the code at the failing input). The number `12345678901234567894`
passes the Luhn check and no order with it exists, but `AddOrder` scans the
returned number into an `int`: the row is written, `Scan` fails, and
`UploadOrder` returns the wrapped "insert order error" (HTTP 500) instead of
nil (HTTP 202).  The same upload repeated finds the row and answers 200. -/
theorem UploadOrder_long_number :
    CheckNumberByLuhn longNumber = true ∧
    scansAsInt longNumber = false ∧
    (∀ o ∈ ledgerRegistered.orders, o.number ≠ longNumber) ∧
    OrderServiceImpl.UploadOrder ledgerRegistered AddOrderFault.none false 1 longNumber =
      (ledgerLongOrder, some (Err.Wrapped "insert order error")) ∧
    OrderHandler.UploadOrder ledgerRegistered AddOrderFault.none false 1 (some longNumber) =
      (ledgerLongOrder, 500) ∧
    OrderHandler.UploadOrder ledgerLongOrder AddOrderFault.none false 1 (some longNumber) =
      (ledgerLongOrder, 200) := by
  have hluhn : CheckNumberByLuhn longNumber = true := by decide
  have hscan : scansAsInt longNumber = false := by decide
  have hne : ¬ longNumber = "" := by decide
  have hluhn1 : CheckNumberByLuhn "12345678901234567894" = true := by decide
  have hscan1 : scansAsInt "12345678901234567894" = false := by decide
  have h1 : OrderServiceImpl.UploadOrder ledgerRegistered AddOrderFault.none false 1 longNumber =
      (ledgerLongOrder, some (Err.Wrapped "insert order error")) := by
    simp [OrderServiceImpl.UploadOrder, DBOrderStorage.AddOrder, hluhn1, hscan1,
      ledgerRegistered, ledgerLongOrder, longNumber]
  have h2 : OrderServiceImpl.UploadOrder ledgerLongOrder AddOrderFault.none false 1 longNumber =
      (ledgerLongOrder, some Err.ErrExistingOrderForUser) := by
    simp [OrderServiceImpl.UploadOrder, DBOrderStorage.AddOrder, hluhn1,
      DBOrderStorage.GetOrderUser, ledgerLongOrder, longNumber]
  refine ⟨hluhn, hscan, ?_, h1, ?_, ?_⟩
  · intro o ho
    simp [ledgerRegistered] at ho
  · simp only [OrderHandler.UploadOrder, hne, if_false, h1]
  · simp only [OrderHandler.UploadOrder, hne, if_false, h2]

/-! ## Numbers that fail the Luhn check -/

/-- C16. For an order number that fails `CheckNumberByLuhn`, `UploadOrder` and
`Withdraw` return `ErrIncorrectOrderNumber` and the database they were given,
whatever driver failures the store would meet (no storage method is reached);
the handlers answer 422. -/
theorem incorrect_order_number (db : DB) (fault : AddOrderFault) (getFails fail : Bool)
    (userID : UserID) (number : OrderNumber) (sum : ℚ)
    (hluhn : CheckNumberByLuhn number = false) :
    OrderServiceImpl.UploadOrder db fault getFails userID number =
      (db, some Err.ErrIncorrectOrderNumber) ∧
    OrderServiceImpl.Withdraw db fail { Number := number, Sum := sum, UserID := userID } =
      (db, some Err.ErrIncorrectOrderNumber) ∧
    OrderHandler.UploadOrder db fault getFails userID (some number) = (db, 422) ∧
    (sum ≠ 0 → ∀ u, OrderHandler.Withdraw db fail userID
      (some { Number := number, Sum := sum, UserID := u }) = (db, 422)) := by
  have hne : ¬ number = "" := by
    intro h
    rw [h] at hluhn
    exact absurd hluhn (by decide)
  have h1 : OrderServiceImpl.UploadOrder db fault getFails userID number =
      (db, some Err.ErrIncorrectOrderNumber) := by
    simp [OrderServiceImpl.UploadOrder, hluhn]
  have h2 : OrderServiceImpl.Withdraw db fail { Number := number, Sum := sum, UserID := userID } =
      (db, some Err.ErrIncorrectOrderNumber) := by
    simp [OrderServiceImpl.Withdraw, hluhn]
  refine ⟨h1, h2, ?_, ?_⟩
  · simp only [OrderHandler.UploadOrder, hne, if_false, h1]
  · intro hsum u
    simp only [OrderHandler.Withdraw, ValidateWithdrawReq, hne, hsum, if_false, Bool.not_true,
      Bool.false_eq_true, h2]

/-- The theorem of C16 on the scenario of the specification: uploading
"1234567" yields `ErrIncorrectOrderNumber` and no row is created. -/
theorem incorrect_order_number_witness :
    CheckNumberByLuhn "1234567" = false ∧
    OrderServiceImpl.UploadOrder ledgerRegistered AddOrderFault.none false 1 "1234567" =
      (ledgerRegistered, some Err.ErrIncorrectOrderNumber) ∧
    OrderHandler.UploadOrder ledgerRegistered AddOrderFault.none false 1 (some "1234567") =
      (ledgerRegistered, 422) := by
  have h := incorrect_order_number ledgerRegistered AddOrderFault.none false false 1 "1234567" 1
    (by decide)
  exact ⟨by decide, h.1, h.2.2.1⟩

/-! ## The worker: what one oracle answer does -/

theorem GetAccrual_of_queryFails (http : String → AccrualResponse) (n : String)
    (h : queryFails (http n) = true) :
    ∃ err, AccrualClientImpl.GetAccrual http n = Except.error err := by
  unfold AccrualClientImpl.GetAccrual
  unfold queryFails at h
  by_cases h1 : (http n).getErr = true
  · exact ⟨Err.Wrapped "get accrual for order error", by simp [h1]⟩
  · by_cases h2 : (http n).readErr = true
    · exact ⟨Err.Wrapped "read body from accrual API error", by simp [h1, h2]⟩
    · by_cases h3 : (http n).StatusCode ≠ 200
      · exact ⟨Err.Wrapped "got status from accrual API", by simp [h1, h2, h3]⟩
      · cases hb : (http n).body with
        | none => exact ⟨Err.Wrapped "parse body from accrual API error", by simp [h1, h2, h3, hb]⟩
        | some r => simp [h1, h2, h3, hb] at h

theorem GetAccrual_of_not_queryFails (http : String → AccrualResponse) (n : String)
    (h : queryFails (http n) = false) :
    ∃ acc, (http n).body = some acc ∧ AccrualClientImpl.GetAccrual http n = Except.ok acc := by
  unfold AccrualClientImpl.GetAccrual
  unfold queryFails at h
  simp only [Bool.or_eq_false_iff, decide_eq_false_iff_not, ne_eq, not_not] at h
  obtain ⟨⟨⟨h1, h2⟩, h3⟩, h4⟩ := h
  cases hb : (http n).body with
  | none => rw [hb] at h4; simp at h4
  | some r => exact ⟨r, rfl, by simp [h1, h2, h3, hb]⟩

/-- An oracle error leaves the database as it is. -/
theorem processOne_of_error (client : AccrualClient) (faults : TickFaults) (db : DB)
    (po : ProcessingOrder) (err : Err) (h : client po.Number = Except.error err) :
    OrderWorker.processOne client faults db po = db := by
  simp [OrderWorker.processOne, OrderWorker.processOrder, h]

/-- A failing store update leaves the database as it is. -/
theorem processOne_of_fault (client : AccrualClient) (faults : TickFaults) (db : DB)
    (po : ProcessingOrder) (h : faults.update po.Number ≠ Fault.none) :
    OrderWorker.processOne client faults db po = db := by
  unfold OrderWorker.processOne
  cases hp : OrderWorker.processOrder client po with
  | error e => rfl
  | ok r =>
    simp only [DBOrderStorage.UpdateOrderAccrual, DBOrderStorage.UpdateOrderStatus]
    cases hf : faults.update po.Number with
    | none => exact absurd hf h
    | begin => split <;> simp
    | first => split <;> simp
    | second =>
      split
      · cases r.Accrual <;> rfl
      · simp
    | commit =>
      split
      · cases r.Accrual <;> rfl
      · simp

/-- Writing to the rows of a number the status they already have changes
nothing. -/
theorem updateOrderStatus_same (db : DB) (s : OrderStatus) (n : OrderNumber)
    (h : ∀ o ∈ db.orders, o.number = n → o.status = s) : updateOrderStatus db s n = db := by
  have hmap : db.orders.map (fun o => if o.number = n then { o with status := s } else o)
      = db.orders := by
    have hid : ∀ o ∈ db.orders,
        (fun o : OrderRow => if o.number = n then { o with status := s } else o) o = id o := by
      intro o ho
      by_cases hn : o.number = n
      · have hs := h o ho hn
        simp only [hn, if_true, id]
        rw [← hs, ← hn]
      · simp only [hn, if_false, id]
    rw [List.map_congr_left hid, List.map_id]
  unfold updateOrderStatus
  simp only [hmap]

/-- The credit statement on a user with ledger rows: a row of the user with
the greatest id is the one the new row continues. -/
theorem insertCreditTransaction_latest (db : DB) (n : OrderNumber) (u : UserID) (a : ℚ)
    (h : ∃ t ∈ db.transactions, t.user_id = u) :
    ∃ t ∈ db.transactions, t.user_id = u ∧
      (∀ t1 ∈ db.transactions, t1.user_id = u → t1.id ≤ t.id) ∧
      insertCreditTransaction db n u a =
        { db with transactions := db.transactions ++
            [{ id := t.id + 1, number := some n, user_id := u, sum := a,
               balance := t.balance + a, withdrawals := t.withdrawals }] } := by
  obtain ⟨m, hm⟩ := latestTransaction_isSome db u h
  obtain ⟨hmem, hu⟩ := latestTransaction_mem db u m hm
  refine ⟨m, hmem, hu, ?_, ?_⟩
  · intro t1 ht1 hu1
    have hge := maxByID_ge _ m hm t1
    apply hge
    simp [ht1, hu1]
  · unfold insertCreditTransaction
    rw [hm]

theorem insertCreditTransaction_no_rows (db : DB) (n : OrderNumber) (u : UserID) (a : ℚ)
    (h : ∀ t ∈ db.transactions, t.user_id ≠ u) : insertCreditTransaction db n u a = db := by
  rcases insertCreditTransaction_cases db n u a with ⟨_, h1⟩ | ⟨t, ht, _⟩
  · exact h1
  · obtain ⟨hmem, hu⟩ := latestTransaction_mem db u t ht
    exact absurd hu (h t hmem)

/-- The same iteration, evaluated: the database after it is `ledger500`. -/
example : OrderWorker.processOne clientProcessed500 noFaults ledgerFresh pending903
    = ledger500 := by
  simp [noFaults, OrderWorker.processOne, OrderWorker.processOrder, pending903,
    clientProcessed500, StatusProcessed_ne_StatusInvalid, StatusProcessed_ne_StatusProcessing,
    DBOrderStorage.UpdateOrderAccrual, updateOrder, insertCreditTransaction,
    latestTransaction, maxByID, ledgerFresh, ledger500]

/-! ## The worker: failures inside a tick -/

/-- Orders on which the loop body does nothing can be dropped from the list. -/
theorem processOrders_filter (client : AccrualClient) (faults : TickFaults)
    (keep : ProcessingOrder → Bool)
    (hskip : ∀ db po, keep po = false → OrderWorker.processOne client faults db po = db)
    (orders : List ProcessingOrder) :
    ∀ db, OrderWorker.processOrders client faults orders db =
      OrderWorker.processOrders client faults (orders.filter keep) db := by
  induction orders with
  | nil => intro db; rfl
  | cons po rest ih =>
    intro db
    cases hk : keep po with
    | true =>
      rw [List.filter_cons_of_pos hk]
      simp only [OrderWorker.processOrders]
      exact ih _
    | false =>
      rw [List.filter_cons_of_neg (by simp [hk])]
      simp only [OrderWorker.processOrders]
      rw [hskip db po hk]
      exact ih db

/-! ## Every reachable database has unique order numbers -/

theorem OrdersInv_step (db : DB) (a : Action) (h : OrdersInv db) : OrdersInv (step db a) := by
  cases a with
  | AddUser fault login hashedPass =>
    show OrdersInv (DBUserStorage.AddUser db fault login hashedPass).1
    rcases AddUser_cases db fault login hashedPass with ⟨_, ho, _⟩ | ⟨_, ho, _⟩ <;>
      (unfold OrdersInv; rw [ho]; exact h)
  | UploadOrder fault getFails userID number =>
    exact OrdersInv_UploadOrder db fault getFails userID number h
  | Withdraw fail req =>
    show OrdersInv (OrderServiceImpl.Withdraw db fail req).1
    rcases Withdraw_cases db fail req with heq | ⟨t, _, _, heq⟩ <;> (rw [heq]; exact h)
  | process client faults =>
    exact process_preserves client faults OrdersInv (fun _ hdb => hdb)
      (fun d po hd hpo => OrdersInv_processOne client faults d po hd hpo) db h

theorem OrdersInv_reachable (ok : DB → Action → Prop) (db : DB) (hreach : Reachable ok db) :
    OrdersInv db := by
  induction hreach with
  | init => exact ⟨List.nodup_nil, fun o ho => by cases ho⟩
  | step db a _ _ ih => exact OrdersInv_step db a ih

/-! ## C19: status transitions -/

theorem allowedTransition_refl (s : OrderStatus) : allowedTransition s s := by
  cases s <;> simp [allowedTransition]

theorem allowedTransition_trans (a b c : OrderStatus) (h1 : allowedTransition a b)
    (h2 : allowedTransition b c) : allowedTransition a c := by
  cases a <;> cases b <;> cases c <;> simp_all [allowedTransition]

theorem allowedTransition_of_pending (p s : OrderStatus) (hp1 : p ≠ OrderStatus.Processed)
    (hp2 : p ≠ OrderStatus.Invalid)
    (hs : s = OrderStatus.Invalid ∨ s = OrderStatus.Processing ∨ s = p ∨
      s = OrderStatus.Processed) : allowedTransition p s := by
  cases p <;> cases s <;> simp_all [allowedTransition]

theorem SnapshotOf_processOne_other (client : AccrualClient) (faults : TickFaults) (db : DB)
    (po po1 : ProcessingOrder) (hne : po1.Number ≠ po.Number) (h : SnapshotOf db po1) :
    SnapshotOf (OrderWorker.processOne client faults db po) po1 := by
  obtain ⟨h1, h2, h3⟩ := h
  refine ⟨PendingIn_processOne_other client faults db po po1 hne h1, h2, ?_⟩
  intro r hr hrn
  exact h3 r ((processOne_other_rows client faults db po po1.Number hne r hrn).mp hr) hrn

/-- Loop rule of a tick for properties that need the rows of the pending
orders to be as they were read. -/
theorem processOrders_preserves_snapshot (client : AccrualClient) (faults : TickFaults)
    (P : DB → Prop)
    (hP : ∀ db po, P db → SnapshotOf db po → P (OrderWorker.processOne client faults db po))
    (orders : List ProcessingOrder) :
    ∀ db, (orders.map (fun po => po.Number)).Nodup → (∀ po ∈ orders, SnapshotOf db po) →
      P db → P (OrderWorker.processOrders client faults orders db) := by
  induction orders with
  | nil => intro db _ _ h; exact h
  | cons po rest ih =>
    intro db hnodup hsnap h
    unfold OrderWorker.processOrders
    rw [List.map_cons, List.nodup_cons] at hnodup
    apply ih _ hnodup.2
    · intro p hp
      apply SnapshotOf_processOne_other
      · intro heq
        exact hnodup.1 (List.mem_map.mpr ⟨p, hp, heq⟩)
      · exact hsnap p (List.mem_cons_of_mem _ hp)
    · exact hP db po h (hsnap po (List.mem_cons_self _ _))

theorem GetNotProcessedOrders_snapshot (db : DB) (hinv : OrdersInv db)
    (orders : List ProcessingOrder)
    (h : DBOrderStorage.GetNotProcessedOrders db false = Except.ok orders) :
    (orders.map (fun po => po.Number)).Nodup ∧ ∀ po ∈ orders, SnapshotOf db po := by
  obtain ⟨hnodup, hpend⟩ := GetNotProcessedOrders_pending db hinv orders h
  refine ⟨hnodup, ?_⟩
  intro po hpo
  refine ⟨hpend po hpo, ?_⟩
  simp only [DBOrderStorage.GetNotProcessedOrders, Bool.false_eq_true, if_false,
    Except.ok.injEq] at h
  subst h
  simp only [List.mem_map, List.mem_filter] at hpo
  obtain ⟨o, ⟨ho, hst⟩, rfl⟩ := hpo
  constructor
  · intro hc
    simp only [decide_eq_true_eq] at hst
    exact hst.2 hc
  · intro r hr hrn
    have : r = o := List.inj_on_of_nodup_map hinv.1 hr ho hrn
    rw [this]

theorem processOne_numbers (client : AccrualClient) (faults : TickFaults) (db : DB)
    (po : ProcessingOrder) :
    (OrderWorker.processOne client faults db po).orders.map (fun o => o.number) =
      db.orders.map (fun o => o.number) := by
  rcases processOne_cases client faults db po with heq | ⟨s, _, heq⟩ | ⟨s, a, _, heq⟩
  · rw [heq]
  · rw [heq, updateOrderStatus_numbers]
  · rw [heq, insertCreditTransaction_orders, updateOrder_numbers]

theorem processOrders_numbers (client : AccrualClient) (faults : TickFaults)
    (orders : List ProcessingOrder) :
    ∀ db, (OrderWorker.processOrders client faults orders db).orders.map (fun o => o.number) =
      db.orders.map (fun o => o.number) := by
  induction orders with
  | nil => intro db; rfl
  | cons po rest ih =>
    intro db
    unfold OrderWorker.processOrders
    rw [ih, processOne_numbers]

theorem StatusesFollow_processOne (client : AccrualClient) (faults : TickFaults)
    (db0 db : DB) (po : ProcessingOrder) (h : StatusesFollow db0 db) (hpo : SnapshotOf db po) :
    StatusesFollow db0 (OrderWorker.processOne client faults db po) := by
  obtain ⟨⟨hacc, hpst, _, _⟩, hinv, hsame⟩ := hpo
  intro o ho
  obtain ⟨o1, ho1, hnum, huser, hallowed⟩ := h o ho
  rcases processOne_pending_cases client faults db po hacc with
    heq | ⟨s, hs, heq⟩ | ⟨a, acc, _, _, _, heq⟩
  · rw [heq]; exact ⟨o1, ho1, hnum, huser, hallowed⟩
  · rw [heq]
    by_cases hn : o1.number = po.Number
    · have hstat : o1.status = po.Status := hsame o1 ho1 hn
      have hs1 : s = OrderStatus.Invalid ∨ s = OrderStatus.Processing ∨ s = po.Status ∨
          s = OrderStatus.Processed := by
        rcases hs with h1 | h1 | h1 | ⟨h1, _⟩
        · exact Or.inl h1
        · exact Or.inr (Or.inl h1)
        · exact Or.inr (Or.inr (Or.inl h1))
        · exact Or.inr (Or.inr (Or.inr h1))
      refine ⟨{ o1 with status := s },
        (mem_updateOrderStatus _ _ _ _).mpr ⟨o1, ho1, Or.inl ⟨hn, rfl⟩⟩, hnum, huser, ?_⟩
      apply allowedTransition_trans _ _ _ hallowed
      rw [hstat]
      exact allowedTransition_of_pending po.Status s hpst hinv hs1
    · exact ⟨o1, (mem_updateOrderStatus _ _ _ _).mpr ⟨o1, ho1, Or.inr ⟨hn, rfl⟩⟩,
        hnum, huser, hallowed⟩
  · rw [heq, insertCreditTransaction_orders]
    by_cases hn : o1.number = po.Number
    · have hstat : o1.status = po.Status := hsame o1 ho1 hn
      refine ⟨{ o1 with status := OrderStatus.Processed, accrual := some a },
        (mem_updateOrder _ _ _ _ _).mpr ⟨o1, ho1, Or.inl ⟨hn, rfl⟩⟩, hnum, huser, ?_⟩
      apply allowedTransition_trans _ _ _ hallowed
      rw [hstat]
      exact allowedTransition_of_pending po.Status OrderStatus.Processed hpst hinv
        (Or.inr (Or.inr (Or.inr rfl)))
    · exact ⟨o1, (mem_updateOrder _ _ _ _ _).mpr ⟨o1, ho1, Or.inr ⟨hn, rfl⟩⟩,
        hnum, huser, hallowed⟩

theorem StatusesFollow_refl (db : DB) : StatusesFollow db db :=
  fun o ho => ⟨o, ho, rfl, rfl, allowedTransition_refl _⟩

theorem StatusesFollow_process (client : AccrualClient) (faults : TickFaults) (db : DB)
    (hinv : OrdersInv db) : StatusesFollow db (OrderWorker.process client faults db) := by
  unfold OrderWorker.process
  cases hflag : faults.getNotProcessed with
  | true => simpa [DBOrderStorage.GetNotProcessedOrders] using StatusesFollow_refl db
  | false =>
    cases hq : DBOrderStorage.GetNotProcessedOrders db false with
    | error e => simp [DBOrderStorage.GetNotProcessedOrders] at hq
    | ok orders =>
      obtain ⟨hnodup, hsnap⟩ := GetNotProcessedOrders_snapshot db hinv orders hq
      exact processOrders_preserves_snapshot client faults (StatusesFollow db)
        (fun d po hd hpo => StatusesFollow_processOne client faults db d po hd hpo)
        orders db hnodup hsnap (StatusesFollow_refl db)

theorem process_numbers (client : AccrualClient) (faults : TickFaults) (db : DB) :
    (OrderWorker.process client faults db).orders.map (fun o => o.number) =
      db.orders.map (fun o => o.number) := by
  unfold OrderWorker.process
  cases DBOrderStorage.GetNotProcessedOrders db faults.getNotProcessed with
  | error e => rfl
  | ok orders => exact processOrders_numbers client faults orders db

/-- C19 (amended). Along every execution (registrations, uploads,
withdrawals and worker ticks, any oracle answers and driver failures), one
action takes every order row to a row with the same number and owner whose
status is reached by an allowed transition: New stays or moves to Processing,
Invalid or Processed; Processing stays or moves to Invalid or Processed (never
back to New); Invalid and Processed never change.  A row that was not there
before the action has status New. -/
theorem status_transitions (ok : DB → Action → Prop) (db : DB) (a : Action)
    (hreach : Reachable ok db) :
    (∀ o ∈ db.orders, ∃ o1 ∈ (step db a).orders, o1.number = o.number ∧
      o1.user_id = o.user_id ∧ allowedTransition o.status o1.status) ∧
    (∀ o1 ∈ (step db a).orders,
      (∃ o ∈ db.orders, o.number = o1.number) ∨ o1.status = OrderStatus.New) := by
  have hinv := OrdersInv_reachable ok db hreach
  cases a with
  | AddUser fault login hashedPass =>
    have ho : (step db (Action.AddUser fault login hashedPass)).orders = db.orders := by
      show (DBUserStorage.AddUser db fault login hashedPass).1.orders = db.orders
      rcases AddUser_cases db fault login hashedPass with ⟨_, ho, _⟩ | ⟨_, ho, _⟩ <;> exact ho
    rw [ho]
    exact ⟨StatusesFollow_refl db, fun o1 ho1 => Or.inl ⟨o1, ho1, rfl⟩⟩
  | UploadOrder fault getFails userID number =>
    show (∀ o ∈ db.orders, ∃ o1 ∈
        (OrderServiceImpl.UploadOrder db fault getFails userID number).1.orders, _) ∧
      (∀ o1 ∈ (OrderServiceImpl.UploadOrder db fault getFails userID number).1.orders, _)
    rcases UploadOrder_cases db fault getFails userID number with heq | ⟨_, heq⟩
    · rw [heq]
      exact ⟨StatusesFollow_refl db, fun o1 ho1 => Or.inl ⟨o1, ho1, rfl⟩⟩
    · rw [heq]
      constructor
      · intro o ho
        exact ⟨o, List.mem_append_left _ ho, rfl, rfl, allowedTransition_refl _⟩
      · intro o1 ho1
        rcases List.mem_append.mp ho1 with ho1 | ho1
        · exact Or.inl ⟨o1, ho1, rfl⟩
        · simp only [List.mem_singleton] at ho1
          subst ho1
          exact Or.inr rfl
  | Withdraw fail req =>
    have ho : (step db (Action.Withdraw fail req)).orders = db.orders := by
      show (OrderServiceImpl.Withdraw db fail req).1.orders = db.orders
      rcases Withdraw_cases db fail req with heq | ⟨t, _, _, heq⟩ <;> rw [heq]
    rw [ho]
    exact ⟨StatusesFollow_refl db, fun o1 ho1 => Or.inl ⟨o1, ho1, rfl⟩⟩
  | process client faults =>
    refine ⟨StatusesFollow_process client faults db hinv, ?_⟩
    intro o1 ho1
    left
    have hmem : o1.number ∈ (step db (Action.process client faults)).orders.map
        (fun o => o.number) := List.mem_map.mpr ⟨o1, ho1, rfl⟩
    have hnum : (step db (Action.process client faults)).orders.map (fun o => o.number)
        = db.orders.map (fun o => o.number) := process_numbers client faults db
    rw [hnum] at hmem
    obtain ⟨o, ho, hon⟩ := List.mem_map.mp hmem
    exact ⟨o, ho, hon⟩

/-- C19 (counterexample). The order `12345678903` of the reachable database
`ledgerFresh` is New; one tick with the oracle answer `PROCESSED` (accrual
500) takes it to Processed without passing through Processing. -/
theorem status_transitions_counterexample :
    Reachable authenticated ledgerFresh ∧
    step ledgerFresh (Action.process clientProcessed500 noFaults) = ledger500 ∧
    (∃ o ∈ ledgerFresh.orders, ∃ o1 ∈ ledger500.orders, o1.number = o.number ∧
      o.status = OrderStatus.New ∧ o1.status = OrderStatus.Processed ∧
      ¬ claimedTransition o.status o1.status) := by
  refine ⟨reachable_ledgerFresh _ trivial registered_ledgerRegistered, step_credit500, ?_⟩
  refine ⟨{ number := "12345678903", user_id := 1, status := OrderStatus.New, accrual := none },
    by simp [ledgerFresh],
    { number := "12345678903", user_id := 1, status := OrderStatus.Processed,
      accrual := some 500 }, by simp [ledger500], rfl, rfl, rfl, ?_⟩
  simp [claimedTransition]

/-- The theorem of the amended C19 on the tick that credits the order of
`ledgerFresh`. -/
theorem status_transitions_witness :
    Reachable authenticated ledgerFresh ∧
    ∀ o ∈ ledgerFresh.orders, ∃ o1 ∈ (step ledgerFresh actCredit500).orders,
      o1.number = o.number ∧ o1.user_id = o.user_id ∧
      allowedTransition o.status o1.status := by
  have hreach : Reachable authenticated ledgerFresh :=
    reachable_ledgerFresh _ trivial registered_ledgerRegistered
  exact ⟨hreach, (status_transitions authenticated ledgerFresh actCredit500 hreach).1⟩

/-! ## C20: terminal orders are left alone -/

theorem processOne_other_entries (client : AccrualClient) (faults : TickFaults) (db : DB)
    (po : ProcessingOrder) (n : OrderNumber) (hn : n ≠ po.Number) :
    entriesOf (OrderWorker.processOne client faults db po) n = entriesOf db n := by
  rcases processOne_cases client faults db po with heq | ⟨s, _, heq⟩ | ⟨s, a, _, heq⟩
  · rw [heq]
  · rw [heq]; rfl
  · rw [heq]
    rcases insertCreditTransaction_cases (updateOrder db s (some a) po.Number)
        po.Number po.UserID a with ⟨_, hins⟩ | ⟨t0, _, hins⟩
    · rw [hins]; rfl
    · rw [hins, entriesOf_append]
      have hne : ¬ (some po.Number = some n) := by
        intro h
        exact hn (Option.some.inj h).symm
      simp only [hne, if_false, List.append_nil]
      rfl

/-- A loop over orders of other numbers leaves the rows and the ledger
entries of the number `n` as they are. -/
theorem processOrders_other (client : AccrualClient) (faults : TickFaults) (n : OrderNumber)
    (orders : List ProcessingOrder) :
    ∀ db, (∀ po ∈ orders, po.Number ≠ n) →
      (∀ o : OrderRow, o.number = n →
        (o ∈ (OrderWorker.processOrders client faults orders db).orders ↔ o ∈ db.orders)) ∧
      entriesOf (OrderWorker.processOrders client faults orders db) n = entriesOf db n := by
  induction orders with
  | nil => intro db _; exact ⟨fun _ _ => Iff.rfl, rfl⟩
  | cons po rest ih =>
    intro db hne
    unfold OrderWorker.processOrders
    have hpo : n ≠ po.Number := fun h => hne po (List.mem_cons_self _ _) h.symm
    obtain ⟨hrows, hentries⟩ := ih (OrderWorker.processOne client faults db po)
      (fun p hp => hne p (List.mem_cons_of_mem _ hp))
    constructor
    · intro o hon
      rw [hrows o hon]
      exact processOne_other_rows client faults db po n hpo o hon
    · rw [hentries]
      exact processOne_other_entries client faults db po n hpo

theorem processOne_congr (client1 client2 : AccrualClient) (faults : TickFaults) (db : DB)
    (po : ProcessingOrder) (h : client1 po.Number = client2 po.Number) :
    OrderWorker.processOne client1 faults db po = OrderWorker.processOne client2 faults db po := by
  simp only [OrderWorker.processOne, OrderWorker.processOrder, h]

/-- The loop only looks at the oracle's answers for the orders of its list. -/
theorem processOrders_congr (client1 client2 : AccrualClient) (faults : TickFaults)
    (orders : List ProcessingOrder) :
    ∀ db, (∀ po ∈ orders, client1 po.Number = client2 po.Number) →
      OrderWorker.processOrders client1 faults orders db =
        OrderWorker.processOrders client2 faults orders db := by
  induction orders with
  | nil => intro db _; rfl
  | cons po rest ih =>
    intro db h
    unfold OrderWorker.processOrders
    rw [processOne_congr client1 client2 faults db po (h po (List.mem_cons_self _ _))]
    exact ih _ (fun p hp => h p (List.mem_cons_of_mem _ hp))

/-- C20. With order numbers unique (the key of `orders`):
`GetNotProcessedOrders` returns exactly the orders whose status is neither
Invalid nor Processed; a tick gives the same result for any two oracles that
agree on those orders (the oracle's answers for Invalid and Processed orders
are never looked at); and an order that is Invalid or Processed at the start
of the tick has, after the tick, the same row (status and accrual) and the
same ledger entries, whatever the oracle answers and whatever fails. -/
theorem terminal_orders_untouched (client : AccrualClient) (faults : TickFaults) (db : DB)
    (hkey : (db.orders.map (fun o => o.number)).Nodup) :
    (∃ orders, DBOrderStorage.GetNotProcessedOrders db false = Except.ok orders ∧
      ∀ po, po ∈ orders ↔ ∃ o ∈ db.orders, o.status ≠ OrderStatus.Invalid ∧
        o.status ≠ OrderStatus.Processed ∧
        po = { Number := o.number, Status := o.status, Accrual := o.accrual,
               UserID := o.user_id }) ∧
    (∀ client2 : AccrualClient,
      (∀ o ∈ db.orders, o.status ≠ OrderStatus.Invalid → o.status ≠ OrderStatus.Processed →
        client2 o.number = client o.number) →
      OrderWorker.process client2 faults db = OrderWorker.process client faults db) ∧
    (∀ o ∈ db.orders, o.status = OrderStatus.Invalid ∨ o.status = OrderStatus.Processed →
      o ∈ (OrderWorker.process client faults db).orders ∧
      (∀ r ∈ (OrderWorker.process client faults db).orders, r.number = o.number → r = o) ∧
      entriesOf (OrderWorker.process client faults db) o.number = entriesOf db o.number) := by
  refine ⟨?_, ?_, ?_⟩
  · cases hq : DBOrderStorage.GetNotProcessedOrders db false with
    | error e => simp [DBOrderStorage.GetNotProcessedOrders] at hq
    | ok orders =>
      refine ⟨orders, rfl, ?_⟩
      simp only [DBOrderStorage.GetNotProcessedOrders, Bool.false_eq_true, if_false,
        Except.ok.injEq] at hq
      subst hq
      intro po
      simp only [List.mem_map, List.mem_filter, decide_eq_true_eq]
      constructor
      · rintro ⟨o, ⟨ho, h1, h2⟩, rfl⟩
        exact ⟨o, ho, h2, h1, rfl⟩
      · rintro ⟨o, ho, h1, h2, rfl⟩
        exact ⟨o, ⟨ho, h2, h1⟩, rfl⟩
  · intro client2 hagree
    unfold OrderWorker.process
    cases hflag : faults.getNotProcessed with
    | true => simp [DBOrderStorage.GetNotProcessedOrders]
    | false =>
      simp only [DBOrderStorage.GetNotProcessedOrders, Bool.false_eq_true, if_false]
      apply processOrders_congr
      intro po hpo
      simp only [List.mem_map, List.mem_filter, decide_eq_true_eq] at hpo
      obtain ⟨o, ⟨ho, h1, h2⟩, rfl⟩ := hpo
      exact hagree o ho h2 h1
  · intro o ho hterminal
    have hnum := process_numbers client faults db
    have hkey1 : ((OrderWorker.process client faults db).orders.map
        (fun o => o.number)).Nodup := by rw [hnum]; exact hkey
    have hmain : o ∈ (OrderWorker.process client faults db).orders ∧
        entriesOf (OrderWorker.process client faults db) o.number = entriesOf db o.number := by
      unfold OrderWorker.process
      cases hflag : faults.getNotProcessed with
      | true => simpa [DBOrderStorage.GetNotProcessedOrders] using ho
      | false =>
        simp only [DBOrderStorage.GetNotProcessedOrders, Bool.false_eq_true, if_false]
        have hother := processOrders_other client faults o.number
          ((db.orders.filter (fun o => o.status ≠ OrderStatus.Processed ∧
            o.status ≠ OrderStatus.Invalid)).map
            (fun o => { Number := o.number, Status := o.status, Accrual := o.accrual,
                        UserID := o.user_id })) db (by
            intro po hpo heq
            simp only [List.mem_map, List.mem_filter, decide_eq_true_eq] at hpo
            obtain ⟨r, ⟨hr, h1, h2⟩, rfl⟩ := hpo
            have : r = o := List.inj_on_of_nodup_map hkey hr ho heq
            rw [this] at h1 h2
            rcases hterminal with h | h
            · exact h2 h
            · exact h1 h)
        exact ⟨(hother.1 o rfl).mpr ho, hother.2⟩
    refine ⟨hmain.1, ?_, hmain.2⟩
    intro r hr hrn
    exact List.inj_on_of_nodup_map hkey1 hr hmain.1 hrn

/-- The theorem of C20 on `ledger500`, whose order is Processed, with an
oracle that would answer `PROCESSED` without an accrual. -/
theorem terminal_orders_untouched_witness :
    (ledger500.orders.map (fun o => o.number)).Nodup ∧
    ∀ o ∈ ledger500.orders, o.status = OrderStatus.Invalid ∨ o.status = OrderStatus.Processed →
      o ∈ (OrderWorker.process clientProcessedNoAccrual noFaults ledger500).orders ∧
      (∀ r ∈ (OrderWorker.process clientProcessedNoAccrual noFaults ledger500).orders,
        r.number = o.number → r = o) ∧
      entriesOf (OrderWorker.process clientProcessedNoAccrual noFaults ledger500) o.number =
        entriesOf ledger500 o.number := by
  have hkey : (ledger500.orders.map (fun o => o.number)).Nodup := by
    simp [ledger500]
  exact ⟨hkey, (terminal_orders_untouched clientProcessedNoAccrual noFaults ledger500 hkey).2.2⟩

/-! ## C24: a single-digit substitution breaks the Luhn checksum -/

theorem digit_bounds (c : Char) (h : ¬(c < '0' ∨ c > '9')) : 48 ≤ c.toNat ∧ c.toNat ≤ 57 := by
  have h9 : c.val ≤ '9'.val := UInt32.not_lt.mp (fun hc => h (Or.inr hc))
  have h0 : '0'.val ≤ c.val := UInt32.not_lt.mp (fun hc => h (Or.inl hc))
  have h9n : c.val.toNat ≤ 57 := h9
  have h0n : 48 ≤ c.val.toNat := h0
  exact ⟨h0n, h9n⟩

theorem digitValue_lt (c : Char) (h : ¬(c < '0' ∨ c > '9')) : digitValue c < 10 := by
  have hb := digit_bounds c h
  have h48 : '0'.toNat = 48 := rfl
  unfold digitValue
  omega

theorem digitValue_ne (c c1 : Char) (h : ¬(c < '0' ∨ c > '9')) (h1 : ¬(c1 < '0' ∨ c1 > '9'))
    (hne : c ≠ c1) : digitValue c ≠ digitValue c1 := by
  have hb := digit_bounds c h
  have hb1 := digit_bounds c1 h1
  have h48 : '0'.toNat = 48 := rfl
  intro heq
  unfold digitValue at heq
  have hn : c.toNat = c1.toNat := by omega
  apply hne
  apply Char.ext
  apply UInt32.ext
  exact hn

theorem luhnDigit_injective (b : Bool) (x y : Nat) (hx : x < 10) (hy : y < 10) (hne : x ≠ y) :
    luhnDigit b x % 10 ≠ luhnDigit b y % 10 := by
  unfold luhnDigit
  cases b
  · simp only [Bool.false_eq_true, if_false]; omega
  · simp only [if_true]
    split <;> split <;> omega

theorem luhnLeftSum_append (d : Nat) (l1 l2 : List Nat) :
    ∀ i, luhnLeftSum d i (l1 ++ l2)
      = luhnLeftSum d i l1 + luhnLeftSum d (i + l1.length) l2 := by
  induction l1 with
  | nil => intro i; simp [luhnLeftSum]
  | cons n ns ih =>
    intro i
    have hlen : i + 1 + ns.length = i + (ns.length + 1) := by omega
    show luhnDigit (decide (i % 2 = d)) n + luhnLeftSum d (i + 1) (ns ++ l2) = _
    rw [ih (i + 1), hlen]
    simp only [luhnLeftSum, List.length_cons]
    omega

/-- On a string of decimal digits the validator is the Luhn sum of the digit
values, taken modulo 10. -/
theorem CheckNumberByLuhn_digits (cs : List Char) (hd : ∀ c ∈ cs, ¬(c < '0' ∨ c > '9')) :
    CheckNumberByLuhn (String.mk cs)
      = (luhnLeftSum (if cs.length % 2 = 1 then 1 else 0) 0 (cs.map digitValue) % 10 == 0) := by
  have hsize : (String.mk cs).utf8ByteSize = cs.length := utf8ByteSize_go_digits cs hd
  unfold CheckNumberByLuhn
  simp only [hsize, luhnLoop_digits _ _ 0 0 hd, Nat.zero_add]

/-- C24: if a string of decimal digits passes `CheckNumberByLuhn`, then every
string obtained from it by replacing exactly one digit (at any position) by a
different digit is rejected. -/
theorem CheckNumberByLuhn_single_digit_typo (before after : List Char) (c c1 : Char)
    (hbefore : ∀ x ∈ before, '0' ≤ x ∧ x ≤ '9') (hafter : ∀ x ∈ after, '0' ≤ x ∧ x ≤ '9')
    (hc : '0' ≤ c ∧ c ≤ '9') (hc1 : '0' ≤ c1 ∧ c1 ≤ '9') (htypo : c ≠ c1)
    (hvalid : CheckNumberByLuhn (String.mk (before ++ c :: after)) = true) :
    CheckNumberByLuhn (String.mk (before ++ c1 :: after)) = false := by
  have conv : ∀ x : Char, ('0' ≤ x ∧ x ≤ '9') → ¬(x < '0' ∨ x > '9') := by
    intro x hx hbad
    rcases hbad with hlt | hgt
    · exact absurd hx.1 (UInt32.not_le.mpr hlt)
    · exact absurd hx.2 (UInt32.not_le.mpr hgt)
  have hdc := conv c hc
  have hdc1 := conv c1 hc1
  have hall : ∀ y : Char, ¬(y < '0' ∨ y > '9') →
      ∀ x ∈ before ++ y :: after, ¬(x < '0' ∨ x > '9') := by
    intro y hy x hx
    rcases List.mem_append.mp hx with h | h
    · exact conv x (hbefore x h)
    · rcases List.mem_cons.mp h with rfl | h
      · exact hy
      · exact conv x (hafter x h)
  rw [CheckNumberByLuhn_digits _ (hall c hdc)] at hvalid
  rw [CheckNumberByLuhn_digits _ (hall c1 hdc1)]
  have hlen : (before ++ c1 :: after).length = (before ++ c :: after).length := by simp
  rw [hlen]
  simp only [List.map_append, List.map_cons, luhnLeftSum_append, luhnLeftSum, beq_iff_eq]
    at hvalid ⊢
  have hinj := luhnDigit_injective
    (decide ((0 + (List.map digitValue before).length) % 2
      = if (before ++ c :: after).length % 2 = 1 then 1 else 0))
    (digitValue c) (digitValue c1) (digitValue_lt c hdc) (digitValue_lt c1 hdc1)
    (digitValue_ne c c1 hdc hdc1 htypo)
  simp only [beq_eq_false_iff_ne, ne_eq]
  omega

/-- The theorem of C24 at the order number "12345678903" of the specification with
its fourth digit mistyped as 7. -/
theorem CheckNumberByLuhn_single_digit_typo_witness :
    CheckNumberByLuhn (String.mk ("123".data ++ '4' :: "5678903".data)) = true ∧
      CheckNumberByLuhn (String.mk ("123".data ++ '7' :: "5678903".data)) = false :=
  ⟨by decide, CheckNumberByLuhn_single_digit_typo "123".data "5678903".data '4' '7'
    (by decide) (by decide) (by decide) (by decide) (by decide) (by decide)⟩

/-! ## C26: the worker's update stays on the pending order -/

theorem processOrder_keeps_key (client : AccrualClient) (po r : ProcessingOrder)
    (h : OrderWorker.processOrder client po = Except.ok r) :
    r.Number = po.Number ∧ r.UserID = po.UserID := by
  unfold OrderWorker.processOrder at h
  cases hc : client po.Number with
  | error e => rw [hc] at h; cases h
  | ok acc =>
    rw [hc] at h
    simp only at h
    split at h
    · cases h; exact ⟨rfl, rfl⟩
    · split at h
      · cases h; exact ⟨rfl, rfl⟩
      · split at h
        · cases h; exact ⟨rfl, rfl⟩
        · cases h; exact ⟨rfl, rfl⟩

theorem processOrder_relabel (client : AccrualClient) (number : OrderNumber → String)
    (po : ProcessingOrder) :
    OrderWorker.processOrder (relabel client number) po = OrderWorker.processOrder client po := by
  unfold OrderWorker.processOrder relabel
  cases hc : client po.Number with
  | error e => rfl
  | ok acc => rfl

theorem processOne_ledger_key (client : AccrualClient) (faults : TickFaults) (db : DB)
    (po : ProcessingOrder) (t : TransactionRow)
    (ht : t ∈ (OrderWorker.processOne client faults db po).transactions) :
    t ∈ db.transactions ∨ (t.number = some po.Number ∧ t.user_id = po.UserID) := by
  rcases processOne_cases client faults db po with h | ⟨s, _, h⟩ | ⟨s, a, _, h⟩
  · rw [h] at ht; exact Or.inl ht
  · rw [h] at ht; exact Or.inl ht
  · rw [h] at ht
    rcases insertCreditTransaction_cases (updateOrder db s (some a) po.Number) po.Number
      po.UserID a with ⟨_, h2⟩ | ⟨l, _, h2⟩
    · rw [h2] at ht; exact Or.inl ht
    · rw [h2] at ht
      rcases List.mem_append.mp ht with h3 | h3
      · exact Or.inl h3
      · rw [List.mem_singleton] at h3
        subst h3
        exact Or.inr ⟨rfl, rfl⟩

theorem processOne_owner (client : AccrualClient) (faults : TickFaults) (db : DB)
    (po : ProcessingOrder) (o1 : OrderRow)
    (ho : o1 ∈ (OrderWorker.processOne client faults db po).orders) :
    ∃ o ∈ db.orders, o1.number = o.number ∧ o1.user_id = o.user_id := by
  rcases processOne_cases client faults db po with h | ⟨s, _, h⟩ | ⟨s, a, _, h⟩
  · rw [h] at ho; exact ⟨o1, ho, rfl, rfl⟩
  · rw [h, mem_updateOrderStatus] at ho
    obtain ⟨r, hr, ⟨_, he⟩ | ⟨_, he⟩⟩ := ho
    · exact ⟨r, hr, by rw [he], by rw [he]⟩
    · exact ⟨r, hr, by rw [he], by rw [he]⟩
  · rw [h, insertCreditTransaction_orders, mem_updateOrder] at ho
    obtain ⟨r, hr, ⟨_, he⟩ | ⟨_, he⟩⟩ := ho
    · exact ⟨r, hr, by rw [he], by rw [he]⟩
    · exact ⟨r, hr, by rw [he], by rw [he]⟩

/-- C26: for every pending order `po` and every oracle `client`: the order
returned by `processOrder` has the number and the user id of `po`, and the
update of the tick is `UpdateOrderAccrual` or `UpdateOrderStatus` called with
that order; order rows with another number are left as they were and no row
changes its number or owner; every ledger row added carries the number and
the user id of `po`; and replacing the order number in the oracle's response
body by any other string changes nothing. -/
theorem processOrder_frame (client : AccrualClient) (faults : TickFaults) (db : DB)
    (po : ProcessingOrder) :
    (∀ r, OrderWorker.processOrder client po = Except.ok r →
      r.Number = po.Number ∧ r.UserID = po.UserID ∧
      (OrderWorker.processOne client faults db po
          = (DBOrderStorage.UpdateOrderAccrual db (faults.update po.Number) r).1 ∨
        OrderWorker.processOne client faults db po
          = (DBOrderStorage.UpdateOrderStatus db
              (decide (faults.update po.Number ≠ Fault.none)) r).1)) ∧
    (∀ err, OrderWorker.processOrder client po = Except.error err →
      OrderWorker.processOne client faults db po = db) ∧
    (∀ o : OrderRow, o.number ≠ po.Number →
      (o ∈ (OrderWorker.processOne client faults db po).orders ↔ o ∈ db.orders)) ∧
    (∀ o1 ∈ (OrderWorker.processOne client faults db po).orders,
      ∃ o ∈ db.orders, o1.number = o.number ∧ o1.user_id = o.user_id) ∧
    (∀ t ∈ (OrderWorker.processOne client faults db po).transactions,
      t ∈ db.transactions ∨ (t.number = some po.Number ∧ t.user_id = po.UserID)) ∧
    (∀ number : OrderNumber → String,
      OrderWorker.processOrder (relabel client number) po = OrderWorker.processOrder client po ∧
      OrderWorker.processOne (relabel client number) faults db po
        = OrderWorker.processOne client faults db po) := by
  refine ⟨?_, ?_, ?_, ?_, ?_, ?_⟩
  · intro r hr
    obtain ⟨h1, h2⟩ := processOrder_keeps_key client po r hr
    refine ⟨h1, h2, ?_⟩
    unfold OrderWorker.processOne
    rw [hr]
    simp only
    split
    · exact Or.inl rfl
    · exact Or.inr rfl
  · intro err herr
    unfold OrderWorker.processOne
    rw [herr]
  · intro o ho
    exact processOne_other_rows client faults db po o.number ho o rfl
  · intro o1 ho1
    exact processOne_owner client faults db po o1 ho1
  · intro t ht
    exact processOne_ledger_key client faults db po t ht
  · intro number
    have h := processOrder_relabel client number po
    refine ⟨h, ?_⟩
    unfold OrderWorker.processOne
    rw [h]

/-- The frame of C26 on the scenario of the specification: the oracle answers the
query for "12345678903" with a body that names the order "2377225624"; the
credit of 500 lands on "12345678903" and its uploader all the same. -/
example :
    OrderWorker.processOne clientNamesOtherOrder noFaults ledgerFresh pending903
      = OrderWorker.processOne clientProcessed500 noFaults ledgerFresh pending903 := by
  unfold OrderWorker.processOne OrderWorker.processOrder clientNamesOtherOrder
    clientProcessed500
  rfl

/-! ## The first ledger entry along an execution -/

theorem FirstEntryInv_frame (db db1 : DB) (hu : db1.users = db.users)
    (ht : db1.transactions = db.transactions) (hs : db.userSeq ≤ db1.userSeq)
    (h : FirstEntryInv db) : FirstEntryInv db1 := by
  obtain ⟨h1, h2, h3⟩ := h
  unfold FirstEntryInv firstEntries registered at *
  rw [hu, ht]
  exact ⟨fun r hr => le_trans (h1 r hr) hs, h2, h3⟩

theorem FirstEntryInv_append (db db1 : DB) (new : TransactionRow) (hu : db1.users = db.users)
    (ht : db1.transactions = db.transactions ++ [new]) (hs : db1.userSeq = db.userSeq)
    (hprev : ∃ l ∈ db.transactions, l.user_id = new.user_id ∧ new.id = l.id + 1)
    (h : FirstEntryInv db) : FirstEntryInv db1 := by
  obtain ⟨h1, h2, h3⟩ := h
  obtain ⟨l, hl, hlu, hlid⟩ := hprev
  have hl2 := h2 l hl
  have hid : new.id ≠ 0 := by omega
  unfold FirstEntryInv firstEntries registered at *
  rw [hu, ht, hs]
  refine ⟨h1, ?_, ?_⟩
  · intro t htm
    rcases List.mem_append.mp htm with htm | htm
    · exact h2 t htm
    · rw [List.mem_singleton] at htm
      subst htm
      exact ⟨hlu ▸ hl2.1, by omega⟩
  · intro r hr
    rw [List.filter_append, h3 r hr]
    simp [hid]

theorem FirstEntryInv_register (db db1 : DB) (login pass : String)
    (hu : db1.users = db.users ++ [{ id := db.userSeq + 1, login := login, password := pass }])
    (ht : db1.transactions = db.transactions ++ [zeroEntry (db.userSeq + 1)])
    (hs : db1.userSeq = db.userSeq + 1) (h : FirstEntryInv db) : FirstEntryInv db1 := by
  obtain ⟨h1, h2, h3⟩ := h
  have hfresh : ∀ t ∈ db.transactions, t.user_id ≠ db.userSeq + 1 := by
    intro t htm heq
    obtain ⟨r, hr, hrid⟩ := (h2 t htm).1
    have h5 : db.userSeq + 1 ≤ db.userSeq := by rw [← heq, ← hrid]; exact h1 r hr
    omega
  unfold FirstEntryInv firstEntries registered at *
  rw [hu, ht, hs]
  refine ⟨?_, ?_, ?_⟩
  · intro r hr
    rcases List.mem_append.mp hr with hr | hr
    · have hstep : db.userSeq ≤ db.userSeq + 1 := by omega
      exact le_trans (h1 r hr) hstep
    · rw [List.mem_singleton] at hr
      subst hr
      exact le_refl _
  · intro t htm
    rcases List.mem_append.mp htm with htm | htm
    · obtain ⟨⟨r, hr, hrid⟩, hpos⟩ := h2 t htm
      exact ⟨⟨r, List.mem_append_left _ hr, hrid⟩, hpos⟩
    · rw [List.mem_singleton] at htm
      subst htm
      exact ⟨⟨_, List.mem_append_right _ (List.mem_singleton_self _), rfl⟩, le_refl _⟩
  · intro r hr
    rw [List.filter_append]
    rcases List.mem_append.mp hr with hr | hr
    · have hne : ¬ db.userSeq + 1 = r.id := by
        intro heq
        have h5 : db.userSeq + 1 ≤ db.userSeq := by rw [heq]; exact h1 r hr
        omega
      rw [h3 r hr]
      simp [zeroEntry, hne]
    · rw [List.mem_singleton] at hr
      subst hr
      have hnil : List.filter (fun t : TransactionRow =>
          decide (t.user_id = db.userSeq + 1) && decide (t.id = 0)) db.transactions = [] := by
        rw [List.filter_eq_nil_iff]
        intro t htm
        simp [hfresh t htm]
      rw [hnil]
      simp [zeroEntry]

/-- What `AddUser` returns: an id exactly when the user row and the first
ledger row were both written, an error exactly when neither was. -/
theorem AddUser_result (db : DB) (fault : Fault) (login hashedPass : String) :
    (∃ err, (DBUserStorage.AddUser db fault login hashedPass).2 = Except.error err ∧
      (DBUserStorage.AddUser db fault login hashedPass).1.users = db.users ∧
      (DBUserStorage.AddUser db fault login hashedPass).1.transactions = db.transactions ∧
      db.userSeq ≤ (DBUserStorage.AddUser db fault login hashedPass).1.userSeq) ∨
    ((DBUserStorage.AddUser db fault login hashedPass).2 = Except.ok (db.userSeq + 1) ∧
      (DBUserStorage.AddUser db fault login hashedPass).1.users = db.users ++
        [{ id := db.userSeq + 1, login := login, password := hashedPass }] ∧
      (DBUserStorage.AddUser db fault login hashedPass).1.transactions = db.transactions ++
        [zeroEntry (db.userSeq + 1)] ∧
      (DBUserStorage.AddUser db fault login hashedPass).1.userSeq = db.userSeq + 1) := by
  unfold DBUserStorage.AddUser
  by_cases h1 : fault = Fault.begin
  · simp [h1]
  by_cases h2 : fault = Fault.first
  · simp [h2]
  by_cases h3 : db.users.any (fun r => r.login = login) = true
  · rw [if_neg h1, if_neg h2, if_pos h3]
    exact Or.inl ⟨_, rfl, rfl, rfl, by simp⟩
  by_cases h4 : fault = Fault.second
  · rw [if_neg h1, if_neg h2, if_neg h3, if_pos h4]
    exact Or.inl ⟨_, rfl, rfl, rfl, by simp⟩
  by_cases h5 : fault = Fault.commit
  · rw [if_neg h1, if_neg h2, if_neg h3, if_neg h4, if_pos h5]
    exact Or.inl ⟨_, rfl, rfl, rfl, by simp⟩
  · rw [if_neg h1, if_neg h2, if_neg h3, if_neg h4, if_neg h5]
    exact Or.inr ⟨rfl, rfl, rfl, rfl⟩

theorem FirstEntryInv_AddUser (db : DB) (fault : Fault) (login hashedPass : String)
    (h : FirstEntryInv db) :
    FirstEntryInv (DBUserStorage.AddUser db fault login hashedPass).1 := by
  rcases AddUser_result db fault login hashedPass with ⟨_, _, hu, ht, hs⟩ | ⟨_, hu, ht, hs⟩
  · exact FirstEntryInv_frame db _ hu ht hs h
  · exact FirstEntryInv_register db _ login hashedPass hu ht hs h

theorem FirstEntryInv_Withdraw (db : DB) (fail : Bool) (req : WithdrawReq)
    (h : FirstEntryInv db) : FirstEntryInv (OrderServiceImpl.Withdraw db fail req).1 := by
  rcases Withdraw_cases db fail req with h1 | ⟨t, hlatest, _, h1⟩
  · rw [h1]; exact h
  · rw [h1]
    obtain ⟨htm, htu⟩ := latestTransaction_mem db req.UserID t hlatest
    exact FirstEntryInv_append db _ _ rfl rfl rfl ⟨t, htm, htu, rfl⟩ h

theorem FirstEntryInv_UploadOrder (db : DB) (fault : AddOrderFault) (getFails : Bool)
    (userID : UserID) (number : OrderNumber) (h : FirstEntryInv db) :
    FirstEntryInv (OrderServiceImpl.UploadOrder db fault getFails userID number).1 := by
  rcases UploadOrder_cases db fault getFails userID number with h1 | ⟨_, h1⟩
  · rw [h1]; exact h
  · rw [h1]; exact FirstEntryInv_frame db _ rfl rfl (le_refl _) h

theorem FirstEntryInv_processOne (client : AccrualClient) (faults : TickFaults) (db : DB)
    (po : ProcessingOrder) (h : FirstEntryInv db) :
    FirstEntryInv (OrderWorker.processOne client faults db po) := by
  rcases processOne_cases client faults db po with h1 | ⟨s, _, h1⟩ | ⟨s, a, _, h1⟩
  · rw [h1]; exact h
  · rw [h1]; exact FirstEntryInv_frame db _ rfl rfl (le_refl _) h
  · rw [h1]
    have hupd : FirstEntryInv (updateOrder db s (some a) po.Number) :=
      FirstEntryInv_frame db _ rfl rfl (le_refl _) h
    rcases insertCreditTransaction_cases (updateOrder db s (some a) po.Number) po.Number
      po.UserID a with ⟨_, h2⟩ | ⟨l, hlatest, h2⟩
    · rw [h2]; exact hupd
    · rw [h2]
      obtain ⟨hlm, hlu⟩ := latestTransaction_mem _ po.UserID l hlatest
      exact FirstEntryInv_append (updateOrder db s (some a) po.Number) _ _ rfl rfl rfl
        ⟨l, hlm, hlu, rfl⟩ hupd

theorem processOrders_preserves_all (client : AccrualClient) (faults : TickFaults)
    (P : DB → Prop) (hP : ∀ db po, P db → P (OrderWorker.processOne client faults db po))
    (orders : List ProcessingOrder) :
    ∀ db, P db → P (OrderWorker.processOrders client faults orders db) := by
  induction orders with
  | nil => intro db h; exact h
  | cons po rest ih =>
    intro db h
    exact ih _ (hP db po h)

theorem process_preserves_all (client : AccrualClient) (faults : TickFaults)
    (P : DB → Prop) (hP : ∀ db po, P db → P (OrderWorker.processOne client faults db po))
    (db : DB) (h : P db) : P (OrderWorker.process client faults db) := by
  unfold OrderWorker.process
  cases DBOrderStorage.GetNotProcessedOrders db faults.getNotProcessed with
  | error e => exact h
  | ok orders => exact processOrders_preserves_all client faults P hP orders db h

theorem FirstEntryInv_step (db : DB) (a : Action) (h : FirstEntryInv db) :
    FirstEntryInv (step db a) := by
  cases a with
  | AddUser fault login hashedPass => exact FirstEntryInv_AddUser db fault login hashedPass h
  | UploadOrder fault getFails userID number =>
    exact FirstEntryInv_UploadOrder db fault getFails userID number h
  | Withdraw fail req => exact FirstEntryInv_Withdraw db fail req h
  | process client faults =>
    exact process_preserves_all client faults FirstEntryInv
      (fun db po hdb => FirstEntryInv_processOne client faults db po hdb) db h

theorem FirstEntryInv_reachable (ok : DB → Action → Prop) (db : DB) (h : Reachable ok db) :
    FirstEntryInv db := by
  induction h with
  | init =>
    refine ⟨?_, ?_, ?_⟩
    · intro r hr; cases hr
    · intro t ht; cases ht
    · intro r hr; cases hr
  | step db a _ _ ih => exact FirstEntryInv_step db a ih

/-- After a successful `AddUser` in a state with the invariant, the latest
ledger row of the new user is the row of `insertFirstTransaction`. -/
theorem latestTransaction_after_AddUser (db db1 : DB) (h : FirstEntryInv db)
    (ht : db1.transactions = db.transactions ++ [zeroEntry (db.userSeq + 1)]) :
    latestTransaction db1 (db.userSeq + 1) = some (zeroEntry (db.userSeq + 1)) := by
  obtain ⟨h1, h2, _⟩ := h
  have hnil : List.filter (fun t : TransactionRow => decide (t.user_id = db.userSeq + 1))
      db.transactions = [] := by
    rw [List.filter_eq_nil_iff]
    intro t htm
    obtain ⟨r, hr, hrid⟩ := (h2 t htm).1
    have hne : t.user_id ≠ db.userSeq + 1 := by
      intro heq
      have h5 : db.userSeq + 1 ≤ db.userSeq := by rw [← heq, ← hrid]; exact h1 r hr
      omega
    simp [hne]
  unfold latestTransaction
  rw [ht, List.filter_append, hnil]
  simp [zeroEntry, maxByID]

/-! ## C21: one first ledger entry per registered user -/

/-- C21: in every state reachable from the empty database by registrations,
uploads, withdrawals and worker ticks (with any driver failures), every
registered user has exactly one ledger row with sequence id 0, the row
`(0, null, user, 0, 0, 0)`; an `AddUser` that returns an id has appended the
user row and this ledger row, and `GetBalance` for that id then returns
`{0, 0}`; an `AddUser` that returns an error has changed neither table. -/
theorem first_ledger_entry (ok : DB → Action → Prop) (db : DB) (hreach : Reachable ok db) :
    (∀ userID, registered db userID → firstEntries db userID = [zeroEntry userID]) ∧
    (∀ fault login hashedPass id,
      (DBUserStorage.AddUser db fault login hashedPass).2 = Except.ok id →
        (DBUserStorage.AddUser db fault login hashedPass).1.users = db.users ++
          [{ id := id, login := login, password := hashedPass }] ∧
        (DBUserStorage.AddUser db fault login hashedPass).1.transactions = db.transactions ++
          [zeroEntry id] ∧
        OrderServiceImpl.GetBalance (DBUserStorage.AddUser db fault login hashedPass).1 false id
          = Except.ok { Current := 0, Withdrawn := 0 }) ∧
    (∀ fault login hashedPass err,
      (DBUserStorage.AddUser db fault login hashedPass).2 = Except.error err →
        (DBUserStorage.AddUser db fault login hashedPass).1.users = db.users ∧
        (DBUserStorage.AddUser db fault login hashedPass).1.transactions = db.transactions) := by
  have hinv := FirstEntryInv_reachable ok db hreach
  refine ⟨?_, ?_, ?_⟩
  · intro userID hreg
    obtain ⟨r, hr, hrid⟩ := hreg
    rw [← hrid]
    exact hinv.2.2 r hr
  · intro fault login hashedPass id hid
    rcases AddUser_result db fault login hashedPass with ⟨e, he, _⟩ | ⟨hok, hu, ht, _⟩
    · rw [he] at hid; cases hid
    · rw [hok] at hid
      cases hid
      refine ⟨hu, ht, ?_⟩
      unfold OrderServiceImpl.GetBalance DBOrderStorage.GetBalance
      rw [latestTransaction_after_AddUser db _ hinv ht]
      rfl
  · intro fault login hashedPass err herr
    rcases AddUser_result db fault login hashedPass with ⟨_, _, hu, ht, _⟩ | ⟨hok, _⟩
    · exact ⟨hu, ht⟩
    · rw [hok] at herr; cases herr

/-- The theorem of C21 in the state of the scenario after the credit of 500: the
user 1 has the single first entry, although the ledger has two rows. -/
theorem first_ledger_entry_witness :
    Reachable (fun _ _ => True) ledger500 ∧
      (∀ userID, registered ledger500 userID →
        firstEntries ledger500 userID = [zeroEntry userID]) :=
  ⟨reachable_ledger500 _ trivial trivial trivial,
    (first_ledger_entry (fun _ _ => True) ledger500
      (reachable_ledger500 _ trivial trivial trivial)).1⟩

example : firstEntries ledger500 1 = [zeroEntry 1] := by
  simp [firstEntries, ledger500, zeroEntry]

example : (DBUserStorage.AddUser ledger500 Fault.none "alice" "other").2
    = Except.error Err.ErrAlreadyExists := by
  simp [DBUserStorage.AddUser, ledger500]

/-! ## C22: registration with a login that is taken -/

theorem AddUser_existing_login (db : DB) (fault : Fault) (login hashedPass : String)
    (hlogin : ∃ r ∈ db.users, r.login = login) (hbegin : fault ≠ Fault.begin)
    (hfirst : fault ≠ Fault.first) :
    DBUserStorage.AddUser db fault login hashedPass
      = ({ db with userSeq := db.userSeq + 1 }, Except.error Err.ErrAlreadyExists) := by
  have hany : db.users.any (fun r => decide (r.login = login)) = true := by
    obtain ⟨r, hr, hrl⟩ := hlogin
    rw [List.any_eq_true]
    exact ⟨r, hr, by simp [hrl]⟩
  unfold DBUserStorage.AddUser
  rw [if_neg hbegin, if_neg hfirst, if_pos hany]

theorem ValidateAuthData_ok (login pass : String) (hlogin : login ≠ "") (hpass : pass ≠ "") :
    AuthHandler.ValidateAuthData { Login := login, Password := pass } = none := by
  unfold AuthHandler.ValidateAuthData
  rw [if_neg hlogin, if_neg hpass]

/-- The first registration of the scenario: `ledgerAlice` is what
`RegisterUser("alice", "secret")` leaves, and a token is returned. -/
example :
    (authAB.RegisterUser plainBcrypt concatMAC 0 DB.empty Fault.none "alice" "secret").1
      = ledgerAlice := by
  simp [AuthServiceImpl.RegisterUser, plainBcrypt, DBUserStorage.AddUser, DB.empty,
    AuthServiceImpl.CreateToken, ledgerAlice]
  decide

/-! ## C23: what the login endpoint answers when a check fails -/

theorem GetUser_missing (db : DB) (login : String) (hmissing : ∀ u ∈ db.users, u.login ≠ login) :
    DBUserStorage.GetUser db false login = Except.error Err.ErrNotFound := by
  have hnone : db.users.find? (fun r => decide (r.login = login)) = none := by
    rw [List.find?_eq_none]
    intro u hu
    simp [hmissing u hu]
  unfold DBUserStorage.GetUser
  simp only [Bool.false_eq_true, if_false, hnone]

/-- C23: with no driver failure, a login request for a login that no row of
`users` carries is answered 401 with the body "not found", and a login
request for an existing login with a password that bcrypt refuses is answered
401 with the body "incorrect password": the status codes are equal and the
two responses differ. -/
theorem AuthUser_reveals_failed_check (a : AuthServiceImpl) (bcrypt : Bcrypt)
    (hmacSHA256 : MAC) (now : Int) (db : DB) (missing existing pass1 pass2 : String)
    (r : UserRow) (hash : List Byte)
    (hmissing : ∀ u ∈ db.users, u.login ≠ missing)
    (hexisting : db.users.find? (fun u => u.login = existing) = some r)
    (hhash : DecodeString r.password = some hash)
    (hwrong : bcrypt.CompareHashAndPassword hash pass2 = false)
    (hlogin1 : missing ≠ "") (hpass1 : pass1 ≠ "") (hlogin2 : existing ≠ "")
    (hpass2 : pass2 ≠ "") :
    AuthHandler.AuthUser a bcrypt hmacSHA256 now db false
        (Except.ok { Login := missing, Password := pass1 })
      = { StatusCode := 401, Authorization := none, Body := "not found\n" } ∧
    AuthHandler.AuthUser a bcrypt hmacSHA256 now db false
        (Except.ok { Login := existing, Password := pass2 })
      = { StatusCode := 401, Authorization := none, Body := "incorrect password\n" } ∧
    AuthHandler.AuthUser a bcrypt hmacSHA256 now db false
        (Except.ok { Login := missing, Password := pass1 })
      ≠ AuthHandler.AuthUser a bcrypt hmacSHA256 now db false
        (Except.ok { Login := existing, Password := pass2 }) := by
  have h1 : AuthHandler.AuthUser a bcrypt hmacSHA256 now db false
        (Except.ok { Login := missing, Password := pass1 })
      = { StatusCode := 401, Authorization := none, Body := "not found\n" } := by
    unfold AuthHandler.AuthUser AuthServiceImpl.AuthUser
    simp only [ValidateAuthData_ok missing pass1 hlogin1 hpass1, GetUser_missing db missing hmissing]
    rfl
  have h2 : AuthHandler.AuthUser a bcrypt hmacSHA256 now db false
        (Except.ok { Login := existing, Password := pass2 })
      = { StatusCode := 401, Authorization := none, Body := "incorrect password\n" } := by
    have hget : DBUserStorage.GetUser db false existing = Except.ok (r.id, r.password) := by
      unfold DBUserStorage.GetUser
      simp only [Bool.false_eq_true, if_false, hexisting]
    unfold AuthHandler.AuthUser AuthServiceImpl.AuthUser
    simp only [ValidateAuthData_ok existing pass2 hlogin2 hpass2, hget, hhash, hwrong]
    rfl
  refine ⟨h1, h2, ?_⟩
  rw [h1, h2]
  decide

/-- The theorem of C23 on the database of the scenario: "bob" is not registered,
"alice" is registered with the password "secret". -/
theorem AuthUser_reveals_failed_check_witness :
    AuthHandler.AuthUser authAB plainBcrypt concatMAC 0 ledgerAlice false
        (Except.ok { Login := "bob", Password := "secret" })
      = { StatusCode := 401, Authorization := none, Body := "not found\n" } ∧
    AuthHandler.AuthUser authAB plainBcrypt concatMAC 0 ledgerAlice false
        (Except.ok { Login := "alice", Password := "wrong" })
      = { StatusCode := 401, Authorization := none, Body := "incorrect password\n" } ∧
    AuthHandler.AuthUser authAB plainBcrypt concatMAC 0 ledgerAlice false
        (Except.ok { Login := "bob", Password := "secret" })
      ≠ AuthHandler.AuthUser authAB plainBcrypt concatMAC 0 ledgerAlice false
        (Except.ok { Login := "alice", Password := "wrong" }) :=
  AuthUser_reveals_failed_check authAB plainBcrypt concatMAC 0 ledgerAlice "bob" "alice"
    "secret" "wrong" { id := 1, login := "alice", password := "736563726574" }
    ("secret".data.map (fun c : Char => toByte c.toNat))
    (by simp [ledgerAlice]) (by simp [ledgerAlice]) (by decide) (by decide)
    (by decide) (by decide) (by decide) (by decide)

/-- The right password of the scenario is accepted: status 200 and a token. -/
example :
    (AuthHandler.AuthUser authAB plainBcrypt concatMAC 0 ledgerAlice false
        (Except.ok { Login := "alice", Password := "secret" })).StatusCode = 200 := by
  simp [AuthHandler.AuthUser, AuthHandler.ValidateAuthData, AuthServiceImpl.AuthUser,
    DBUserStorage.GetUser, ledgerAlice, AuthServiceImpl.CreateToken]
  have h : DecodeString "736563726574"
      = some ("secret".data.map (fun c : Char => toByte c.toNat)) := by decide
  simp [h, plainBcrypt]

/-! ## C25: the Auth middleware on a token that `CheckToken` refuses -/

/-- The errors of `CheckToken`: the wrapped decoding error exactly when the
token is not a hexadecimal string, `ErrUnauthorized` otherwise. -/
theorem CheckToken_errors (a : AuthServiceImpl) (hmacSHA256 : MAC) (now : Int)
    (token : String) :
    (DecodeString token = none ∧
      a.CheckToken hmacSHA256 now token = (0, some (Err.Wrapped "decode token error"))) ∨
    (DecodeString token ≠ none ∧
      ((a.CheckToken hmacSHA256 now token).2 = none ∨
        a.CheckToken hmacSHA256 now token = (0, some Err.ErrUnauthorized))) := by
  unfold AuthServiceImpl.CheckToken
  cases hdec : DecodeString token with
  | none => exact Or.inl ⟨rfl, rfl⟩
  | some data =>
    refine Or.inr ⟨by simp, ?_⟩
    simp only
    split
    · exact Or.inr rfl
    · split
      · exact Or.inr rfl
      · split
        · exact Or.inr rfl
        · exact Or.inl rfl

/-- C25: when `CheckToken` fails on the value of the `Authorization` header,
the middleware does not call the wrapped handler (the database is left as it
was and the response is the same for every wrapped handler); it answers 401
with the body "unauthorized" when the value is a hexadecimal string (a
missing or empty header, a payload that is too short, an expired token, a
wrong MAC), and 500 with the body "Internal server error" when the value is
not a hexadecimal string. -/
theorem Auth_rejects (a : AuthServiceImpl) (hmacSHA256 : MAC) (now : Int)
    (next : UserID → DB → DB × Response) (authorization : String) (db : DB)
    (hfail : (a.CheckToken hmacSHA256 now authorization).2 ≠ none) :
    (AuthHandler.Auth a hmacSHA256 now next authorization db).1 = db ∧
    (∀ next2 : UserID → DB → DB × Response,
      AuthHandler.Auth a hmacSHA256 now next2 authorization db
        = AuthHandler.Auth a hmacSHA256 now next authorization db) ∧
    (DecodeString authorization ≠ none →
      (AuthHandler.Auth a hmacSHA256 now next authorization db).2
        = { StatusCode := 401, Authorization := none, Body := "unauthorized\n" }) ∧
    (DecodeString authorization = none →
      (AuthHandler.Auth a hmacSHA256 now next authorization db).2
        = { StatusCode := 500, Authorization := none, Body := "Internal server error\n" }) := by
  rcases CheckToken_errors a hmacSHA256 now authorization with ⟨hdec, hct⟩ | ⟨hdec, hok | hct⟩
  · have hauth : ∀ n : UserID → DB → DB × Response,
        AuthHandler.Auth a hmacSHA256 now n authorization db
          = (db, httpError "Internal server error" 500) := by
      intro n
      unfold AuthHandler.Auth
      rw [hct]
      rfl
    refine ⟨by rw [hauth], fun n => by rw [hauth, hauth], fun h => absurd hdec h, ?_⟩
    intro _
    rw [hauth]
    rfl
  · exact absurd hok hfail
  · have hauth : ∀ n : UserID → DB → DB × Response,
        AuthHandler.Auth a hmacSHA256 now n authorization db
          = (db, httpError "unauthorized" 401) := by
      intro n
      unfold AuthHandler.Auth
      rw [hct]
      rfl
    refine ⟨by rw [hauth], fun n => by rw [hauth, hauth], ?_, fun h => absurd h hdec⟩
    intro _
    rw [hauth]
    rfl

/-- The theorem of C25 at the header value "zz", which is not a hexadecimal string:
the middleware answers 500 and the wrapped withdrawal does not run. -/
theorem Auth_rejects_witness :
    (authAB.CheckToken concatMAC 0 "zz").2 ≠ none ∧
    AuthHandler.Auth authAB concatMAC 0 nextWithdraw300 "zz" ledger500
      = (ledger500,
          { StatusCode := 500, Authorization := none, Body := "Internal server error\n" }) :=
  ⟨by decide,
    Prod.ext (Auth_rejects authAB concatMAC 0 nextWithdraw300 "zz" ledger500 (by decide)).1
      ((Auth_rejects authAB concatMAC 0 nextWithdraw300 "zz" ledger500
        (by decide)).2.2.2 (by decide))⟩

/-- The case "Test without token" of `auth_handler_test.go`: no header, 401. -/
example :
    AuthHandler.Auth authAB concatMAC 0 nextWithdraw300 "" ledger500
      = (ledger500, { StatusCode := 401, Authorization := none, Body := "unauthorized\n" }) := by
  have h : authAB.CheckToken concatMAC 0 "" = (0, some Err.ErrUnauthorized) := by decide
  unfold AuthHandler.Auth
  rw [h]
  rfl

/-- With the token of user 1 the wrapped handler runs: the withdrawal of 300
from `ledger500` is made and answered 200. -/
example :
    (AuthHandler.Auth authAB concatMAC 0 nextWithdraw300 tokenAB ledger500).2.StatusCode
      = 200 := by
  have h : authAB.CheckToken concatMAC 0 tokenAB = (1, none) := by decide
  unfold AuthHandler.Auth
  rw [h]
  simp [nextWithdraw300, OrderHandler.Withdraw, ValidateWithdrawReq, OrderServiceImpl.Withdraw,
    DBOrderStorage.Withdraw, insertDebitTransaction, latestTransaction_ledger500]
  norm_num [row500]
  decide

/-! ## The worker: what a tick does to each order of its list -/

/-- The order rows after one iteration are the rows before, each passed
through a function that depends on the oracle, the driver and the pending
order only, keeps the number, and is the identity on other numbers. -/
theorem processOne_orders_map (client : AccrualClient) (faults : TickFaults)
    (po : ProcessingOrder) :
    ∃ f : OrderRow → OrderRow, (∀ o, (f o).number = o.number) ∧
      (∀ o, o.number ≠ po.Number → f o = o) ∧
      ∀ d, (OrderWorker.processOne client faults d po).orders = d.orders.map f := by
  by_cases hf : faults.update po.Number = Fault.none
  · cases hpo : OrderWorker.processOrder client po with
    | error e =>
      refine ⟨id, fun _ => rfl, fun _ _ => rfl, fun d => ?_⟩
      simp [OrderWorker.processOne, hpo]
    | ok r =>
      obtain ⟨hn, _⟩ := processOrder_keeps_key client po r hpo
      cases hacc : r.Accrual with
      | none =>
        refine ⟨fun o => if o.number = po.Number then { o with status := r.Status } else o,
          ?_, ?_, fun d => ?_⟩
        · intro o; by_cases h : o.number = po.Number <;> simp [h]
        · intro o h; simp [h]
        · simp [OrderWorker.processOne, hpo, hacc, hf, DBOrderStorage.UpdateOrderStatus,
            updateOrderStatus, hn]
      | some a =>
        refine ⟨fun o => if o.number = po.Number
            then { o with status := r.Status, accrual := some a } else o, ?_, ?_, fun d => ?_⟩
        · intro o; by_cases h : o.number = po.Number <;> simp [h]
        · intro o h; simp [h]
        · simp [OrderWorker.processOne, hpo, hacc, hf, DBOrderStorage.UpdateOrderAccrual,
            insertCreditTransaction_orders, updateOrder, hn]
  · refine ⟨id, fun _ => rfl, fun _ _ => rfl, fun d => ?_⟩
    rw [processOne_of_fault client faults d po hf, List.map_id]

/-- In a list with distinct numbers, the rows of an order of the list after
the loop are its rows after its own iteration on the initial database. -/
theorem processOrders_row_of (client : AccrualClient) (faults : TickFaults)
    (orders : List ProcessingOrder) :
    ∀ db po, po ∈ orders → (orders.map (fun q => q.Number)).Nodup →
      ∀ o : OrderRow, o.number = po.Number →
        (o ∈ (OrderWorker.processOrders client faults orders db).orders ↔
          o ∈ (OrderWorker.processOne client faults db po).orders) := by
  induction orders with
  | nil => intro db po hmem; cases hmem
  | cons p rest ih =>
    intro db po hmem hnd o ho
    rw [List.map_cons, List.nodup_cons] at hnd
    obtain ⟨hp, hrest⟩ := hnd
    have hother : ∀ q ∈ rest, q.Number ≠ p.Number := by
      intro q hq heq
      exact hp (heq ▸ List.mem_map_of_mem (fun q => q.Number) hq)
    simp only [OrderWorker.processOrders]
    rcases List.mem_cons.mp hmem with heq | hin
    · subst heq
      exact (processOrders_other client faults po.Number rest _ hother).1 o ho
    · have hne : po.Number ≠ p.Number := hother po hin
      rw [ih (OrderWorker.processOne client faults db p) po hin hrest o ho]
      obtain ⟨f, hfn, _, hmap⟩ := processOne_orders_map client faults po
      rw [hmap, hmap]
      simp only [List.mem_map]
      have hsame : ∀ r : OrderRow, f r = o →
          (r ∈ (OrderWorker.processOne client faults db p).orders ↔ r ∈ db.orders) := by
        intro r hr
        have hrn : r.number = po.Number := by rw [← hfn r, hr, ho]
        exact processOne_other_rows client faults db p r.number (by rw [hrn]; exact hne) r rfl
      constructor
      · rintro ⟨r, hr, hfr⟩
        exact ⟨r, (hsame r hfr).mp hr, hfr⟩
      · rintro ⟨r, hr, hfr⟩
        exact ⟨r, (hsame r hfr).mpr hr, hfr⟩

theorem processOne_transactions_mono (client : AccrualClient) (faults : TickFaults) (db : DB)
    (po : ProcessingOrder) (t : TransactionRow) (ht : t ∈ db.transactions) :
    t ∈ (OrderWorker.processOne client faults db po).transactions := by
  rcases processOne_cases client faults db po with h | ⟨s, _, h⟩ | ⟨s, a, _, h⟩
  · rw [h]; exact ht
  · rw [h]; exact ht
  · rw [h]
    rcases insertCreditTransaction_cases (updateOrder db s (some a) po.Number) po.Number
      po.UserID a with ⟨_, h2⟩ | ⟨l, _, h2⟩
    · rw [h2]; exact ht
    · rw [h2]; exact List.mem_append_left _ ht

theorem processOrders_transactions_mono (client : AccrualClient) (faults : TickFaults)
    (orders : List ProcessingOrder) (db : DB) (t : TransactionRow) (ht : t ∈ db.transactions) :
    t ∈ (OrderWorker.processOrders client faults orders db).transactions :=
  processOrders_preserves_all client faults (fun d => t ∈ d.transactions)
    (fun d po hd => processOne_transactions_mono client faults d po t hd) orders db ht

/-- An order of the list whose iteration is the credit of `a` has, after the
loop, a ledger row with its number, its user and the amount `a`, when its
user has a ledger row at the start. -/
theorem processOrders_credit (client : AccrualClient) (faults : TickFaults)
    (po : ProcessingOrder) (a : ℚ)
    (hone : ∀ d, OrderWorker.processOne client faults d po =
      insertCreditTransaction (updateOrder d OrderStatus.Processed (some a) po.Number)
        po.Number po.UserID a)
    (orders : List ProcessingOrder) :
    ∀ db, po ∈ orders → (∃ t ∈ db.transactions, t.user_id = po.UserID) →
      ∃ t ∈ (OrderWorker.processOrders client faults orders db).transactions,
        t.number = some po.Number ∧ t.user_id = po.UserID ∧ t.sum = a := by
  induction orders with
  | nil => intro db hmem; cases hmem
  | cons p rest ih =>
    intro db hmem huser
    simp only [OrderWorker.processOrders]
    rcases List.mem_cons.mp hmem with heq | hin
    · subst heq
      obtain ⟨t, _, _, _, heq⟩ := insertCreditTransaction_latest
        (updateOrder db OrderStatus.Processed (some a) po.Number) po.Number po.UserID a huser
      have hrow : TransactionRow.mk (t.id + 1) (some po.Number) po.UserID a (t.balance + a)
          t.withdrawals ∈ (OrderWorker.processOne client faults db po).transactions := by
        rw [hone db, heq]
        exact List.mem_append_right _ (List.mem_singleton_self _)
      exact ⟨_, processOrders_transactions_mono client faults rest _ _ hrow, rfl, rfl, rfl⟩
    · obtain ⟨t, ht, hu⟩ := huser
      exact ih _ hin ⟨t, processOne_transactions_mono client faults db p t ht, hu⟩

/-- The rows of a number after a map that rewrites exactly the rows of that
number. -/
theorem mem_map_rows (rows : List OrderRow) (n : OrderNumber) (g : OrderRow → OrderRow)
    (o : OrderRow) (ho : o.number = n) :
    o ∈ rows.map (fun r => if r.number = n then g r else r) ↔
      ∃ r ∈ rows, r.number = n ∧ o = g r := by
  simp only [List.mem_map]
  constructor
  · rintro ⟨r, hr, hfr⟩
    by_cases hn : r.number = n
    · rw [if_pos hn] at hfr
      exact ⟨r, hr, hn, hfr.symm⟩
    · rw [if_neg hn] at hfr
      exact absurd (hfr ▸ ho) hn
  · rintro ⟨r, hr, hn, heq⟩
    exact ⟨r, hr, by rw [if_pos hn]; exact heq.symm⟩

/-- C18. Within one tick over any list of pending orders.  An order whose
oracle query fails (transport error, unreadable or unparsable body, a status
code other than 200), or whose store update fails, gets no store update: the
database is the same after its iteration, and after the whole tick its order
rows and its ledger rows are those of the start, so it is not marked Invalid.
The tick ends in the database it would end in if the failing orders were not
in the list.  Every other order of a list with distinct numbers (as
`GetNotProcessedOrders` reads it) is queried, the client returns the oracle's
answer, and the order is updated: after the whole tick its rows are those its
own iteration produces; for the answer `INVALID` or `PROCESSING` (order read
without accrual) they are the rows of the start with that status, and for
`PROCESSED` with an accrual `a` they carry status Processed and accrual `a`
and the ledger holds a row with the order's number, its user and the amount
`a`, when the user has a ledger row. -/
theorem tick_skips_failed_orders (http : String → AccrualResponse) (faults : TickFaults)
    (orders : List ProcessingOrder) (db : DB) :
    (∀ d po, queryFails (http po.Number) = true →
      OrderWorker.processOne (AccrualClientImpl.GetAccrual http) faults d po = d) ∧
    (∀ d po, faults.update po.Number ≠ Fault.none →
      OrderWorker.processOne (AccrualClientImpl.GetAccrual http) faults d po = d) ∧
    (∀ po ∈ orders, (queryFails (http po.Number) = true ∨ faults.update po.Number ≠ Fault.none) →
      (∀ o : OrderRow, o.number = po.Number →
        (o ∈ (OrderWorker.processOrders (AccrualClientImpl.GetAccrual http) faults orders
            db).orders ↔ o ∈ db.orders)) ∧
      entriesOf (OrderWorker.processOrders (AccrualClientImpl.GetAccrual http) faults orders db)
        po.Number = entriesOf db po.Number) ∧
    OrderWorker.processOrders (AccrualClientImpl.GetAccrual http) faults orders db =
      OrderWorker.processOrders (AccrualClientImpl.GetAccrual http) faults
        (orders.filter (fun po => !queryFails (http po.Number) &&
          decide (faults.update po.Number = Fault.none))) db ∧
    ((orders.map (fun po => po.Number)).Nodup →
      ∀ po ∈ orders, queryFails (http po.Number) = false →
      faults.update po.Number = Fault.none →
      ∃ acc, (http po.Number).body = some acc ∧
        AccrualClientImpl.GetAccrual http po.Number = Except.ok acc ∧
        (∀ o : OrderRow, o.number = po.Number →
          (o ∈ (OrderWorker.processOrders (AccrualClientImpl.GetAccrual http) faults orders
              db).orders ↔
            o ∈ (OrderWorker.processOne (AccrualClientImpl.GetAccrual http) faults db
              po).orders)) ∧
        (po.Accrual = none → acc.Status = StatusInvalid →
          ∀ o : OrderRow, o.number = po.Number →
            (o ∈ (OrderWorker.processOrders (AccrualClientImpl.GetAccrual http) faults orders
                db).orders ↔
              ∃ r ∈ db.orders, r.number = po.Number ∧
                o = { r with status := OrderStatus.Invalid })) ∧
        (po.Accrual = none → acc.Status = StatusProcessing →
          ∀ o : OrderRow, o.number = po.Number →
            (o ∈ (OrderWorker.processOrders (AccrualClientImpl.GetAccrual http) faults orders
                db).orders ↔
              ∃ r ∈ db.orders, r.number = po.Number ∧
                o = { r with status := OrderStatus.Processing })) ∧
        (∀ a, acc.Status = StatusProcessed → acc.Accrual = some a →
          (∀ o : OrderRow, o.number = po.Number →
            (o ∈ (OrderWorker.processOrders (AccrualClientImpl.GetAccrual http) faults orders
                db).orders ↔
              ∃ r ∈ db.orders, r.number = po.Number ∧
                o = { r with status := OrderStatus.Processed, accrual := some a })) ∧
          ((∃ t ∈ db.transactions, t.user_id = po.UserID) →
            ∃ t ∈ (OrderWorker.processOrders (AccrualClientImpl.GetAccrual http) faults orders
                db).transactions,
              t.number = some po.Number ∧ t.user_id = po.UserID ∧ t.sum = a))) := by
  have hquery : ∀ d po, queryFails (http po.Number) = true →
      OrderWorker.processOne (AccrualClientImpl.GetAccrual http) faults d po = d := by
    intro d po h
    obtain ⟨err, herr⟩ := GetAccrual_of_queryFails http po.Number h
    exact processOne_of_error _ faults d po err herr
  have hstore : ∀ d po, faults.update po.Number ≠ Fault.none →
      OrderWorker.processOne (AccrualClientImpl.GetAccrual http) faults d po = d :=
    fun d po h => processOne_of_fault _ faults d po h
  refine ⟨hquery, hstore, ?_, ?_, ?_⟩
  · intro po _ hfail
    refine processOrders_preserves_all (AccrualClientImpl.GetAccrual http) faults
      (fun d => (∀ o : OrderRow, o.number = po.Number → (o ∈ d.orders ↔ o ∈ db.orders)) ∧
        entriesOf d po.Number = entriesOf db po.Number) ?_ orders db
      ⟨fun _ _ => Iff.rfl, rfl⟩
    intro d q hd
    by_cases hn : q.Number = po.Number
    · have hsame : OrderWorker.processOne (AccrualClientImpl.GetAccrual http) faults d q = d := by
        rcases hfail with h | h
        · exact hquery d q (by rw [hn]; exact h)
        · exact hstore d q (by rw [hn]; exact h)
      rw [hsame]
      exact hd
    · have hn1 : po.Number ≠ q.Number := fun h => hn h.symm
      refine ⟨fun o ho => ?_, ?_⟩
      · rw [processOne_other_rows _ faults d q po.Number hn1 o ho]
        exact hd.1 o ho
      · rw [processOne_other_entries _ faults d q po.Number hn1]
        exact hd.2
  · apply processOrders_filter
    intro d po hk
    simp only [Bool.and_eq_false_iff, Bool.not_eq_false', decide_eq_false_iff_not] at hk
    rcases hk with hk | hk
    · exact hquery d po hk
    · exact hstore d po hk
  · intro hnodup po hmem hq hf
    obtain ⟨acc, hbody, hacc⟩ := GetAccrual_of_not_queryFails http po.Number hq
    have hrow := processOrders_row_of (AccrualClientImpl.GetAccrual http) faults orders db po
      hmem hnodup
    refine ⟨acc, hbody, hacc, hrow, ?_, ?_, ?_⟩
    · intro hpa hs o ho
      have hone : (OrderWorker.processOne (AccrualClientImpl.GetAccrual http) faults db
          po).orders = db.orders.map (fun r =>
            if r.number = po.Number then { r with status := OrderStatus.Invalid } else r) := by
        simp [OrderWorker.processOne, OrderWorker.processOrder, hacc, hs, hpa, hf,
          DBOrderStorage.UpdateOrderStatus, updateOrderStatus]
      rw [hrow o ho, hone]
      exact mem_map_rows db.orders po.Number
        (fun r => { r with status := OrderStatus.Invalid }) o ho
    · intro hpa hs o ho
      have hone : (OrderWorker.processOne (AccrualClientImpl.GetAccrual http) faults db
          po).orders = db.orders.map (fun r =>
            if r.number = po.Number then { r with status := OrderStatus.Processing } else r) := by
        simp [OrderWorker.processOne, OrderWorker.processOrder, hacc, hs, hpa, hf,
          StatusProcessing_ne_StatusInvalid, DBOrderStorage.UpdateOrderStatus,
          updateOrderStatus]
      rw [hrow o ho, hone]
      exact mem_map_rows db.orders po.Number
        (fun r => { r with status := OrderStatus.Processing }) o ho
    · intro a hs ha
      have hone : ∀ d, OrderWorker.processOne (AccrualClientImpl.GetAccrual http) faults d po =
          insertCreditTransaction (updateOrder d OrderStatus.Processed (some a) po.Number)
            po.Number po.UserID a := by
        intro d
        simp [OrderWorker.processOne, OrderWorker.processOrder, hacc, hs,
          StatusProcessed_ne_StatusInvalid, StatusProcessed_ne_StatusProcessing, ha, hf,
          DBOrderStorage.UpdateOrderAccrual]
      refine ⟨fun o ho => ?_, fun huser => ?_⟩
      · rw [hrow o ho, hone db, insertCreditTransaction_orders]
        exact mem_map_rows db.orders po.Number
          (fun r => { r with status := OrderStatus.Processed, accrual := some a }) o ho
      · exact processOrders_credit (AccrualClientImpl.GetAccrual http) faults po a hone orders db
          hmem huser

/-- The theorem of C18 on a tick over two pending orders: the oracle answers 500
for "12345678903" and `INVALID` for "2377225624".  The first order keeps its
row (status New), the second is marked Invalid. -/
theorem tick_skips_failed_orders_witness :
    ([pending903, pending624].map (fun po => po.Number)).Nodup ∧
    (∀ o : OrderRow, o.number = "12345678903" →
      (o ∈ (OrderWorker.processOrders (AccrualClientImpl.GetAccrual httpFailsFor903) noFaults
          [pending903, pending624] ledgerTwoOrders).orders ↔ o ∈ ledgerTwoOrders.orders)) ∧
    (∀ o : OrderRow, o.number = "2377225624" →
      (o ∈ (OrderWorker.processOrders (AccrualClientImpl.GetAccrual httpFailsFor903) noFaults
          [pending903, pending624] ledgerTwoOrders).orders ↔
        ∃ r ∈ ledgerTwoOrders.orders, r.number = "2377225624" ∧
          o = { r with status := OrderStatus.Invalid })) := by
  have hnodup : ([pending903, pending624].map (fun po => po.Number)).Nodup := by decide
  have h := tick_skips_failed_orders httpFailsFor903 noFaults [pending903, pending624]
    ledgerTwoOrders
  refine ⟨hnodup, ?_, ?_⟩
  · exact (h.2.2.1 pending903 (by simp) (Or.inl (by decide))).1
  · obtain ⟨acc, hbody, _, _, hinvalid, _⟩ :=
      h.2.2.2.2 hnodup pending624 (by simp) (by decide) rfl
    have hacc : acc.Status = StatusInvalid := by
      have hb : (httpFailsFor903 pending624.Number).body
          = some { Number := "2377225624", Status := StatusInvalid, Accrual := none } := by
        simp [httpFailsFor903, pending624]
      rw [hb] at hbody
      cases hbody
      rfl
    exact hinvalid rfl hacc

/-- The tick of the scenario with two orders, evaluated: the list read by
`GetNotProcessedOrders` and the database after the tick. -/
example : DBOrderStorage.GetNotProcessedOrders ledgerTwoOrders false
    = Except.ok [pending903, pending624] := by
  simp [DBOrderStorage.GetNotProcessedOrders, ledgerTwoOrders, pending903, pending624]

example : OrderWorker.process (AccrualClientImpl.GetAccrual httpFailsFor903) noFaults
    ledgerTwoOrders = ledgerSecondInvalid := by
  simp [OrderWorker.process, DBOrderStorage.GetNotProcessedOrders, noFaults,
    OrderWorker.processOrders, OrderWorker.processOne, OrderWorker.processOrder,
    AccrualClientImpl.GetAccrual, httpFailsFor903, DBOrderStorage.UpdateOrderStatus,
    updateOrderStatus, ledgerTwoOrders, ledgerSecondInvalid]

end Gofermart
